import Mathlib

/-!
# MACE: a shallow embedding of `src/MACE.cpp`

The batch Bayesian-optimisation driver of `MACE.cpp`, written as pure Lean
functions over an explicit driver state.

Conventions of the embedding.

* `double` is a type parameter `K`.  Definitions only ask of `K` what they use
  (an order, a ring, a field), so they evaluate over `ℚ` and the theorems hold
  over `ℝ` ("exact real arithmetic").
* `VectorXd` is the list of its entries, `MatrixXd` its row count together with
  the list of its columns.
* `size_t` is `Nat`.  The counters count objective evaluations and iterations
  and are not reduced; where the unsigned arithmetic of the source wraps around
  in states the driver reaches (the subtraction in `_set_kappa`) the reduction
  modulo `2 ^ 64` is written out.
* `exit(EXIT_FAILURE)`, a failed `assert`/`MYASSERT` and undefined behaviour
  (an out-of-range access, dereferencing an end iterator) are constructors of
  `Fatal`; code that can reach one returns `Except Fatal _`.  A loop that
  retries on random draws consumes a finite list of draws and reports
  `Fatal.unfinished` when the list ends first.
* What comes from outside `MACE.cpp` (the surrogate `GP`, the optimisers
  `MOO`/`MVMO`/`NLopt`, the random engine, `libm`) is passed in as data:
  the result those calls returned.
-/

namespace MACE

/-! ## Data model -/

/-- Eigen `VectorXd`: the entries from index 0. -/
abbrev VectorXd (K : Type) := List K

/-- Eigen `MatrixXd`: the number of rows and the columns from index 0. -/
structure MatrixXd (K : Type) where
  rows : Nat
  colList : List (VectorXd K)

/-- Every column of the matrix has `rows` entries. -/
def MatrixXd.WF {K : Type} (m : MatrixXd K) : Prop :=
  ∀ c ∈ m.colList, c.length = m.rows

/-- The call `m.cols()`. -/
def MatrixXd.cols {K : Type} (m : MatrixXd K) : Nat := m.colList.length

/-- The ways a call does not return a value. -/
inductive Fatal where
  /-- The call `exit(EXIT_FAILURE)`. -/
  | exit_failure
  /-- A failed `assert` or `MYASSERT`. -/
  | assertion
  /-- Undefined behaviour: out-of-range access, dereferenced end iterator. -/
  | undefined
  /-- A retry loop on random draws was still running when the supplied draws
  ran out: the call has not returned yet. -/
  | unfinished
  deriving DecidableEq, Repr

/-- Modelled from the spec: the macro `MYASSERT` of `util.h`, which is not part
of `MACE.cpp`.  A condition that does not hold terminates the process (the
spec lists the conditions it guards, bounds violated by supplied inputs among
them, as fatal, process-terminating). -/
def MYASSERT (cond : Prop) [Decidable cond] : Except Fatal Unit :=
  if cond then .ok () else .error .assertion

/-- The surrogate model (class `GP`, outside `MACE.cpp`): its training set, its
`trained()` flag, and its posterior at a point for output `i`:
`predict i x = (mean, variance)`, `predict_with_grad i x` the same with the two
gradients. -/
structure GP (K : Type) where
  train_in : MatrixXd K
  train_out : MatrixXd K
  trained : Bool
  predict : Nat → VectorXd K → K × K
  predict_with_grad : Nat → VectorXd K → K × K × VectorXd K × VectorXd K

/-- The selection policy `_ss`. -/
inductive SelectStrategy where
  | Random
  | Greedy
  | Extreme
  deriving DecidableEq, Repr

/-- The driver: the data members of class `MACE` that `MACE.cpp` reads or
writes.  The first group is set by the constructor's initialiser list, the
second is declared (with its default) in `MACE.h`. -/
@[ext]
structure Driver (K : Type) where
  _func : VectorXd K → VectorXd K
  _lb : VectorXd K
  _ub : VectorXd K
  _scaled_lb : K
  _scaled_ub : K
  _a : VectorXd K
  _b : VectorXd K
  _num_spec : Nat
  _dim : Nat
  _max_eval : Nat
  _tol_no_improvement : Nat
  _eval_fixed : Nat
  _gp : Option (GP K)
  _eval_counter : Nat
  _have_feas : Bool
  _best_x : VectorXd K
  _best_y : VectorXd K
  _eval_x : MatrixXd K
  _eval_y : MatrixXd K
  _no_improve_counter : Nat
  _num_init : Nat
  _batch_size : Nat
  _acq_pool : List String
  _ss : SelectStrategy
  _eps : K
  _kappa : K
  _upsilon : K
  _delta : K
  _EI_jitter : K
  _posterior_ref : Bool
  _best_posterior_y : VectorXd K
  _noise_free : Bool
  _force_select_hyp : Bool

/-! ## Construction and the search-space mapper -/

/-- Coefficient-wise `u - v`. -/
def vsub {K : Type} [Sub K] (u v : VectorXd K) : VectorXd K := List.zipWith (· - ·) u v

/-- Coefficient-wise `u + v`. -/
def vadd {K : Type} [Add K] (u v : VectorXd K) : VectorXd K := List.zipWith (· + ·) u v

/-- Coefficient-wise product `u.cwiseProduct(v)`. -/
def vmul {K : Type} [Mul K] (u v : VectorXd K) : VectorXd K := List.zipWith (· * ·) u v

/-- Coefficient-wise quotient `u.cwiseQuotient(v)`. -/
def vdiv {K : Type} [Div K] (u v : VectorXd K) : VectorXd K := List.zipWith (· / ·) u v

/-- The test `(u.array() < v.array()).all()`. -/
def allLt {K : Type} [LT K] [DecidableRel (fun (x y : K) => x < y)] (u v : VectorXd K) : Bool :=
  (List.zipWith (fun x y => decide (x < y)) u v).all id

/-- The constructor `MACE::MACE(f, num_spec, lb, ub, log_name)`.  `INF` is the
macro of `util.h`; `dflt` supplies the members that the initialiser list does
not mention (their in-class defaults of `MACE.h`). -/
def create {K : Type} [LinearOrderedField K] (dflt : Driver K) (INF : K)
    (f : VectorXd K → VectorXd K) (num_spec : Nat) (lb ub : VectorXd K) :
    Except Fatal (Driver K) :=
  let scaled_lb : K := -25
  let scaled_ub : K := 25
  let s : Driver K :=
    { dflt with
      _func := f
      _lb := lb
      _ub := ub
      _scaled_lb := scaled_lb
      _scaled_ub := scaled_ub
      _a := (vsub ub lb).map (fun v => v / (scaled_ub - scaled_lb))
      _b := (vadd ub lb).map (fun v => (1 / 2) * v)
      _num_spec := num_spec
      _dim := lb.length
      _max_eval := 500
      _tol_no_improvement := 10
      _eval_fixed := 500
      _gp := none
      _eval_counter := 0
      _have_feas := false
      _best_x := List.replicate lb.length INF
      _best_y := List.replicate num_spec INF
      _eval_x := ⟨lb.length, []⟩
      _eval_y := ⟨num_spec, []⟩ }
  if ¬ (scaled_lb < scaled_ub) then .error .assertion
  else if ¬ (lb.length = ub.length ∧ allLt lb ub = true) then .error .assertion
  else if num_spec > 1 then .error .exit_failure
  else .ok s

/-- The method `_rescale`: from `[_scaled_lb, _scaled_ub]` to `[_lb, _ub]`,
`a * x + b` in every column. -/
def _rescale {K : Type} [Add K] [Mul K] (s : Driver K) (xs : MatrixXd K) : MatrixXd K :=
  ⟨xs.rows, xs.colList.map (fun c => vadd (vmul s._a c) s._b)⟩

/-- The method `_unscale`: from `[_lb, _ub]` to `[_scaled_lb, _scaled_ub]`,
`(x - b) / a` in every column. -/
def _unscale {K : Type} [Sub K] [Div K] (s : Driver K) (xs : MatrixXd K) : MatrixXd K :=
  ⟨xs.rows, xs.colList.map (fun c => vdiv (vsub c s._b) s._a)⟩

/-! ## The incumbent and the evaluation of a batch -/

/-- The method `_is_feas`: every constraint entry (index 1 on) is `<= 0`. -/
def _is_feas {K : Type} [LinearOrder K] [Zero K] (v : VectorXd K) : Bool :=
  if v.length > 1 then v.tail.all (fun c => decide (c ≤ 0)) else true

/-- The method `_violation`: `0` for one entry, else the sum of the positive
parts of the constraint entries.  For an empty vector `tail(size() - 1)` is out
of range. -/
def _violation {K : Type} [LinearOrder K] [Zero K] [Add K] (xs : VectorXd K) :
    Except Fatal K :=
  if xs.length = 1 then .ok 0
  else if xs.length = 0 then .error .undefined
  else .ok (xs.tail.map (fun c => max c 0)).sum

/-- The access `v(0)`. -/
def coeff0 {K : Type} (v : VectorXd K) : Except Fatal K :=
  match v with
  | [] => .error .undefined
  | a :: _ => .ok a

/-- The method `_better`: feasible beats infeasible, then the smaller
objective `v(0)`, then the smaller total violation. -/
def _better {K : Type} [LinearOrder K] [Zero K] [Add K] (v1 v2 : VectorXd K) :
    Except Fatal Bool :=
  if _is_feas v1 && _is_feas v2 then do
    let a ← coeff0 v1
    let b ← coeff0 v2
    pure (decide (a < b))
  else if _is_feas v1 then .ok true
  else if _is_feas v2 then .ok false
  else do
    let a ← _violation v1
    let b ← _violation v2
    pure (decide (a < b))

/-- The body of the second loop of `_run_func` for column `i`: compare the
observed column with the incumbent, replace it when `_better`, record
feasibility.  The flag is `no_improve`. -/
def run_func_visit {K : Type} [LinearOrder K] [Zero K] [Add K]
    (acc : Driver K × Bool) (xy : VectorXd K × VectorXd K) : Except Fatal (Driver K × Bool) := do
  let (s, no_improve) := acc
  let (x, y) := xy
  let b ← _better y s._best_y
  let (s1, ni1) := if b then ({ s with _best_x := x, _best_y := y }, false) else (s, no_improve)
  let s2 := if _is_feas y then { s1 with _have_feas := true } else s1
  pure (s2, ni1)

/-- The second loop of `_run_func`, over the columns in index order. -/
def run_func_scan {K : Type} [LinearOrder K] [Zero K] [Add K] :
    Driver K × Bool → List (VectorXd K × VectorXd K) → Except Fatal (Driver K × Bool)
  | acc, [] => .ok acc
  | acc, xy :: rest => do
    let acc1 ← run_func_visit acc xy
    run_func_scan acc1 rest

/-- The method `_run_func`: evaluate the objective at every (rescaled) column,
update the incumbent and the counters, return the outputs.  Writing an output
of another size than `_num_spec` into `ys.col(i)` is out of range. -/
def _run_func {K : Type} [LinearOrder K] [Zero K] [Add K] [Mul K]
    (s : Driver K) (xs : MatrixXd K) : Except Fatal (Driver K × MatrixXd K) :=
  let num_pnts := xs.cols
  let scaled_xs := _rescale s xs
  let ys : MatrixXd K := ⟨s._num_spec, scaled_xs.colList.map s._func⟩
  if ¬ (∀ y ∈ ys.colList, y.length = s._num_spec) then .error .undefined
  else do
    let (s1, no_improve) ← run_func_scan (s, true) (scaled_xs.colList.zip ys.colList)
    let s2 :=
      if no_improve then { s1 with _no_improve_counter := s1._no_improve_counter + 1 }
      else { s1 with _no_improve_counter := 0 }
    pure ({ s2 with _eval_counter := s2._eval_counter + num_pnts }, ys)

/-! ## Initialisation -/

/-- The method `_seq_idx`: the indices `0, ..., n - 1`. -/
def _seq_idx (n : Nat) : List Nat := List.range n

/-- The access `m.col(i)`. -/
def MatrixXd.col {K : Type} (m : MatrixXd K) (i : Nat) : Except Fatal (VectorXd K) :=
  match m.colList[i]? with
  | some c => .ok c
  | none => .error .undefined

/-- Insertion of `a` into a list ordered by the comparator `lt`. -/
def sortInsert (lt : Nat → Nat → Except Fatal Bool) (a : Nat) :
    List Nat → Except Fatal (List Nat)
  | [] => .ok [a]
  | b :: l => do
    if (← lt b a) then
      let r ← sortInsert lt a l
      pure (b :: r)
    else
      pure (a :: b :: l)

/-- The call `std::sort(idxs.begin(), idxs.end(), lt)`, as an insertion sort
(the standard leaves the order of equivalent elements open; this one keeps
it). -/
def sortBy (lt : Nat → Nat → Except Fatal Bool) : List Nat → Except Fatal (List Nat)
  | [] => .ok []
  | a :: l => do
    let r ← sortBy lt l
    sortInsert lt a r

/-- The comparator that `_find_best` passes to the sort:
`_better(dby.col(i1), dby.col(i2))`. -/
def better_cols {K : Type} [LinearOrder K] [Zero K] [Add K] (dby : MatrixXd K)
    (i1 i2 : Nat) : Except Fatal Bool := do
  let c1 ← dby.col i1
  let c2 ← dby.col i2
  _better c1 c2

/-- The method `_find_best`: sort the column indices by `_better`, return the
first. -/
def _find_best {K : Type} [LinearOrder K] [Zero K] [Add K] (dby : MatrixXd K) :
    Except Fatal Nat := do
  let idxs := _seq_idx dby.cols
  let sorted ← sortBy (better_cols dby) idxs
  match sorted with
  | [] => .error .undefined
  | i :: _ => .ok i

/-- The test `(m.array() <= v.replicate(1, m.cols()).array()).all()`; the two
sides must have the same number of rows. -/
def allColsLe {K : Type} [LinearOrder K] (m : MatrixXd K) (v : VectorXd K) : Bool :=
  m.colList.all (fun c => c.length = v.length ∧ (List.zipWith (fun x y => decide (x ≤ y)) c v).all id)

/-- The test `(m.array() >= v.replicate(1, m.cols()).array()).all()`. -/
def allColsGe {K : Type} [LinearOrder K] (m : MatrixXd K) (v : VectorXd K) : Bool :=
  m.colList.all (fun c => c.length = v.length ∧ (List.zipWith (fun x y => decide (x ≥ y)) c v).all id)

/-- The call `m.allFinite()`, for the finiteness test `finite` of a `double`. -/
def allFinite {K : Type} (finite : K → Bool) (m : MatrixXd K) : Bool :=
  m.colList.all (fun c => c.all finite)

/-- The method `initialize(dbx, dby)`.  `newGP x y` is the surrogate that
`new GP(x, y.transpose())` constructs, `finite` the finiteness test of a
`double`. -/
def initialize_db {K : Type} [LinearOrderedField K] (newGP : MatrixXd K → MatrixXd K → GP K)
    (finite : K → Bool) (s : Driver K) (dbx dby : MatrixXd K) : Except Fatal (Driver K) :=
  if s._gp.isSome then .error .exit_failure
  else do
    MYASSERT (dbx.rows = s._dim)
    MYASSERT (dby.rows = s._num_spec)
    MYASSERT (dbx.cols = dby.cols)
    MYASSERT (allColsLe dbx s._ub = true)
    MYASSERT (allColsGe dbx s._lb = true)
    let scaled_dbx := _unscale s dbx
    if dbx.cols < 2 then .error .exit_failure
    else if ¬ (allFinite finite dby = true) then .error .exit_failure
    else do
      let best_id ← _find_best dby
      let best_x ← dbx.col best_id
      let best_y ← dby.col best_id
      pure { s with
        _best_x := best_x
        _best_y := best_y
        _have_feas := _is_feas best_y
        _gp := some (newGP scaled_dbx dby)
        _no_improve_counter := 0 }

/-- The method `_doe`: `num` sample points in `[0, 1]^dim` (from the Sobol
sequence or the uniform generator: `unit i` is the `i`-th one), mapped
coefficient-wise to the canonical box. -/
def _doe {K : Type} [Add K] [Sub K] [Mul K] (s : Driver K) (unit : Nat → VectorXd K)
    (num : Nat) : MatrixXd K :=
  let a := s._scaled_ub - s._scaled_lb
  let b := s._scaled_lb
  ⟨s._dim, (List.range num).map (fun i => (unit i).map (fun v => a * v + b))⟩

/-- The method `initialize(init_size)`: sample, evaluate, initialise. -/
def initialize_size {K : Type} [LinearOrderedField K] (newGP : MatrixXd K → MatrixXd K → GP K)
    (finite : K → Bool) (unit : Nat → VectorXd K) (s : Driver K) (init_size : Nat) :
    Except Fatal (Driver K) := do
  let dbx := _doe s unit init_size
  let (s1, dby) ← _run_func s dbx
  initialize_db newGP finite s1 (_rescale s1 dbx) dby

/-- The setter `set_init_num`. -/
def set_init_num {K : Type} (s : Driver K) (n : Nat) : Driver K := { s with _num_init := n }

/-- The setter `set_max_eval`. -/
def set_max_eval {K : Type} (s : Driver K) (n : Nat) : Driver K := { s with _max_eval := n }

/-- The setter `set_batch`. -/
def set_batch {K : Type} (s : Driver K) (n : Nat) : Driver K := { s with _batch_size := n }

/-- The setter `set_force_select_hyp`. -/
def set_force_select_hyp {K : Type} (s : Driver K) (f : Bool) : Driver K :=
  { s with _force_select_hyp := f }

/-- The setter `set_tol_no_improvement`. -/
def set_tol_no_improvement {K : Type} (s : Driver K) (n : Nat) : Driver K :=
  { s with _tol_no_improvement := n }

/-- The setter `set_eval_fixed`. -/
def set_eval_fixed {K : Type} (s : Driver K) (n : Nat) : Driver K := { s with _eval_fixed := n }

/-! ## Candidate selector -/

/-- The method `_set_random(num)`: `num` random points of the canonical box;
`sample i` is the `i`-th column that `rand_matrix` returned. -/
def _set_random {K : Type} (s : Driver K) (sample : Nat → VectorXd K) (num : Nat) :
    MatrixXd K :=
  ⟨s._dim, (List.range num).map sample⟩

/-- The dereference `*max_element(idxs.begin(), idxs.end())`: for an empty
vector the iterator returned is `end()`. -/
def maxElement : List Nat → Except Fatal Nat
  | [] => .error .undefined
  | a :: l => .ok (l.foldl max a)

/-- The method `_slice_matrix`: the columns of `m` at the indices `idxs`. -/
def _slice_matrix {K : Type} (m : MatrixXd K) (idxs : List Nat) :
    Except Fatal (MatrixXd K) := do
  let mx ← maxElement idxs
  MYASSERT (mx < m.cols)
  let cs ← idxs.mapM (fun i => m.col i)
  pure ⟨m.rows, cs⟩

/-- The call `picked_set.insert(d)` on a `std::set`, kept as the ascending list
of its elements. -/
def setInsert (d : Nat) : List Nat → List Nat
  | [] => [d]
  | b :: l => if d < b then d :: b :: l else if d = b then b :: l else b :: setInsert d l

/-- The loop `while(picked_set.size() < m) picked_set.insert(i_distr(_engine))`
on the successive draws. -/
def pick_loop (m : Nat) : List Nat → List Nat → Except Fatal (List Nat)
  | picked, [] => if picked.length < m then .error .unfinished else .ok picked
  | picked, d :: ds => if picked.length < m then pick_loop m (setInsert d picked) ds else .ok picked

/-- The method `_pick_from_seq(n, m)`: `m` distinct indices below `n`, in
ascending order; `draws` are the values drawn from `[0, n - 1]`. -/
def _pick_from_seq (n m : Nat) (draws : List Nat) : Except Fatal (List Nat) := do
  MYASSERT (m ≤ n)
  pick_loop m [] draws

/-- The statement `MatrixXd m(rows, cols); m << A, B;` for two blocks of the
full height, side by side.  Eigen asserts that the blocks fit and fill the
matrix; blocks of another height are reported as the failed assertion. -/
def commaInit2 {K : Type} (rows cols : Nat) (A B : MatrixXd K) : Except Fatal (MatrixXd K) :=
  if A.rows = rows ∧ B.rows = rows ∧ A.cols + B.cols = cols then
    .ok ⟨rows, A.colList ++ B.colList⟩
  else .error .assertion

/-- The method `_select_candidate_random`. -/
def _select_candidate_random {K : Type} (s : Driver K) (draws : List Nat)
    (sample : Nat → VectorXd K) (ps _pf : MatrixXd K) : Except Fatal (MatrixXd K) := do
  let eval_idxs ← _pick_from_seq ps.cols
    (if ps.cols > s._batch_size then s._batch_size else ps.cols) draws
  let num_rand := if s._batch_size > eval_idxs.length then s._batch_size - eval_idxs.length else 0
  let sliced ← _slice_matrix ps eval_idxs
  commaInit2 s._dim s._batch_size sliced (_set_random s sample num_rand)

/-- The call `v.minCoeff()`; Eigen asserts that `v` is not empty. -/
def minCoeff {K : Type} [LinearOrder K] : List K → Except Fatal K
  | [] => .error .assertion
  | a :: l => .ok (l.foldl min a)

/-- The scan behind `v.minCoeff(&idx)` after the first entry: `(best, bestIdx)`
so far, `i` the index of the next entry; a later entry wins only when strictly
smaller. -/
def minIdxScan {K : Type} [LinearOrder K] : K × Nat → Nat → List K → Nat
  | (_, bi), _, [] => bi
  | (b, bi), i, a :: l => if a < b then minIdxScan (a, i) (i + 1) l else minIdxScan (b, bi) (i + 1) l

/-- The call `v.minCoeff(&idx)`: the first index of the least entry. -/
def minCoeffIdx {K : Type} [LinearOrder K] : List K → Except Fatal Nat
  | [] => .error .assertion
  | a :: l => .ok (minIdxScan (a, 0) 1 l)

/-- The scan behind `v.maxCoeff(&idx)` after the first entry. -/
def maxIdxScan {K : Type} [LinearOrder K] : K × Nat → Nat → List K → Nat
  | (_, bi), _, [] => bi
  | (b, bi), i, a :: l => if a > b then maxIdxScan (a, i) (i + 1) l else maxIdxScan (b, bi) (i + 1) l

/-- The call `v.maxCoeff(&idx)`: the first index of the greatest entry. -/
def maxCoeffIdx {K : Type} [LinearOrder K] : List K → Except Fatal Nat
  | [] => .error .assertion
  | a :: l => .ok (maxIdxScan (a, 0) 1 l)

/-- The Euclidean norm `v.norm()` (`v.lpNorm<2>()`), for the square root
`sqrt` of `libm`. -/
def norm {K : Type} [Zero K] [Add K] [Mul K] (sqrt : K → K) (v : VectorXd K) : K :=
  sqrt (v.map (fun c => c * c)).sum

/-- The access `v(i)`. -/
def coeff {K : Type} (v : VectorXd K) (i : Nat) : Except Fatal K :=
  match v.get? i with
  | some a => .ok a
  | none => .error .undefined

/-- The access `m.row(i)`. -/
def MatrixXd.row {K : Type} (m : MatrixXd K) (i : Nat) : Except Fatal (List K) :=
  if i < m.rows then m.colList.mapM (fun c => coeff c i)
  else .error .undefined

/-- The body of the loop of `_select_candidate_greedy`: build the reference
set (training inputs, then the Pareto columns selected so far), take for each
Pareto column its least distance to the reference set, select the first column
where that is greatest. -/
def greedy_step {K : Type} [LinearOrder K] [Zero K] [Add K] [Sub K] [Mul K] (sqrt : K → K)
    (s : Driver K) (dbx ps : MatrixXd K) (selected_idx : List Nat) : Except Fatal (List Nat) := do
  let picked ← if selected_idx.isEmpty then pure ⟨s._dim, []⟩ else _slice_matrix ps selected_idx
  let ref ← commaInit2 s._dim (dbx.cols + selected_idx.length) dbx picked
  if ¬ (ps.rows = s._dim) then .error .assertion
  else do
    let dists ← ps.colList.mapM (fun pj => minCoeff (ref.colList.map (fun r => norm sqrt (vsub r pj))))
    let max_idx ← maxCoeffIdx dists
    pure (selected_idx ++ [max_idx])

/-- The loop of `_select_candidate_greedy`: `n` selections. -/
def greedy_loop {K : Type} [LinearOrder K] [Zero K] [Add K] [Sub K] [Mul K] (sqrt : K → K)
    (s : Driver K) (dbx ps : MatrixXd K) : Nat → List Nat → Except Fatal (List Nat)
  | 0, selected_idx => .ok selected_idx
  | n + 1, selected_idx => do
    let sel ← greedy_step sqrt s dbx ps selected_idx
    greedy_loop sqrt s dbx ps n sel

/-- The method `_select_candidate_greedy`. -/
def _select_candidate_greedy {K : Type} [LinearOrder K] [Zero K] [Add K] [Sub K] [Mul K]
    (sqrt : K → K) (s : Driver K) (sample : Nat → VectorXd K) (ps _pf : MatrixXd K) :
    Except Fatal (MatrixXd K) := do
  let batch_selection := if ps.cols < s._batch_size then ps.cols else s._batch_size
  let gp ← match s._gp with
    | some g => pure g
    | none => .error .undefined
  let dbx := gp.train_in
  let selected_idx ← greedy_loop sqrt s dbx ps batch_selection []
  let num_rand := s._batch_size - selected_idx.length
  let sliced ← _slice_matrix ps selected_idx
  commaInit2 s._dim s._batch_size sliced (_set_random s sample num_rand)

/-- The body of the loop of `_select_candidate_extreme` for pool entry `i`:
column `i` becomes the Pareto point that is least in row `i` of the front. -/
def extreme_step {K : Type} [LinearOrder K] (ps pf : MatrixXd K)
    (candidates : MatrixXd K) (i : Nat) : Except Fatal (MatrixXd K) := do
  let row ← pf.row i
  let best_idx ← minCoeffIdx row
  let c ← ps.col best_idx
  if ¬ (i < candidates.cols ∧ c.length = candidates.rows) then .error .undefined
  else pure ⟨candidates.rows, candidates.colList.set i c⟩

/-- The loop of `_select_candidate_extreme` over the indices given. -/
def extreme_loop {K : Type} [LinearOrder K] (ps pf : MatrixXd K) :
    MatrixXd K → List Nat → Except Fatal (MatrixXd K)
  | candidates, [] => .ok candidates
  | candidates, i :: is => do
    let c1 ← extreme_step ps pf candidates i
    extreme_loop ps pf c1 is

/-- The method `_select_candidate_extreme`. -/
def _select_candidate_extreme {K : Type} [LinearOrder K] (s : Driver K) (draws : List Nat)
    (sample : Nat → VectorXd K) (ps pf : MatrixXd K) : Except Fatal (MatrixXd K) := do
  let candidates ← _select_candidate_random s draws sample ps pf
  let num_extreme := min s._acq_pool.length (min s._batch_size ps.cols)
  extreme_loop ps pf candidates (List.range num_extreme)

/-- The method `_select_candidate`: dispatch on the policy `_ss`. -/
def _select_candidate {K : Type} [LinearOrder K] [Zero K] [Add K] [Sub K] [Mul K]
    (sqrt : K → K) (s : Driver K) (draws : List Nat) (sample : Nat → VectorXd K)
    (ps pf : MatrixXd K) : Except Fatal (MatrixXd K) :=
  match s._ss with
  | .Random => _select_candidate_random s draws sample ps pf
  | .Greedy => _select_candidate_greedy sqrt s sample ps pf
  | .Extreme => _select_candidate_extreme s draws sample ps pf

/-! ## Duplicate guard -/

/-- The method `_duplication_checking(x, ref)`: some column of `ref` is closer
to `x` than `_eps * (_scaled_ub - _scaled_lb)`. -/
def _duplication_checking {K : Type} [LinearOrder K] [Zero K] [Add K] [Sub K] [Mul K]
    (sqrt : K → K) (s : Driver K) (x : VectorXd K) (ref : MatrixXd K) : Bool :=
  ref.colList.any (fun r => decide (norm sqrt (vsub x r) < s._eps * (s._scaled_ub - s._scaled_lb)))

/-- The loop `while(_duplication_checking(adjusted.col(i), ref))
adjusted.col(i) = _set_random(1)`: `draws` are the points that the successive
calls of `_set_random(1)` return; the result is the accepted column and the
draws not yet used. -/
def adjust_col {K : Type} [LinearOrder K] [Zero K] [Add K] [Sub K] [Mul K]
    (sqrt : K → K) (s : Driver K) (ref : MatrixXd K) :
    VectorXd K → List (VectorXd K) → Except Fatal (VectorXd K × List (VectorXd K))
  | c, [] => if _duplication_checking sqrt s c ref then .error .unfinished else .ok (c, [])
  | c, d :: ds =>
    if _duplication_checking sqrt s c ref then adjust_col sqrt s ref d ds else .ok (c, d :: ds)

/-- The loop of `_adjust_x` from column `i` on: `todo` holds the columns
`i, i + 1, ...` of the input `x`.  The reference set of column `i` is the
training inputs followed by `x.rightCols(x.cols() - i - 1)`, the columns of the
input to its right. -/
def adjust_loop {K : Type} [LinearOrder K] [Zero K] [Add K] [Sub K] [Mul K]
    (sqrt : K → K) (s : Driver K) (train_in : MatrixXd K) (xrows : Nat) :
    List (VectorXd K) → List (VectorXd K) → Except Fatal (List (VectorXd K))
  | [], _ => .ok []
  | c :: rest, draws => do
    let ref ← commaInit2 s._dim (train_in.cols + rest.length) train_in ⟨xrows, rest⟩
    let (c1, draws1) ← adjust_col sqrt s ref c draws
    let rest1 ← adjust_loop sqrt s train_in xrows rest draws1
    pure (c1 :: rest1)

/-- The method `_adjust_x`. -/
def _adjust_x {K : Type} [LinearOrder K] [Zero K] [Add K] [Sub K] [Mul K]
    (sqrt : K → K) (s : Driver K) (draws : List (VectorXd K)) (x : MatrixXd K) :
    Except Fatal (MatrixXd K) :=
  if ¬ (x.rows = s._dim) then .error .assertion
  else if ¬ (x.cols > 0) then .error .assertion
  else do
    let gp ← match s._gp with
      | some g => pure g
      | none => .error .undefined
    let cs ← adjust_loop sqrt s gp.train_in x.rows x.colList draws
    pure ⟨x.rows, cs⟩

/-! ## Kappa scheduler and acquisition functions -/

/-- The functions of `libm` (`sqrt`, `log`, `exp`, `pow`, the constant `M_PI`)
and of `util.h` (`normcdf`, `normpdf`) that `MACE.cpp` calls. -/
structure Numerics (K : Type) where
  sqrt : K → K
  log : K → K
  exp : K → K
  pow : K → K → K
  pi : K
  normcdf : K → K
  normpdf : K → K

/-- The unsigned subtraction `a - b` of two `size_t`. -/
def sizeSub (a b : Nat) : Nat := (a % 2 ^ 64 + (2 ^ 64 - b % 2 ^ 64)) % 2 ^ 64

/-- The iteration number `t` of `_set_kappa`:
`1.0 + (1.0 * (_eval_counter - _num_init)) / _batch_size`. -/
def kappa_t {K : Type} [Field K] (s : Driver K) : K :=
  1 + (1 * ((sizeSub s._eval_counter s._num_init : Nat) : K)) / (s._batch_size : K)

/-- The value that `_set_kappa` assigns for the iteration number `t`:
`sqrt(_upsilon * 2 * log(pow(t, 2.0 + _dim / 2.0) * 3 * pow(M_PI, 2) / (3 * _delta)))`. -/
def kappa_of {K : Type} [Field K] (m : Numerics K) (upsilon delta : K) (dim : Nat) (t : K) : K :=
  m.sqrt (upsilon * 2 * m.log (m.pow t (2 + (dim : K) / 2) * 3 * m.pow m.pi 2 / (3 * delta)))

/-- The method `_set_kappa`. -/
def _set_kappa {K : Type} [Field K] (m : Numerics K) (s : Driver K) : Driver K :=
  { s with _kappa := kappa_of m s._upsilon s._delta s._dim (kappa_t s) }

/-- The method `_get_tau`: the improvement baseline for output `spec_idx`. -/
def _get_tau {K : Type} [LinearOrder K] [Zero K] [Sub K] (s : Driver K) (spec_idx : Nat) :
    Except Fatal K := do
  if s._posterior_ref then
    let v ← coeff s._best_posterior_y spec_idx
    pure (v - max 0 s._EI_jitter)
  else
    let v ← coeff s._best_y spec_idx
    pure (v - max 0 s._EI_jitter)

/-- The dereference `_gp->`. -/
def gpOf {K : Type} (s : Driver K) : Except Fatal (GP K) :=
  match s._gp with
  | some g => .ok g
  | none => .error .undefined

/-- The check `MYASSERT(_gp->trained())`. -/
def assertTrained {K : Type} (s : Driver K) : Except Fatal (GP K) := do
  let g ← gpOf s
  MYASSERT (g.trained = true)
  pure g

/-- The product `c * v` of a scalar and a vector. -/
def smul {K : Type} [Mul K] (c : K) (v : VectorXd K) : VectorXd K := v.map (fun a => c * a)

/-- The quotient `v / c` of a vector by a scalar. -/
def sdiv {K : Type} [Div K] (v : VectorXd K) (c : K) : VectorXd K := v.map (fun a => a / c)

/-- The method `_s2(x)`. -/
def _s2 {K : Type} (s : Driver K) (x : VectorXd K) : Except Fatal K := do
  let g ← assertTrained s
  let (_, s2) := g.predict 0 x
  pure s2

/-- The method `_s2(x, grad)`: the value and the gradient. -/
def _s2_grad {K : Type} (s : Driver K) (x : VectorXd K) : Except Fatal (K × VectorXd K) := do
  let g ← assertTrained s
  let (_, s2, _, gs2) := g.predict_with_grad 0 x
  pure (s2, gs2)

/-- The method `_pi_transf(x)`. -/
def _pi_transf {K : Type} [LinearOrderedField K] (m : Numerics K) (s : Driver K)
    (x : VectorXd K) : Except Fatal K := do
  let g ← assertTrained s
  let (y, s2) := g.predict 0 x
  let sd := m.sqrt s2
  let tau ← _get_tau s 0
  let normed := (tau - y) / sd
  pure normed

/-- The method `_pi_transf(x, grad)`. -/
def _pi_transf_grad {K : Type} [LinearOrderedField K] (m : Numerics K) (s : Driver K)
    (x : VectorXd K) : Except Fatal (K × VectorXd K) := do
  let g ← assertTrained s
  let tau ← _get_tau s 0
  let (y, s2, gy, gs2) := g.predict_with_grad 0 x
  let sd := m.sqrt s2
  let gs := sdiv (smul (1 / 2) gs2) (m.sqrt s2)
  let normed := (tau - y) / sd
  let gnormed := sdiv (smul (-1) (vadd (smul sd gy) (smul (tau - y) gs))) s2
  pure (normed, gnormed)

/-- The method `_log_ei(x)`. -/
def _log_ei {K : Type} [LinearOrderedField K] (m : Numerics K) (s : Driver K)
    (x : VectorXd K) : Except Fatal K := do
  let g ← gpOf s
  let (y, s2) := g.predict 0 x
  let sd := m.sqrt s2
  let tau ← _get_tau s 0
  let normed := (tau - y) / m.sqrt s2
  pure (if normed > -6 then m.log (sd * (normed * m.normcdf normed + m.normpdf normed))
    else m.log sd - (1 / 2) * m.pow normed 2 - m.log (m.sqrt (2 * m.pi))
      - m.log (m.pow normed 2 - 1))

/-- The method `_log_ei(x, grad)`. -/
def _log_ei_grad {K : Type} [LinearOrderedField K] (m : Numerics K) (s : Driver K)
    (x : VectorXd K) : Except Fatal (K × VectorXd K) := do
  let tau ← _get_tau s 0
  let g ← gpOf s
  let (y, s2, gy, gs2) := g.predict_with_grad 0 x
  let sd := m.sqrt s2
  let gs := sdiv (smul (1 / 2) gs2) (m.sqrt s2)
  let normed := (tau - y) / m.sqrt s2
  let gnormed := sdiv (smul (-1) (vadd (smul sd gy) (smul (tau - y) gs))) s2
  if normed > -6 then
    let cdfnormed := m.normcdf normed
    let lambda := normed * cdfnormed + m.normpdf normed
    let ei := sd * lambda
    pure (m.log ei, sdiv (vadd (smul (sd * cdfnormed) gnormed) (smul lambda gs)) ei)
  else
    pure (m.log sd - (1 / 2) * m.pow normed 2 - m.log (m.sqrt (2 * m.pi))
        - m.log (m.pow normed 2 - 1),
      vsub (vsub (sdiv gs sd) (smul normed gnormed))
        (smul ((2 * normed) / (m.pow normed 2 - 1)) gnormed))

/-- The method `_lcb_improv(x)`: `tau - (mean - kappa * sqrt(variance))`. -/
def _lcb_improv {K : Type} [LinearOrderedField K] (m : Numerics K) (s : Driver K)
    (x : VectorXd K) : Except Fatal K := do
  let tau ← _get_tau s 0
  let g ← gpOf s
  let (y, s2) := g.predict 0 x
  let lcb := y - s._kappa * m.sqrt s2
  pure (tau - lcb)

/-- The method `_lcb_improv(x, grad)`. -/
def _lcb_improv_grad {K : Type} [LinearOrderedField K] (m : Numerics K) (s : Driver K)
    (x : VectorXd K) : Except Fatal (K × VectorXd K) := do
  let tau ← _get_tau s 0
  let g ← gpOf s
  let (y, s2, gy, gs2) := g.predict_with_grad 0 x
  let gs := sdiv (smul (1 / 2) gs2) (m.sqrt s2)
  let lcb := y - s._kappa * m.sqrt s2
  let grad := smul (-1) (vsub gy (smul s._kappa gs))
  pure (tau - lcb, grad)

/-- The method `_lcb_improv_transf(x)`. -/
def _lcb_improv_transf {K : Type} [LinearOrderedField K] (m : Numerics K) (s : Driver K)
    (x : VectorXd K) : Except Fatal K := do
  let lcb_improve ← _lcb_improv m s x
  pure (if lcb_improve > 20 then lcb_improve else m.log (1 + m.exp lcb_improve))

/-- The method `_lcb_improv_transf(x, grad)`. -/
def _lcb_improv_transf_grad {K : Type} [LinearOrderedField K] (m : Numerics K) (s : Driver K)
    (x : VectorXd K) : Except Fatal (K × VectorXd K) := do
  let (lcb_improve, grad) ← _lcb_improv_grad m s x
  let val := if lcb_improve > 20 then lcb_improve else m.log (1 + m.exp lcb_improve)
  let grad1 := smul (if lcb_improve > 20 then 1 else m.exp val / (1 + m.exp val)) grad
  pure (val, grad1)

/-- The method `_log_lcb_improv_transf(x)`. -/
def _log_lcb_improv_transf {K : Type} [LinearOrderedField K] (m : Numerics K) (s : Driver K)
    (x : VectorXd K) : Except Fatal K := do
  let lcb_improve ← _lcb_improv m s x
  if lcb_improve > 20 then
    pure (m.log lcb_improve)
  else if lcb_improve > -10 then
    pure (m.log (m.log (1 + m.exp lcb_improve)))
  else
    pure (lcb_improve - (1 / 2) * m.exp lcb_improve)

/-- The method `_log_lcb_improv_transf(x, grad)`. -/
def _log_lcb_improv_transf_grad {K : Type} [LinearOrderedField K] (m : Numerics K)
    (s : Driver K) (x : VectorXd K) : Except Fatal (K × VectorXd K) := do
  let (lcb_improve, grad) ← _lcb_improv_grad m s x
  if lcb_improve > 20 then
    let val := m.log lcb_improve
    pure (val, smul (1 / val) grad)
  else if lcb_improve > -10 then
    let val := m.log (m.log (1 + m.exp lcb_improve))
    pure (val, smul (m.exp lcb_improve
      / (m.log (1 + m.exp lcb_improve) * (1 + m.exp lcb_improve))) grad)
  else
    let val := lcb_improve - (1 / 2) * m.exp lcb_improve
    pure (val, smul (1 - (1 / 2) * m.exp lcb_improve) grad)

/-- The value that `_log_lcb_improv_transf(x)` returns when `_lcb_improv(x)` is
`v`: the three branches of the method, as a function of the LCB improvement. -/
def log_lcb_transf_value {K : Type} [LinearOrderedField K] (log exp : K → K) (v : K) : K :=
  if v > 20 then log v
  else if v > -10 then log (log (1 + exp v))
  else v - (1 / 2) * exp v

/-- The method `_acq(name, x)`: the value form. -/
def _acq {K : Type} [LinearOrderedField K] (m : Numerics K) (s : Driver K) (name : String)
    (x : VectorXd K) : Except Fatal K :=
  if s._num_spec > 1 then .error .exit_failure
  else if name = "pi_transf" then _pi_transf m s x
  else if name = "log_lcb_improv_transf" then _log_lcb_improv_transf m s x
  else if name = "log_ei" then _log_ei m s x
  else if name = "s2" then _s2 s x
  else .error .exit_failure

/-- The method `_acq(name, x, grad)`: the value and gradient form. -/
def _acq_grad {K : Type} [LinearOrderedField K] (m : Numerics K) (s : Driver K) (name : String)
    (x : VectorXd K) : Except Fatal (K × VectorXd K) :=
  if name = "pi_transf" then _pi_transf_grad m s x
  else if name = "log_lcb_improv_transf" then _lcb_improv_transf_grad m s x
  else if name = "log_ei" then _log_ei_grad m s x
  else if name = "s2" then _s2_grad s x
  else .error .exit_failure

/-! ## The optimisation loop -/

/-- What the collaborators outside `MACE.cpp` returned during one call of
`optimize_one_step`: the surrogate after training and after `add_data`, the
best posterior mean, the Pareto set of the feasibility search, the points of
the exploration sampler (`mvmo_best i` for column `i`), the Pareto set and
front of the acquisition ensemble, the point at which the optimisers first
evaluate the acquisitions, and the random draws. -/
structure StepEnv (K : Type) where
  train : GP K → GP K
  add_data : GP K → MatrixXd K → MatrixXd K → GP K
  best_posterior_y : VectorXd K
  pf_pareto_set : MatrixXd K
  mvmo_best : Nat → VectorXd K
  ps : MatrixXd K
  pf : MatrixXd K
  seed : VectorXd K
  select_draws : List Nat
  select_sample : Nat → VectorXd K
  adjust_draws : List (VectorXd K)

/-- The method `_train_GP`: the training itself is the surrogate's; the test
`_no_improve_counter % _tol_no_improvement` divides by zero for a zero
tolerance. -/
def _train_GP {K : Type} (env : StepEnv K) (s : Driver K) : Except Fatal (Driver K) := do
  let g ← gpOf s
  if ¬ s._force_select_hyp ∧ s._no_improve_counter > 0 ∧ s._tol_no_improvement = 0 then
    .error .undefined
  else pure { s with _gp := some (env.train g) }

/-- The method `_set_best_posterior_mean`: it asserts a trained surrogate; the
search is the optimisers'. -/
def _set_best_posterior_mean {K : Type} (env : StepEnv K) (s : Driver K) :
    Except Fatal (Driver K) :=
  match s._gp with
  | none => .error .assertion
  | some g =>
    if ¬ g.trained then .error .assertion
    else .ok { s with _best_posterior_y := env.best_posterior_y }

/-- The method `_adaptive_sampling`: it asserts a trained surrogate; one point
per column of the batch, each the best point of one run of the variance
search. -/
def _adaptive_sampling {K : Type} (env : StepEnv K) (s : Driver K) :
    Except Fatal (MatrixXd K) :=
  match s._gp with
  | none => .error .assertion
  | some g =>
    if ¬ g.trained then .error .assertion
    else .ok ⟨s._dim, (List.range s._batch_size).map env.mvmo_best⟩

/-- The acquisition ensemble of the exploitation branch: `_set_anchor` runs the
value and gradient form, the multi-objective search the value form, of every
pool entry (here at the point `seed`), before the Pareto set is returned. -/
def acq_ensemble {K : Type} [LinearOrderedField K] (m : Numerics K) (env : StepEnv K)
    (s : Driver K) : List String → Except Fatal Unit
  | [] => .ok ()
  | name :: rest => do
    let _ ← _acq_grad m s name env.seed
    let _ ← _acq m s name env.seed
    acq_ensemble m env s rest

/-- The two statements `_eval_x = _adjust_x(_eval_x); _eval_y = _run_func(_eval_x);`
that end both branches of `optimize_one_step`, for the batch `x0`. -/
def adjust_and_evaluate {K : Type} [LinearOrderedField K] (m : Numerics K) (env : StepEnv K)
    (t0 : Driver K) (x0 : MatrixXd K) : Except Fatal (Driver K) := do
  let x ← _adjust_x m.sqrt t0 env.adjust_draws x0
  let (t, y) ← _run_func t0 x
  pure { t with _eval_x := x, _eval_y := y }

/-- The batch of `optimize_one_step` when a feasible point is known: the
exploration sampler at a stagnation boundary, else the acquisition ensemble
and the candidate selector. -/
def choose_batch {K : Type} [LinearOrderedField K] (m : Numerics K) (env : StepEnv K)
    (s : Driver K) : Except Fatal (Driver K × MatrixXd K) :=
  if s._no_improve_counter > 0 ∧ s._tol_no_improvement = 0 then .error .undefined
  else if s._no_improve_counter > 0 ∧ s._no_improve_counter % s._tol_no_improvement = 0 then
    if ¬ (s._num_spec = 1) then .error .assertion
    else do
      let x ← _adaptive_sampling env s
      pure (s, x)
  else do
    let t := _set_kappa m s
    acq_ensemble m env t t._acq_pool
    let x ← _select_candidate m.sqrt t env.select_draws env.select_sample env.ps env.pf
    pure (t, x)

/-- The last statement of `optimize_one_step`:
`_gp->add_data(_eval_x, _eval_y.transpose())`. -/
def add_batch {K : Type} (env : StepEnv K) (s : Driver K) : Except Fatal (Driver K) := do
  let g ← gpOf s
  pure { s with _gp := some (env.add_data g s._eval_x s._eval_y) }

/-- The method `optimize_one_step`. -/
def optimize_one_step {K : Type} [LinearOrderedField K] (m : Numerics K) (env : StepEnv K)
    (s : Driver K) : Except Fatal (Driver K) := do
  if s._gp.isNone then .error .exit_failure
  else do
    let s1 ← _train_GP env s
    let s2 ← _set_best_posterior_mean env s1
    let s3 ←
      if ¬ s2._have_feas then do
        MYASSERT (env.pf_pareto_set.cols = 1)
        adjust_and_evaluate m env s2 env.pf_pareto_set
      else do
        let (t0, x0) ← choose_batch m env s2
        adjust_and_evaluate m env t0 x0
    add_batch env s3

/-- The loop `while(_eval_counter < _max_eval) optimize_one_step();` of
`optimize`, with at most `fuel` iterations: `none` when the fuel ends first,
else the outcome, with the states in which the loop condition was tested (the
last one is the state at exit).  `envs k` is what the collaborators returned
during call `k`. -/
def optimize_loop {K : Type} [LinearOrderedField K] (m : Numerics K) (envs : Nat → StepEnv K) :
    Nat → Nat → Driver K → Option (Except Fatal (List (Driver K)))
  | 0, _, s => if s._eval_counter < s._max_eval then none else some (.ok [s])
  | fuel + 1, k, s =>
    if s._eval_counter < s._max_eval then
      match optimize_one_step m (envs k) s with
      | .error e => some (.error e)
      | .ok s1 =>
        match optimize_loop m envs fuel (k + 1) s1 with
        | none => none
        | some (.error e) => some (.error e)
        | some (.ok tr) => some (.ok (s :: tr))
    else some (.ok [s])

/-- The method `optimize`: initialise from `_num_init` samples when there is no
surrogate yet, then iterate until the evaluation budget is used. -/
def optimize {K : Type} [LinearOrderedField K] (m : Numerics K)
    (newGP : MatrixXd K → MatrixXd K → GP K) (finite : K → Bool) (unit : Nat → VectorXd K)
    (envs : Nat → StepEnv K) (fuel : Nat) (s : Driver K) :
    Option (Except Fatal (List (Driver K))) :=
  if s._gp.isNone then
    match initialize_size newGP finite unit s s._num_init with
    | .error e => some (.error e)
    | .ok s0 => optimize_loop m envs fuel 0 s0
  else optimize_loop m envs fuel 0 s

/-! ## Values used in the proofs and the examples -/

/-- The value of `_violation` on a non-empty vector. -/
def violationVal {K : Type} [LinearOrder K] [Zero K] [Add K] (xs : VectorXd K) : K :=
  if xs.length = 1 then 0 else (xs.tail.map (fun c => max c 0)).sum

/-- The comparison `v1(0) < v2(0)` on two non-empty vectors. -/
def objLt {K : Type} [LinearOrder K] : VectorXd K → VectorXd K → Bool
  | a :: _, b :: _ => decide (a < b)
  | _, _ => false

/-- The value of `_better` on two non-empty vectors. -/
def betterVal {K : Type} [LinearOrder K] [Zero K] [Add K] (v1 v2 : VectorXd K) : Bool :=
  if _is_feas v1 && _is_feas v2 then objLt v1 v2
  else if _is_feas v1 then true
  else if _is_feas v2 then false
  else decide (violationVal v1 < violationVal v2)

/-- A surrogate for the examples: two training inputs in dimension one, a
constant posterior (mean 0, variance 1, zero gradients). -/
def exampleGP (K : Type) [LinearOrderedField K] : GP K where
  train_in := ⟨1, [[0], [10]]⟩
  train_out := ⟨2, [[0, 100]]⟩
  trained := true
  predict := fun _ _ => (0, 1)
  predict_with_grad := fun _ _ => (0, 1, [0], [0])

/-- A driver for the examples: dimension one, the box `[-1, 1]`, one output
(the sum of the squares of the input), incumbent value `5`, no surrogate. -/
def exampleDriver (K : Type) [LinearOrderedField K] : Driver K where
  _func := fun x => [(x.map (fun c => c * c)).sum]
  _lb := [-1]
  _ub := [1]
  _scaled_lb := -25
  _scaled_ub := 25
  _a := [1 / 25]
  _b := [0]
  _num_spec := 1
  _dim := 1
  _max_eval := 500
  _tol_no_improvement := 10
  _eval_fixed := 500
  _gp := none
  _eval_counter := 0
  _have_feas := false
  _best_x := [1]
  _best_y := [5]
  _eval_x := ⟨1, []⟩
  _eval_y := ⟨1, []⟩
  _no_improve_counter := 0
  _num_init := 2
  _batch_size := 2
  _acq_pool := ["log_ei", "log_lcb_improv_transf"]
  _ss := .Random
  _eps := 1 / 1000
  _kappa := 1
  _upsilon := 1 / 2
  _delta := 1 / 20
  _EI_jitter := 0
  _posterior_ref := false
  _best_posterior_y := [0]
  _noise_free := false
  _force_select_hyp := false

/-- The conditions under which `initialize(dbx, dby)` is to succeed: no
surrogate yet, `dbx` has `_dim` rows, `dby` has `_num_spec` rows, both have
the same number `N >= 2` of columns, every column of `dbx` lies entry by entry
between `_lb` and `_ub`, every entry of `dby` is finite. -/
def InitConditions {K : Type} [LinearOrder K] (finite : K → Bool) (s : Driver K)
    (dbx dby : MatrixXd K) : Prop :=
  s._gp = none ∧ dbx.rows = s._dim ∧ dby.rows = s._num_spec ∧ dbx.cols = dby.cols ∧
    2 ≤ dbx.cols ∧
    (∀ c ∈ dbx.colList, List.Forall₂ (fun x u => x ≤ u) c s._ub) ∧
    (∀ c ∈ dbx.colList, List.Forall₂ (fun x l => x ≥ l) c s._lb) ∧
    (∀ c ∈ dby.colList, ∀ v ∈ c, finite v = true)

/-- One iteration of the loop of `optimize` leads from the state `a` to the
state `b`: the loop condition holds in `a`, a call of `optimize_one_step`
returns `b`, the call raised `_eval_counter` by the number of columns of the
batch it evaluated, which is one in the feasibility-seeking branch and
`_batch_size` in the exploration and exploitation branches, and it left the
budget and the batch size as they were. -/
def StepLink {K : Type} [LinearOrderedField K] (m : Numerics K) (envs : Nat → StepEnv K)
    (a b : Driver K) : Prop :=
  a._eval_counter < a._max_eval ∧ (∃ k, optimize_one_step m (envs k) a = .ok b) ∧
    b._eval_counter = a._eval_counter + b._eval_x.cols ∧
    (a._have_feas = false → b._eval_x.cols = 1) ∧
    (a._have_feas = true → b._eval_x.cols = a._batch_size) ∧
    b._max_eval = a._max_eval ∧ b._batch_size = a._batch_size

/-- Rational stand-ins for the functions of `libm` and `util.h`, to evaluate
examples: the square root is exact on squares of integers, the others are
crude. -/
def exampleNumerics : Numerics ℚ where
  sqrt := fun q => (Nat.sqrt q.num.natAbs : ℚ) / (Nat.sqrt q.den : ℚ)
  log := fun q => q - 1
  exp := fun q => 1 + q
  pow := fun q r => q ^ r.floor.natAbs
  pi := 355 / 113
  normcdf := fun _ => 1 / 2
  normpdf := fun _ => 2 / 5

/-- The collaborators' results for the examples (`add_data` records the new
inputs only). -/
def exampleEnv : StepEnv ℚ where
  train := fun g => { g with trained := true }
  add_data := fun g x _ =>
    { g with train_in := ⟨g.train_in.rows, g.train_in.colList ++ x.colList⟩ }
  best_posterior_y := [0]
  pf_pareto_set := ⟨1, [[3]]⟩
  mvmo_best := fun i => [(i : ℚ)]
  ps := ⟨1, [[4], [-7], [12]]⟩
  pf := ⟨2, [[1, 2], [0, 3], [2, 1]]⟩
  seed := [1]
  select_draws := [0, 2, 1]
  select_sample := fun i => [-(i : ℚ) - 20]
  adjust_draws := [[21], [-22]]

/-- The example driver with the example surrogate. -/
def exampleDriverGP (K : Type) [LinearOrderedField K] : Driver K :=
  { exampleDriver K with _gp := some (exampleGP K) }

/-- The example driver after `set_max_eval(3)` and an initialisation from a
database: it has the example surrogate and a feasible incumbent. -/
def exampleDriverInit (K : Type) [LinearOrderedField K] : Driver K :=
  { exampleDriver K with
    _gp := some (exampleGP K)
    _have_feas := true
    _best_x := [0]
    _max_eval := 3 }

/-- A state of the run of the examples: the static members of the example
driver, a surrogate with the training inputs `train`, a feasible incumbent with
the output `best_y`, `_no_improve_counter = 0`, `_eval_counter = c` and the
budget 3. -/
def ExampleRunState (s : Driver ℚ) (train : List (VectorXd ℚ)) (best_y : VectorXd ℚ)
    (c : Nat) : Prop :=
  (∃ g, s._gp = some g ∧ g.train_in = ⟨1, train⟩) ∧ s._have_feas = true ∧
    s._no_improve_counter = 0 ∧ s._num_spec = 1 ∧ s._dim = 1 ∧ s._batch_size = 2 ∧
    s._ss = .Random ∧ s._acq_pool = ["log_ei", "log_lcb_improv_transf"] ∧
    s._eps = 1 / 1000 ∧ s._scaled_ub = 25 ∧ s._scaled_lb = -25 ∧ s._a = [1 / 25] ∧
    s._b = [0] ∧ (s._func = fun x => [(x.map (fun c => c * c)).sum]) ∧
    s._best_y = best_y ∧ s._eval_counter = c ∧ s._max_eval = 3

/-- A surrogate for the examples whose posterior mean has slope one: mean 0,
variance 1, gradient of the mean `[1]`, gradient of the variance `[0]`. -/
def exampleSlopeGP (K : Type) [LinearOrderedField K] : GP K where
  train_in := ⟨1, [[0], [10]]⟩
  train_out := ⟨2, [[0, 100]]⟩
  trained := true
  predict := fun _ _ => (0, 1)
  predict_with_grad := fun _ _ => (0, 1, [1], [0])

/-- The example driver with the surrogate of slope one and the incumbent value
`tau`; its `kappa` is 1, so the LCB improvement is `tau + 1` at every point. -/
def exampleSlopeDriver (K : Type) [LinearOrderedField K] (tau : K) : Driver K :=
  { exampleDriver K with _gp := some (exampleSlopeGP K), _best_y := [tau] }

/-- The number `d` is the least Euclidean distance from the point `p` to the
points of `ref`. -/
def IsMinDist {K : Type} [LinearOrder K] [Zero K] [Add K] [Sub K] [Mul K] (sqrt : K → K)
    (ref : List (VectorXd K)) (p : VectorXd K) (d : K) : Prop :=
  (∃ r ∈ ref, norm sqrt (vsub r p) = d) ∧ ∀ r ∈ ref, d ≤ norm sqrt (vsub r p)

/-- Among the points `cands`, the point `p` attains the greatest least Euclidean
distance to the points of `ref`. -/
def IsFarthestFrom {K : Type} [LinearOrder K] [Zero K] [Add K] [Sub K] [Mul K] (sqrt : K → K)
    (ref cands : List (VectorXd K)) (p : VectorXd K) : Prop :=
  p ∈ cands ∧ ∃ d, IsMinDist sqrt ref p d ∧
    ∀ q ∈ cands, ∀ e, IsMinDist sqrt ref q e → e ≤ d

/-- The body of `optimize_one_step` without the feasibility-seeking branch: what
the method does when the guard `not _have_feas` is false. -/
def optimize_one_step_feasible {K : Type} [LinearOrderedField K] (m : Numerics K)
    (env : StepEnv K) (s : Driver K) : Except Fatal (Driver K) := do
  if s._gp.isNone then .error .exit_failure
  else do
    let s1 ← _train_GP env s
    let s2 ← _set_best_posterior_mean env s1
    let (t0, x0) ← choose_batch m env s2
    let s3 ← adjust_and_evaluate m env t0 x0
    add_batch env s3

/-- The states of the driver that calls of its methods reach: a driver that the
constructor returned, and from a reachable state the state after a setter, after
a call of `initialize` (from a database, which is a pair of matrices, or from a
sample count) that returned, after a call of `_run_func` that returned, after a
call of `optimize_one_step` that returned. -/
inductive Reachable {K : Type} [LinearOrderedField K] : Driver K → Prop
  | constructed (dflt : Driver K) (INF : K) (f : VectorXd K → VectorXd K) (num_spec : Nat)
      (lb ub : VectorXd K) (s : Driver K) :
      create dflt INF f num_spec lb ub = .ok s → Reachable s
  | after_set_init_num (s : Driver K) (n : Nat) : Reachable s → Reachable (set_init_num s n)
  | after_set_max_eval (s : Driver K) (n : Nat) : Reachable s → Reachable (set_max_eval s n)
  | after_set_batch (s : Driver K) (n : Nat) : Reachable s → Reachable (set_batch s n)
  | after_set_force_select_hyp (s : Driver K) (f : Bool) :
      Reachable s → Reachable (set_force_select_hyp s f)
  | after_set_tol_no_improvement (s : Driver K) (n : Nat) :
      Reachable s → Reachable (set_tol_no_improvement s n)
  | after_set_eval_fixed (s : Driver K) (n : Nat) : Reachable s → Reachable (set_eval_fixed s n)
  | after_initialize_db (newGP : MatrixXd K → MatrixXd K → GP K) (finite : K → Bool)
      (s : Driver K) (dbx dby : MatrixXd K) (s1 : Driver K) :
      Reachable s → dby.WF → initialize_db newGP finite s dbx dby = .ok s1 → Reachable s1
  | after_initialize_size (newGP : MatrixXd K → MatrixXd K → GP K) (finite : K → Bool)
      (unit : Nat → VectorXd K) (s : Driver K) (init_size : Nat) (s1 : Driver K) :
      Reachable s → initialize_size newGP finite unit s init_size = .ok s1 → Reachable s1
  | after_run_func (s : Driver K) (xs : MatrixXd K) (s1 : Driver K) (ys : MatrixXd K) :
      Reachable s → _run_func s xs = .ok (s1, ys) → Reachable s1
  | after_optimize_one_step (m : Numerics K) (env : StepEnv K) (s s1 : Driver K) :
      Reachable s → optimize_one_step m env s = .ok s1 → Reachable s1

/-! # Theorems -/

/-! ## Lemmas on the search-space mapper -/

theorem col_rescale_unscale {K : Type} [Field K] :
    ∀ (a b c : List K), (∀ x ∈ a, x ≠ 0) → a.length = c.length → b.length = c.length →
      vadd (vmul a (vdiv (vsub c b) a)) b = c
  | [], [], [], _, _, _ => rfl
  | x :: a, y :: b, z :: c, h, ha, hb => by
    have hx : x ≠ 0 := h x (List.mem_cons_self _ _)
    have ih := col_rescale_unscale a b c (fun w hw => h w (List.mem_cons_of_mem _ hw))
      (by simpa using ha) (by simpa using hb)
    simp only [vadd, vmul, vdiv, vsub, List.zipWith_cons_cons] at ih ⊢
    rw [ih]
    congr 1
    field_simp
  | [], _ :: _, [], _, _, hb => by simp at hb
  | [], _, _ :: _, _, ha, _ => by simp at ha
  | _ :: _, _, [], _, ha, _ => by simp at ha
  | _ :: _, [], _ :: _, _, _, hb => by simp at hb

theorem col_unscale_rescale {K : Type} [Field K] :
    ∀ (a b c : List K), (∀ x ∈ a, x ≠ 0) → a.length = c.length → b.length = c.length →
      vdiv (vsub (vadd (vmul a c) b) b) a = c
  | [], [], [], _, _, _ => rfl
  | x :: a, y :: b, z :: c, h, ha, hb => by
    have hx : x ≠ 0 := h x (List.mem_cons_self _ _)
    have ih := col_unscale_rescale a b c (fun w hw => h w (List.mem_cons_of_mem _ hw))
      (by simpa using ha) (by simpa using hb)
    simp only [vadd, vmul, vdiv, vsub, List.zipWith_cons_cons] at ih ⊢
    rw [ih]
    congr 1
    field_simp
  | [], _ :: _, [], _, _, hb => by simp at hb
  | [], _, _ :: _, _, ha, _ => by simp at ha
  | _ :: _, _, [], _, ha, _ => by simp at ha
  | _ :: _, [], _ :: _, _, _, hb => by simp at hb

theorem allLt_of_forall₂ {K : Type} [LinearOrder K] {lb ub : List K}
    (h : List.Forall₂ (fun l u => l < u) lb ub) : allLt lb ub = true := by
  induction h with
  | nil => rfl
  | cons hx _ ih =>
    simp only [allLt, List.zipWith_cons_cons, List.all_cons, Bool.and_eq_true] at ih ⊢
    exact ⟨by simpa using hx, ih⟩

theorem scale_ne_zero {K : Type} [LinearOrderedField K] {lb ub : List K}
    (h : List.Forall₂ (fun l u => l < u) lb ub) :
    ∀ x ∈ (vsub ub lb).map (fun v => v / ((25 : K) - (-25))), x ≠ 0 := by
  induction h with
  | nil => simp [vsub]
  | cons hx _ ih =>
    intro x hx'
    simp only [vsub, List.zipWith_cons_cons, List.map_cons, List.mem_cons] at hx' ih
    rcases hx' with rfl | hx'
    · have : (0 : K) < (25 : K) - (-25) := by norm_num
      exact ne_of_gt (div_pos (sub_pos.mpr hx) this)
    · exact ih x hx'

theorem roundtrip_of_scale {K : Type} [Field K] (s : Driver K) (xs : MatrixXd K)
    (hne : ∀ x ∈ s._a, x ≠ 0) (hla : s._a.length = xs.rows) (hlb : s._b.length = xs.rows)
    (hxs : xs.WF) :
    _rescale s (_unscale s xs) = xs ∧ _unscale s (_rescale s xs) = xs := by
  obtain ⟨r, cs⟩ := xs
  constructor
  · simp only [_rescale, _unscale, List.map_map, MatrixXd.mk.injEq, true_and]
    conv_rhs => rw [← List.map_id cs]
    refine List.map_congr_left (fun c hc => ?_)
    have hcl : c.length = r := hxs c hc
    simpa using col_rescale_unscale _ _ c hne (hla.trans hcl.symm) (hlb.trans hcl.symm)
  · simp only [_rescale, _unscale, List.map_map, MatrixXd.mk.injEq, true_and]
    conv_rhs => rw [← List.map_id cs]
    refine List.map_congr_left (fun c hc => ?_)
    have hcl : c.length = r := hxs c hc
    simpa using col_unscale_rescale _ _ c hne (hla.trans hcl.symm) (hlb.trans hcl.symm)

theorem create_ok {K : Type} [LinearOrderedField K] (dflt : Driver K) (INF : K)
    (f : VectorXd K → VectorXd K) (num_spec : Nat) (lb ub : VectorXd K)
    (hb : List.Forall₂ (fun l u => l < u) lb ub) (hspec : num_spec ≤ 1) :
    ∃ s, create dflt INF f num_spec lb ub = .ok s ∧
      s._a = (vsub ub lb).map (fun v => v / (25 - (-25))) ∧
      s._b = (vadd ub lb).map (fun v => (1 / 2) * v) ∧
      s._num_spec = num_spec ∧ s._gp = none ∧ s._have_feas = false := by
  have hlen : lb.length = ub.length := hb.length_eq
  have hall := allLt_of_forall₂ hb
  have h25 : ¬ ¬ ((-25 : K) < 25) := by norm_num
  unfold create
  simp only [h25, hlen, hall, and_self, not_true_eq_false, if_false,
    show ¬ num_spec > 1 from by omega]
  exact ⟨_, rfl, rfl, rfl, rfl, rfl, rfl⟩

/-! ## Lemmas on the comparator and on the evaluation of a batch -/

theorem violation_cons {K : Type} [LinearOrder K] [Zero K] [Add K] (a : K) (l : List K) :
    _violation (a :: l) = .ok (violationVal (a :: l)) := by
  unfold _violation violationVal
  by_cases h : l = [] <;> simp [h]

theorem better_eq_val {K : Type} [LinearOrder K] [Zero K] [Add K] (v1 v2 : VectorXd K) (h1 : v1 ≠ []) (h2 : v2 ≠ []) :
    _better v1 v2 = .ok (betterVal v1 v2) := by
  cases v1 with
  | nil => exact absurd rfl h1
  | cons a l =>
    cases v2 with
    | nil => exact absurd rfl h2
    | cons b l' =>
      unfold _better betterVal
      simp only [violation_cons, coeff0, bind, Except.bind, pure, Except.pure, objLt]
      split
      · rfl
      · split
        · rfl
        · split <;> rfl

theorem objLt_irrefl {K : Type} [LinearOrder K] (v : VectorXd K) : objLt v v = false := by
  cases v <;> simp [objLt]

theorem objLt_asymm {K : Type} [LinearOrder K] (v1 v2 : VectorXd K) (h : objLt v1 v2 = true) : objLt v2 v1 = false := by
  cases v1 <;> cases v2 <;> simp_all [objLt]
  exact le_of_lt h

theorem objLt_trans {K : Type} [LinearOrder K] (v1 v2 v3 : VectorXd K) (h12 : objLt v1 v2 = true)
    (h23 : objLt v2 v3 = true) : objLt v1 v3 = true := by
  cases v1 <;> cases v2 <;> cases v3 <;> simp_all [objLt]
  exact lt_trans h12 h23

theorem betterVal_irrefl {K : Type} [LinearOrder K] [Zero K] [Add K] (v : VectorXd K) : betterVal v v = false := by
  unfold betterVal
  cases h : _is_feas v <;> simp [objLt_irrefl]

theorem betterVal_asymm {K : Type} [LinearOrder K] [Zero K] [Add K] (v1 v2 : VectorXd K) (h : betterVal v1 v2 = true) :
    betterVal v2 v1 = false := by
  unfold betterVal at h ⊢
  cases h1 : _is_feas v1 <;> cases h2 : _is_feas v2 <;> simp [h1, h2] at h ⊢
  · exact le_of_lt h
  · exact objLt_asymm _ _ h

theorem betterVal_trans {K : Type} [LinearOrder K] [Zero K] [Add K] (v1 v2 v3 : VectorXd K) (h12 : betterVal v1 v2 = true)
    (h23 : betterVal v2 v3 = true) : betterVal v1 v3 = true := by
  unfold betterVal at h12 h23 ⊢
  cases h1 : _is_feas v1 <;> cases h2 : _is_feas v2 <;> cases h3 : _is_feas v3 <;>
    simp [h1, h2, h3] at h12 h23 ⊢
  · exact lt_trans h12 h23
  · exact objLt_trans _ _ _ h12 h23

theorem run_func_visit_eq {K : Type} [LinearOrder K] [Zero K] [Add K] (s : Driver K) (ni : Bool) (x y : VectorXd K)
    (hs : s._best_y ≠ []) (hy : y ≠ []) :
    run_func_visit (s, ni) (x, y) = .ok
      (if betterVal y s._best_y = true then
        ((if _is_feas y = true then { s with _best_x := x, _best_y := y, _have_feas := true }
          else { s with _best_x := x, _best_y := y }), false)
       else ((if _is_feas y = true then { s with _have_feas := true } else s), ni)) := by
  unfold run_func_visit
  simp only [better_eq_val y s._best_y hy hs, bind, Except.bind, pure, Except.pure]
  cases betterVal y s._best_y <;> cases _is_feas y <;> simp

theorem run_func_scan_spec {K : Type} [LinearOrder K] [Zero K] [Add K] :
    ∀ (zs : List (VectorXd K × VectorXd K)) (s : Driver K) (ni : Bool),
      s._best_y ≠ [] → (∀ z ∈ zs, z.2 ≠ []) →
      ∃ s' ni', run_func_scan (s, ni) zs = .ok (s', ni') ∧
        s'._best_y ≠ [] ∧
        ((s'._best_x = s._best_x ∧ s'._best_y = s._best_y ∧
            ¬ ∃ z ∈ zs, betterVal z.2 s._best_y = true) ∨
          ((∃ z ∈ zs, s'._best_x = z.1 ∧ s'._best_y = z.2) ∧
            betterVal s'._best_y s._best_y = true)) ∧
        (ni' = false ↔ (ni = false ∨ ∃ z ∈ zs, betterVal z.2 s._best_y = true)) ∧
        s' = { s with _best_x := s'._best_x, _best_y := s'._best_y,
                      _have_feas := s'._have_feas }
  | [], s, ni, hs, _ => ⟨s, ni, rfl, hs, Or.inl ⟨rfl, rfl, by simp⟩, by simp, rfl⟩
  | (x, y) :: zs, s, ni, hs, hz => by
    have hy : y ≠ [] := hz (x, y) (List.mem_cons_self _ _)
    have hz' : ∀ z ∈ zs, z.2 ≠ [] := fun z h => hz z (List.mem_cons_of_mem _ h)
    unfold run_func_scan
    simp only [run_func_visit_eq s ni x y hs hy, bind, Except.bind]
    by_cases hb : betterVal y s._best_y = true
    · simp only [hb, if_true]
      have key : ∀ t : Driver K, t._best_x = x → t._best_y = y →
          t = { s with _best_x := t._best_x, _best_y := t._best_y, _have_feas := t._have_feas } →
          ∃ s' ni', run_func_scan (t, false) zs = .ok (s', ni') ∧
            s'._best_y ≠ [] ∧
            ((s'._best_x = s._best_x ∧ s'._best_y = s._best_y ∧
                ¬ ∃ z ∈ (x, y) :: zs, betterVal z.2 s._best_y = true) ∨
              ((∃ z ∈ (x, y) :: zs, s'._best_x = z.1 ∧ s'._best_y = z.2) ∧
                betterVal s'._best_y s._best_y = true)) ∧
            (ni' = false ↔ (ni = false ∨ ∃ z ∈ (x, y) :: zs, betterVal z.2 s._best_y = true)) ∧
            s' = { s with _best_x := s'._best_x, _best_y := s'._best_y,
                          _have_feas := s'._have_feas } := by
        intro t htx hty hfr
        obtain ⟨s', ni', h1, h2, h3, h4, h5⟩ := run_func_scan_spec zs t false (hty ▸ hy) hz'
        refine ⟨s', ni', h1, h2, Or.inr ?_, ?_, ?_⟩
        · rcases h3 with ⟨h3x, h3y, -⟩ | ⟨⟨z, hz1, hz2⟩, h3⟩
          · refine ⟨⟨(x, y), List.mem_cons_self _ _, h3x.trans htx, h3y.trans hty⟩, ?_⟩
            rw [h3y, hty]; exact hb
          · refine ⟨⟨z, List.mem_cons_of_mem _ hz1, hz2⟩, ?_⟩
            rw [hty] at h3
            exact betterVal_trans _ _ _ h3 hb
        · constructor
          · intro _; exact Or.inr ⟨(x, y), List.mem_cons_self _ _, hb⟩
          · intro _; exact h4.mpr (Or.inl rfl)
        · apply Driver.ext <;> first | rfl | (rw [h5, hfr])
      by_cases hf : _is_feas y = true
      · simp only [hf, if_true]
        exact key _ rfl rfl rfl
      · simp only [hf]
        exact key _ rfl rfl rfl
    · simp only [hb]
      have key : ∀ t : Driver K, t._best_x = s._best_x → t._best_y = s._best_y →
          t = { s with _best_x := t._best_x, _best_y := t._best_y, _have_feas := t._have_feas } →
          ∃ s' ni', run_func_scan (t, ni) zs = .ok (s', ni') ∧
            s'._best_y ≠ [] ∧
            ((s'._best_x = s._best_x ∧ s'._best_y = s._best_y ∧
                ¬ ∃ z ∈ (x, y) :: zs, betterVal z.2 s._best_y = true) ∨
              ((∃ z ∈ (x, y) :: zs, s'._best_x = z.1 ∧ s'._best_y = z.2) ∧
                betterVal s'._best_y s._best_y = true)) ∧
            (ni' = false ↔ (ni = false ∨ ∃ z ∈ (x, y) :: zs, betterVal z.2 s._best_y = true)) ∧
            s' = { s with _best_x := s'._best_x, _best_y := s'._best_y,
                          _have_feas := s'._have_feas } := by
        intro t htx hty hfr
        obtain ⟨s', ni', h1, h2, h3, h4, h5⟩ := run_func_scan_spec zs t ni (hty ▸ hs) hz'
        refine ⟨s', ni', h1, h2, ?_, ?_, ?_⟩
        · rcases h3 with ⟨h3x, h3y, h3n⟩ | ⟨⟨z, hz1, hz2⟩, h3⟩
          · refine Or.inl ⟨h3x.trans htx, h3y.trans hty, ?_⟩
            rintro ⟨z, hz1, hz2⟩
            rcases List.mem_cons.mp hz1 with rfl | hz1
            · exact hb hz2
            · exact h3n ⟨z, hz1, hty ▸ hz2⟩
          · exact Or.inr ⟨⟨z, List.mem_cons_of_mem _ hz1, hz2⟩, hty ▸ h3⟩
        · rw [h4, hty]
          constructor
          · rintro (h | ⟨z, hz1, hz2⟩)
            · exact Or.inl h
            · exact Or.inr ⟨z, List.mem_cons_of_mem _ hz1, hz2⟩
          · rintro (h | ⟨z, hz1, hz2⟩)
            · exact Or.inl h
            · rcases List.mem_cons.mp hz1 with rfl | hz1
              · exact absurd hz2 hb
              · exact Or.inr ⟨z, hz1, hz2⟩
        · apply Driver.ext <;> first | rfl | (rw [h5, hfr])
      by_cases hf : _is_feas y = true
      · simp only [hf, if_true]
        exact key _ rfl rfl rfl
      · simp only [hf]
        exact key s rfl rfl rfl

theorem mem_zip_map_self {α β : Type} (f : α → β) :
    ∀ (l : List α) (c : α), c ∈ l → (c, f c) ∈ l.zip (l.map f)
  | a :: l, c, h => by
    rcases List.mem_cons.mp h with rfl | h
    · simp
    · simp only [List.map_cons, List.zip_cons_cons]
      exact List.mem_cons_of_mem _ (mem_zip_map_self f l c h)

theorem run_func_spec {K : Type} [LinearOrder K] [Zero K] [Add K] [Mul K]
    (s : Driver K) (xs : MatrixXd K)
    (hf : ∀ x ∈ (_rescale s xs).colList, (s._func x).length = s._num_spec)
    (hspec : 1 ≤ s._num_spec) (hbest : s._best_y ≠ []) :
    ∃ s' ys, _run_func s xs = .ok (s', ys) ∧
      ys = ⟨s._num_spec, (_rescale s xs).colList.map s._func⟩ ∧
      s'._best_y ≠ [] ∧
      ((s'._best_x = s._best_x ∧ s'._best_y = s._best_y ∧
          ¬ ∃ y ∈ ys.colList, betterVal y s._best_y = true) ∨
        ((∃ z ∈ (_rescale s xs).colList.zip ys.colList, s'._best_x = z.1 ∧ s'._best_y = z.2) ∧
          betterVal s'._best_y s._best_y = true)) ∧
      ((∃ y ∈ ys.colList, betterVal y s._best_y = true) → s'._no_improve_counter = 0) ∧
      ((¬ ∃ y ∈ ys.colList, betterVal y s._best_y = true) →
        s'._no_improve_counter = s._no_improve_counter + 1) ∧
      s'._eval_counter = s._eval_counter + xs.cols ∧
      s' = { s with _best_x := s'._best_x, _best_y := s'._best_y,
                    _have_feas := s'._have_feas,
                    _no_improve_counter := s'._no_improve_counter,
                    _eval_counter := s'._eval_counter } := by
  have hne : ∀ z ∈ (_rescale s xs).colList.zip ((_rescale s xs).colList.map s._func),
      z.2 ≠ [] := by
    intro z hz
    have h2 := (List.of_mem_zip hz).2
    obtain ⟨c, hc, hcz⟩ := List.mem_map.mp h2
    have := hf c hc
    intro h0
    rw [hcz, h0] at this
    simp at this
    omega
  have hex : (∃ z ∈ (_rescale s xs).colList.zip ((_rescale s xs).colList.map s._func),
        betterVal z.2 s._best_y = true) ↔
      ∃ y ∈ (_rescale s xs).colList.map s._func, betterVal y s._best_y = true := by
    constructor
    · rintro ⟨z, hz, hb⟩
      exact ⟨z.2, (List.of_mem_zip hz).2, hb⟩
    · rintro ⟨y, hy, hb⟩
      obtain ⟨c, hc, rfl⟩ := List.mem_map.mp hy
      exact ⟨(c, s._func c), mem_zip_map_self _ _ c hc, hb⟩
  obtain ⟨s1, ni, h1, h2, h3, h4, h5⟩ := run_func_scan_spec _ s true hbest hne
  have hall : ∀ y ∈ (_rescale s xs).colList.map s._func, y.length = s._num_spec := by
    intro y hy
    obtain ⟨c, hc, rfl⟩ := List.mem_map.mp hy
    exact hf c hc
  have hnic : s1._no_improve_counter = s._no_improve_counter := by rw [h5]
  have hec : s1._eval_counter = s._eval_counter := by rw [h5]
  cases ni with
  | true =>
    have hno : ¬ ∃ y ∈ (_rescale s xs).colList.map s._func, betterVal y s._best_y = true := by
      rw [← hex]
      intro h
      have := h4.mpr (Or.inr h)
      simp at this
    refine ⟨{ s1 with _no_improve_counter := s1._no_improve_counter + 1,
                      _eval_counter := s1._eval_counter + xs.cols }, _, ?_, rfl, h2, ?_,
      fun h => absurd h hno, fun _ => ?_, ?_, ?_⟩
    · unfold _run_func
      simp only [if_neg (not_not.mpr hall), h1, bind, Except.bind, pure, Except.pure, if_true]
    · rcases h3 with ⟨h3x, h3y, h3n⟩ | h3
      · exact Or.inl ⟨h3x, h3y, hno⟩
      · exact Or.inr h3
    · simp [hnic]
    · simp [hec]
    · apply Driver.ext <;> first | rfl | rw [h5]
  | false =>
    have hyes : ∃ y ∈ (_rescale s xs).colList.map s._func, betterVal y s._best_y = true := by
      rw [← hex]
      rcases h4.mp rfl with h | h
      · simp at h
      · exact h
    refine ⟨{ s1 with _no_improve_counter := 0,
                      _eval_counter := s1._eval_counter + xs.cols }, _, ?_, rfl, h2, ?_,
      fun _ => rfl, fun h => absurd hyes h, ?_, ?_⟩
    · unfold _run_func
      simp only [if_neg (not_not.mpr hall), h1, bind, Except.bind, pure, Except.pure,
        Bool.false_eq_true, if_false]
    · rcases h3 with ⟨h3x, h3y, h3n⟩ | h3
      · exact absurd (hex.mpr hyes) h3n
      · exact Or.inr h3
    · simp [hec]
    · apply Driver.ext <;> first | rfl | rw [h5]

theorem better_true_iff {K : Type} [LinearOrder K] [Zero K] [Add K] (v1 v2 : VectorXd K)
    (h1 : v1 ≠ []) (h2 : v2 ≠ []) : _better v1 v2 = .ok true ↔ betterVal v1 v2 = true := by
  rw [better_eq_val v1 v2 h1 h2]
  simp

theorem ne_nil_of_length {α : Type} (l : List α) (n : Nat) (h : l.length = n) (hn : 1 ≤ n) :
    l ≠ [] := by
  intro h0
  rw [h0] at h
  simp at h
  omega

/-- C1: for bounds with `lb[i] < ub[i]` in every dimension the constructor
succeeds with `a = (ub - lb) / (25 - (-25))` and `b = (ub + lb) / 2`, and on
the driver it builds `_rescale (_unscale x) = x` and `_unscale (_rescale x) = x`
for every matrix `x` of points (columns with one entry per dimension), in exact
arithmetic over any ordered field. -/
theorem rescale_unscale_roundtrip {K : Type} [LinearOrderedField K] (dflt : Driver K) (INF : K)
    (f : VectorXd K → VectorXd K) (num_spec : Nat) (lb ub : VectorXd K) (xs : MatrixXd K)
    (hb : List.Forall₂ (fun l u => l < u) lb ub) (hspec : num_spec ≤ 1)
    (hxs : xs.WF) (hrows : xs.rows = lb.length) :
    ∃ s, create dflt INF f num_spec lb ub = .ok s ∧
      s._a = (vsub ub lb).map (fun v => v / (25 - (-25))) ∧
      s._b = (vadd ub lb).map (fun v => (1 / 2) * v) ∧
      _rescale s (_unscale s xs) = xs ∧ _unscale s (_rescale s xs) = xs := by
  obtain ⟨s, hs, ha, hb', -⟩ := create_ok dflt INF f num_spec lb ub hb hspec
  have hlen : lb.length = ub.length := hb.length_eq
  refine ⟨s, hs, ha, hb', roundtrip_of_scale s xs ?_ ?_ ?_ hxs⟩
  · rw [ha]; exact scale_ne_zero hb
  · rw [ha, hrows]; simp [vsub, hlen]
  · rw [hb', hrows]; simp [vadd, hlen]

/-- C1, at the bounds `[0, -1] < [2, 3]` and the points `(1, 0)` and
`(5, 7)` over the rationals. -/
theorem rescale_unscale_roundtrip_example :
    ∃ s, create (exampleDriver ℚ) 1000 id 1 [0, -1] [2, 3] = .ok s ∧
      s._a = (vsub [2, 3] [0, -1]).map (fun v => v / (25 - (-25))) ∧
      s._b = (vadd [2, 3] [0, -1]).map (fun v => (1 / 2) * v) ∧
      _rescale s (_unscale s ⟨2, [[1, 0], [5, 7]]⟩) = ⟨2, [[1, 0], [5, 7]]⟩ ∧
      _unscale s (_rescale s ⟨2, [[1, 0], [5, 7]]⟩) = ⟨2, [[1, 0], [5, 7]]⟩ :=
  rescale_unscale_roundtrip (exampleDriver ℚ) 1000 id 1 [0, -1] [2, 3] ⟨2, [[1, 0], [5, 7]]⟩
    (List.Forall₂.cons (by norm_num) (List.Forall₂.cons (by norm_num) List.Forall₂.nil))
    (by decide) (by intro c hc; simp at hc; rcases hc with rfl | rfl <;> rfl) rfl

/-- C4: `_run_func` returns, and afterwards the incumbent `_best_y` is either
the one before the call or one of the observed columns and then `_better` than
the one before; in both cases the incumbent before the call is not `_better`
than the one after it.  The objective returns `_num_spec >= 1` outputs and the
incumbent is not empty. -/
theorem best_y_never_regresses {K : Type} [LinearOrder K] [Zero K] [Add K] [Mul K]
    (s : Driver K) (xs : MatrixXd K)
    (hf : ∀ x ∈ (_rescale s xs).colList, (s._func x).length = s._num_spec)
    (hspec : 1 ≤ s._num_spec) (hbest : s._best_y ≠ []) :
    ∃ s' ys, _run_func s xs = .ok (s', ys) ∧
      (s'._best_y = s._best_y ∨
        (s'._best_y ∈ ys.colList ∧ _better s'._best_y s._best_y = .ok true)) ∧
      _better s._best_y s'._best_y = .ok false := by
  obtain ⟨s', ys, h1, -, h3, h4, -⟩ := run_func_spec s xs hf hspec hbest
  refine ⟨s', ys, h1, ?_, ?_⟩
  · rcases h4 with ⟨-, h, -⟩ | ⟨⟨z, hz, -, hzy⟩, hb⟩
    · exact Or.inl h
    · refine Or.inr ⟨?_, (better_true_iff _ _ h3 hbest).mpr hb⟩
      rw [hzy]
      exact (List.of_mem_zip hz).2
  · rw [better_eq_val _ _ hbest h3]
    rcases h4 with ⟨-, h, -⟩ | ⟨-, hb⟩
    · rw [h, betterVal_irrefl]
    · rw [betterVal_asymm _ _ hb]

/-- C4, on the example driver (incumbent value 5) and the batch of the two
canonical points 3 and -2. -/
theorem best_y_never_regresses_example :
    ∃ s' ys, _run_func (exampleDriver ℚ) ⟨1, [[3], [-2]]⟩ = .ok (s', ys) ∧
      (s'._best_y = (exampleDriver ℚ)._best_y ∨
        (s'._best_y ∈ ys.colList ∧ _better s'._best_y (exampleDriver ℚ)._best_y = .ok true)) ∧
      _better (exampleDriver ℚ)._best_y s'._best_y = .ok false :=
  best_y_never_regresses (exampleDriver ℚ) ⟨1, [[3], [-2]]⟩ (fun _ _ => rfl) (Nat.le_refl 1)
    (List.cons_ne_nil _ _)

/-- C5: `_run_func` returns; it sets `_no_improve_counter` to 0 when some
observed column is `_better` than the incumbent at entry (up to the first such
column the incumbent is the one at entry, so this is the case in which a
column replaces the incumbent, and the incumbent at exit differs), it adds 1
to `_no_improve_counter` otherwise, and it adds the number of columns of the
batch to `_eval_counter`. -/
theorem run_func_counters {K : Type} [LinearOrder K] [Zero K] [Add K] [Mul K]
    (s : Driver K) (xs : MatrixXd K)
    (hf : ∀ x ∈ (_rescale s xs).colList, (s._func x).length = s._num_spec)
    (hspec : 1 ≤ s._num_spec) (hbest : s._best_y ≠ []) :
    ∃ s' ys, _run_func s xs = .ok (s', ys) ∧ ys.cols = xs.cols ∧
      ((∃ y ∈ ys.colList, _better y s._best_y = .ok true) ↔ s'._best_y ≠ s._best_y) ∧
      ((∃ y ∈ ys.colList, _better y s._best_y = .ok true) → s'._no_improve_counter = 0) ∧
      ((¬ ∃ y ∈ ys.colList, _better y s._best_y = .ok true) →
        s'._no_improve_counter = s._no_improve_counter + 1) ∧
      s'._eval_counter = s._eval_counter + xs.cols := by
  obtain ⟨s', ys, h1, h2, h3, h4, h5, h6, h7, -⟩ := run_func_spec s xs hf hspec hbest
  have hne : ∀ y ∈ ys.colList, y ≠ [] := by
    intro y hy
    rw [h2] at hy
    obtain ⟨c, hc, rfl⟩ := List.mem_map.mp hy
    exact ne_nil_of_length _ _ (hf c hc) hspec
  have hiff : (∃ y ∈ ys.colList, _better y s._best_y = .ok true) ↔
      ∃ y ∈ ys.colList, betterVal y s._best_y = true := by
    constructor
    · rintro ⟨y, hy, hb⟩
      exact ⟨y, hy, (better_true_iff _ _ (hne y hy) hbest).mp hb⟩
    · rintro ⟨y, hy, hb⟩
      exact ⟨y, hy, (better_true_iff _ _ (hne y hy) hbest).mpr hb⟩
  refine ⟨s', ys, h1, ?_, ?_, ?_, ?_, h7⟩
  · rw [h2]; simp [MatrixXd.cols, _rescale]
  · rw [hiff]
    rcases h4 with ⟨-, h, hn⟩ | ⟨⟨z, hz, -, hzy⟩, hb⟩
    · exact ⟨fun hy => absurd hy hn, fun hd => absurd h hd⟩
    · refine ⟨fun _ heq => ?_, fun _ => ⟨z.2, (List.of_mem_zip hz).2, hzy ▸ hb⟩⟩
      rw [heq, betterVal_irrefl] at hb
      exact Bool.false_ne_true hb
  · intro h; exact h5 (hiff.mp h)
  · intro h; exact h6 (fun h' => h (hiff.mpr h'))

/-- C5, on the example driver and a batch of three canonical points. -/
theorem run_func_counters_example :
    ∃ s' ys, _run_func (exampleDriver ℚ) ⟨1, [[3], [-2], [7]]⟩ = .ok (s', ys) ∧
      ys.cols = (⟨1, [[3], [-2], [7]]⟩ : MatrixXd ℚ).cols ∧
      ((∃ y ∈ ys.colList, _better y (exampleDriver ℚ)._best_y = .ok true) ↔
        s'._best_y ≠ (exampleDriver ℚ)._best_y) ∧
      ((∃ y ∈ ys.colList, _better y (exampleDriver ℚ)._best_y = .ok true) →
        s'._no_improve_counter = 0) ∧
      ((¬ ∃ y ∈ ys.colList, _better y (exampleDriver ℚ)._best_y = .ok true) →
        s'._no_improve_counter = (exampleDriver ℚ)._no_improve_counter + 1) ∧
      s'._eval_counter
        = (exampleDriver ℚ)._eval_counter + (⟨1, [[3], [-2], [7]]⟩ : MatrixXd ℚ).cols :=
  run_func_counters (exampleDriver ℚ) ⟨1, [[3], [-2], [7]]⟩ (fun _ _ => rfl) (Nat.le_refl 1)
    (List.cons_ne_nil _ _)

/-! ## Candidate selector on an empty Pareto set -/

/-- C2 fails on the code: for a Pareto set without columns, whatever the
policy, the batch size, the draws and the front, `_select_candidate` reaches
`_slice_matrix` with an empty index vector, where
`*max_element(idxs.begin(), idxs.end())` dereferences the end iterator; no
matrix is returned. -/
theorem select_candidate_empty_pareto_set {K : Type} [LinearOrder K] [Zero K] [Add K] [Sub K]
    [Mul K] (sqrt : K → K) (s : Driver K) (draws : List Nat) (sample : Nat → VectorXd K)
    (rows : Nat) (pf : MatrixXd K) :
    _select_candidate sqrt s draws sample ⟨rows, []⟩ pf = .error .undefined := by
  have hpick : ∀ d : List Nat, pick_loop 0 [] d = .ok [] := by
    intro d
    cases d <;> simp [pick_loop]
  have hrandom : _select_candidate_random s draws sample ⟨rows, []⟩ pf = .error .undefined := by
    simp [_select_candidate_random, _pick_from_seq, MatrixXd.cols, hpick, _slice_matrix,
      maxElement, MYASSERT, bind, Except.bind]
  unfold _select_candidate
  cases s._ss with
  | Random => exact hrandom
  | Extreme => simp [_select_candidate_extreme, hrandom, bind, Except.bind]
  | Greedy =>
    simp only [_select_candidate_greedy, MatrixXd.cols, List.length_nil]
    cases s._gp with
    | none => simp [bind, Except.bind]
    | some g =>
      have h0 : (if 0 < s._batch_size then 0 else s._batch_size) = 0 := by
        split <;> omega
      simp [h0, greedy_loop, _slice_matrix, maxElement, MYASSERT, bind, Except.bind, pure,
        Except.pure]

/-! ## Duplicate guard -/

theorem norm_real_single (d : ℝ) : norm Real.sqrt [d] = |d| := by
  simp [norm, Real.sqrt_mul_self_eq_abs]

/-- C3 fails on the code: with training inputs 0 and 10 (dimension one,
`_eps = 1/1000`, so the threshold is `1/20`), the batch `(5, 0)` and the single
resample `501/100`, `_adjust_x` returns the batch `(5, 501/100)`, whose two
columns are at distance `1/100`, below the threshold: column 0 was compared with
the training inputs and the input column to its right, the resampled column 1
with the training inputs only. -/
theorem adjust_x_returns_close_columns :
    _adjust_x Real.sqrt (exampleDriverGP ℝ) [[501 / 100]] ⟨1, [[5], [0]]⟩
        = .ok ⟨1, [[5], [501 / 100]]⟩ ∧
      norm Real.sqrt (vsub [501 / 100] [5])
        < (exampleDriverGP ℝ)._eps
          * ((exampleDriverGP ℝ)._scaled_ub - (exampleDriverGP ℝ)._scaled_lb) := by
  constructor
  · simp only [_adjust_x, exampleDriverGP, exampleDriver, exampleGP, MatrixXd.cols, adjust_loop,
      commaInit2, adjust_col, _duplication_checking, vsub, List.zipWith_cons_cons,
      List.zipWith_nil_right, norm_real_single, bind, Except.bind, pure, Except.pure]
    norm_num [norm_real_single, abs_of_pos, abs_of_neg, adjust_col, _duplication_checking, vsub]
  · simp only [exampleDriverGP, exampleDriver, vsub, List.zipWith_cons_cons,
      List.zipWith_nil_right, norm_real_single]
    norm_num [abs_of_pos]

/-! ## The optimisation loop -/

theorem commaInit2_ok {K : Type} (rows cols : Nat) (A B M : MatrixXd K)
    (h : commaInit2 rows cols A B = .ok M) : M.cols = cols ∧ M.rows = rows := by
  unfold commaInit2 at h
  split at h
  · rename_i hc
    injection h with h
    subst h
    exact ⟨by simpa [MatrixXd.cols] using hc.2.2, rfl⟩
  · exact absurd h (by simp)

theorem adjust_loop_length {K : Type} [LinearOrder K] [Zero K] [Add K] [Sub K] [Mul K]
    (sqrt : K → K) (s : Driver K) (train_in : MatrixXd K) (xrows : Nat) :
    ∀ (todo draws cs : List (VectorXd K)),
      adjust_loop sqrt s train_in xrows todo draws = .ok cs → cs.length = todo.length
  | [], _, cs, h => by
    simp only [adjust_loop] at h
    injection h with h
    subst h
    rfl
  | c :: rest, draws, cs, h => by
    simp only [adjust_loop, bind, Except.bind] at h
    cases h1 : commaInit2 s._dim (train_in.cols + rest.length) train_in ⟨xrows, rest⟩ with
    | error e => simp [h1] at h
    | ok ref =>
      simp only [h1] at h
      cases h2 : adjust_col sqrt s ref c draws with
      | error e => simp [h2] at h
      | ok r =>
        obtain ⟨c1, draws1⟩ := r
        simp only [h2] at h
        cases h3 : adjust_loop sqrt s train_in xrows rest draws1 with
        | error e => simp [h3] at h
        | ok rest1 =>
          simp only [h3, pure, Except.pure] at h
          injection h with h
          subst h
          simp [adjust_loop_length sqrt s train_in xrows rest draws1 rest1 h3]

theorem adjust_x_cols {K : Type} [LinearOrder K] [Zero K] [Add K] [Sub K] [Mul K]
    (sqrt : K → K) (s : Driver K) (draws : List (VectorXd K)) (x x' : MatrixXd K)
    (h : _adjust_x sqrt s draws x = .ok x') : x'.cols = x.cols ∧ 0 < x.cols := by
  unfold _adjust_x at h
  split at h
  · exact absurd h (by simp)
  · split at h
    · exact absurd h (by simp)
    · rename_i _ hpos
      cases hg : s._gp with
      | none => simp [hg, bind, Except.bind] at h
      | some g =>
        simp only [hg, bind, Except.bind, pure, Except.pure] at h
        cases h1 : adjust_loop sqrt s g.train_in x.rows x.colList draws with
        | error e => simp [h1] at h
        | ok cs =>
          simp only [h1] at h
          injection h with h
          subst h
          exact ⟨adjust_loop_length sqrt s _ _ _ _ _ h1, by omega⟩

theorem select_candidate_random_cols {K : Type} (s : Driver K) (draws : List Nat)
    (sample : Nat → VectorXd K) (ps pf c : MatrixXd K)
    (h : _select_candidate_random s draws sample ps pf = .ok c) :
    c.cols = s._batch_size ∧ c.rows = s._dim := by
  simp only [_select_candidate_random, bind, Except.bind] at h
  cases h1 : _pick_from_seq ps.cols (if ps.cols > s._batch_size then s._batch_size else ps.cols)
      draws with
  | error e => simp [h1] at h
  | ok idxs =>
    simp only [h1] at h
    cases h2 : _slice_matrix ps idxs with
    | error e => simp [h2] at h
    | ok sl =>
      simp only [h2] at h
      exact commaInit2_ok _ _ _ _ _ h

theorem select_candidate_greedy_cols {K : Type} [LinearOrder K] [Zero K] [Add K] [Sub K]
    [Mul K] (sqrt : K → K) (s : Driver K) (sample : Nat → VectorXd K) (ps pf c : MatrixXd K)
    (h : _select_candidate_greedy sqrt s sample ps pf = .ok c) :
    c.cols = s._batch_size ∧ c.rows = s._dim := by
  simp only [_select_candidate_greedy, bind, Except.bind, pure, Except.pure] at h
  cases hg : s._gp with
  | none => simp [hg] at h
  | some g =>
    simp only [hg] at h
    cases h1 : greedy_loop sqrt s g.train_in ps
        (if ps.cols < s._batch_size then ps.cols else s._batch_size) [] with
    | error e => simp [h1] at h
    | ok sel =>
      simp only [h1] at h
      cases h2 : _slice_matrix ps sel with
      | error e => simp [h2] at h
      | ok sl =>
        simp only [h2] at h
        exact commaInit2_ok _ _ _ _ _ h

theorem extreme_loop_cols {K : Type} [LinearOrder K] (ps pf : MatrixXd K) :
    ∀ (is : List Nat) (c c' : MatrixXd K), extreme_loop ps pf c is = .ok c' →
      c'.cols = c.cols ∧ c'.rows = c.rows
  | [], c, c', h => by
    simp only [extreme_loop] at h
    injection h with h
    subst h
    exact ⟨rfl, rfl⟩
  | i :: is, c, c', h => by
    simp only [extreme_loop, bind, Except.bind] at h
    cases h1 : extreme_step ps pf c i with
    | error e => simp [h1] at h
    | ok c1 =>
      simp only [h1] at h
      have ih := extreme_loop_cols ps pf is c1 c' h
      have hc1 : c1.cols = c.cols ∧ c1.rows = c.rows := by
        simp only [extreme_step, bind, Except.bind, pure, Except.pure] at h1
        split at h1
        · exact absurd h1 (by simp)
        · split at h1
          · exact absurd h1 (by simp)
          · split at h1
            · exact absurd h1 (by simp)
            · split at h1
              · exact absurd h1 (by simp)
              · injection h1 with h1
                subst h1
                exact ⟨by simp [MatrixXd.cols], rfl⟩
      exact ⟨ih.1.trans hc1.1, ih.2.trans hc1.2⟩

theorem select_candidate_cols {K : Type} [LinearOrder K] [Zero K] [Add K] [Sub K] [Mul K]
    (sqrt : K → K) (s : Driver K) (draws : List Nat) (sample : Nat → VectorXd K)
    (ps pf c : MatrixXd K) (h : _select_candidate sqrt s draws sample ps pf = .ok c) :
    c.cols = s._batch_size ∧ c.rows = s._dim := by
  unfold _select_candidate at h
  split at h
  · exact select_candidate_random_cols s draws sample ps pf c h
  · exact select_candidate_greedy_cols sqrt s sample ps pf c h
  · simp only [_select_candidate_extreme, bind, Except.bind] at h
    cases h1 : _select_candidate_random s draws sample ps pf with
    | error e => simp [h1] at h
    | ok c1 =>
      simp only [h1] at h
      have h2 := extreme_loop_cols ps pf _ c1 c h
      have h3 := select_candidate_random_cols s draws sample ps pf c1 h1
      exact ⟨h2.1.trans h3.1, h2.2.trans h3.2⟩

theorem run_func_visit_frame {K : Type} [LinearOrder K] [Zero K] [Add K]
    (s s' : Driver K) (ni ni' : Bool) (xy : VectorXd K × VectorXd K)
    (h : run_func_visit (s, ni) xy = .ok (s', ni')) :
    s' = { s with _best_x := s'._best_x, _best_y := s'._best_y,
                  _have_feas := s'._have_feas } := by
  obtain ⟨x, y⟩ := xy
  simp only [run_func_visit, bind, Except.bind, pure, Except.pure] at h
  cases hb : _better y s._best_y with
  | error e => simp [hb] at h
  | ok b =>
    simp only [hb] at h
    cases b <;> cases hf : _is_feas y <;> simp [hf] at h <;> obtain ⟨h, -⟩ := h <;>
      subst h <;> rfl

theorem run_func_scan_frame {K : Type} [LinearOrder K] [Zero K] [Add K] :
    ∀ (zs : List (VectorXd K × VectorXd K)) (s s' : Driver K) (ni ni' : Bool),
      run_func_scan (s, ni) zs = .ok (s', ni') →
      s' = { s with _best_x := s'._best_x, _best_y := s'._best_y,
                    _have_feas := s'._have_feas }
  | [], s, s', ni, ni', h => by
    simp only [run_func_scan] at h
    injection h with h
    injection h with h1 h2
    subst h1
    rfl
  | xy :: zs, s, s', ni, ni', h => by
    simp only [run_func_scan, bind, Except.bind] at h
    cases h1 : run_func_visit (s, ni) xy with
    | error e => simp [h1] at h
    | ok acc1 =>
      obtain ⟨s1, ni1⟩ := acc1
      simp only [h1] at h
      have f1 := run_func_visit_frame s s1 ni ni1 xy h1
      have f2 := run_func_scan_frame zs s1 s' ni1 ni' h
      apply Driver.ext <;> first | rfl | (rw [f2, f1])

theorem run_func_frame {K : Type} [LinearOrder K] [Zero K] [Add K] [Mul K]
    (s s' : Driver K) (xs ys : MatrixXd K) (h : _run_func s xs = .ok (s', ys)) :
    s'._eval_counter = s._eval_counter + xs.cols ∧
      s' = { s with _best_x := s'._best_x, _best_y := s'._best_y,
                    _have_feas := s'._have_feas,
                    _no_improve_counter := s'._no_improve_counter,
                    _eval_counter := s'._eval_counter } := by
  unfold _run_func at h
  simp only [bind, Except.bind, pure, Except.pure] at h
  split at h
  · exact absurd h (by simp)
  · cases h1 : run_func_scan (s, true)
        ((_rescale s xs).colList.zip ((_rescale s xs).colList.map s._func)) with
    | error e => simp [h1] at h
    | ok acc =>
      obtain ⟨s1, ni⟩ := acc
      simp only [h1] at h
      have f1 := run_func_scan_frame _ s s1 true ni h1
      have hec : s1._eval_counter = s._eval_counter := by rw [f1]
      cases ni with
      | true =>
        simp only [if_true] at h
        injection h with h
        injection h with h2 h3
        subst h2
        refine ⟨by simp [hec], ?_⟩
        apply Driver.ext <;> first | rfl | rw [f1]
      | false =>
        simp only [Bool.false_eq_true, if_false] at h
        injection h with h
        injection h with h2 h3
        subst h2
        refine ⟨by simp [hec], ?_⟩
        apply Driver.ext <;> first | rfl | rw [f1]

theorem train_GP_frame {K : Type} (env : StepEnv K) (s s1 : Driver K)
    (h : _train_GP env s = .ok s1) : s1 = { s with _gp := s1._gp } ∧ s1._gp.isSome = true := by
  simp only [_train_GP, gpOf, bind, Except.bind, pure, Except.pure] at h
  cases hg : s._gp with
  | none => simp [hg] at h
  | some g =>
    simp only [hg] at h
    split at h
    · exact absurd h (by simp)
    · injection h with h
      subst h
      exact ⟨rfl, rfl⟩

theorem set_best_posterior_mean_frame {K : Type} (env : StepEnv K) (s s1 : Driver K)
    (h : _set_best_posterior_mean env s = .ok s1) :
    s1 = { s with _best_posterior_y := s1._best_posterior_y } := by
  unfold _set_best_posterior_mean at h
  cases hg : s._gp with
  | none => simp [hg] at h
  | some g =>
    simp only [hg] at h
    split at h
    · exact absurd h (by simp)
    · injection h with h
      subst h
      rfl

theorem adaptive_sampling_cols {K : Type} (env : StepEnv K) (s : Driver K) (x : MatrixXd K)
    (h : _adaptive_sampling env s = .ok x) : x.cols = s._batch_size := by
  unfold _adaptive_sampling at h
  cases hg : s._gp with
  | none => simp [hg] at h
  | some g =>
    simp only [hg] at h
    split at h
    · exact absurd h (by simp)
    · injection h with h
      subst h
      simp [MatrixXd.cols]

theorem choose_batch_spec {K : Type} [LinearOrderedField K] (m : Numerics K) (env : StepEnv K)
    (s t0 : Driver K) (x0 : MatrixXd K) (h : choose_batch m env s = .ok (t0, x0)) :
    x0.cols = s._batch_size ∧ t0 = { s with _kappa := t0._kappa } := by
  unfold choose_batch at h
  split at h
  · exact absurd h (by simp)
  · split at h
    · split at h
      · exact absurd h (by simp)
      · simp only [bind, Except.bind, pure, Except.pure] at h
        cases h1 : _adaptive_sampling env s with
        | error e => simp [h1] at h
        | ok x =>
          simp only [h1] at h
          injection h with h
          injection h with h2 h3
          subst h2 h3
          exact ⟨adaptive_sampling_cols env _ _ h1, rfl⟩
    · simp only [bind, Except.bind, pure, Except.pure] at h
      cases h0 : acq_ensemble m env (_set_kappa m s) (_set_kappa m s)._acq_pool with
      | error e => simp [h0] at h
      | ok u =>
        simp only [h0] at h
        cases h1 : _select_candidate m.sqrt (_set_kappa m s) env.select_draws env.select_sample
            env.ps env.pf with
        | error e => simp [h1] at h
        | ok x =>
          simp only [h1] at h
          injection h with h
          injection h with h2 h3
          subst h2 h3
          exact ⟨(select_candidate_cols _ _ _ _ _ _ _ h1).1, rfl⟩

theorem adjust_and_evaluate_spec {K : Type} [LinearOrderedField K] (m : Numerics K)
    (env : StepEnv K) (t0 s' : Driver K) (x0 : MatrixXd K)
    (h : adjust_and_evaluate m env t0 x0 = .ok s') :
    s'._eval_counter = t0._eval_counter + s'._eval_x.cols ∧ s'._eval_x.cols = x0.cols ∧
      s'._batch_size = t0._batch_size ∧ s'._max_eval = t0._max_eval ∧ s'._gp = t0._gp := by
  simp only [adjust_and_evaluate, bind, Except.bind, pure, Except.pure] at h
  cases h1 : _adjust_x m.sqrt t0 env.adjust_draws x0 with
  | error e => simp [h1] at h
  | ok x =>
    simp only [h1] at h
    cases h2 : _run_func t0 x with
    | error e => simp [h2] at h
    | ok r =>
      obtain ⟨t, y⟩ := r
      simp only [h2] at h
      injection h with h
      subst h
      obtain ⟨f1, f2⟩ := run_func_frame t0 t x y h2
      refine ⟨f1, (adjust_x_cols _ _ _ _ _ h1).1, ?_, ?_, ?_⟩ <;> simp only <;> rw [f2]

theorem optimize_one_step_spec {K : Type} [LinearOrderedField K] (m : Numerics K)
    (env : StepEnv K) (s s' : Driver K) (h : optimize_one_step m env s = .ok s') :
    s'._eval_counter = s._eval_counter + s'._eval_x.cols ∧
      (s._have_feas = false → s'._eval_x.cols = 1) ∧
      (s._have_feas = true → s'._eval_x.cols = s._batch_size) ∧
      s'._batch_size = s._batch_size ∧ s'._max_eval = s._max_eval ∧
      s'._gp.isSome = true := by
  unfold optimize_one_step at h
  split at h
  · exact absurd h (by simp)
  · simp only [bind, Except.bind, pure, Except.pure] at h
    cases h1 : _train_GP env s with
    | error e => simp [h1] at h
    | ok s1 =>
      simp only [h1] at h
      cases h2 : _set_best_posterior_mean env s1 with
      | error e => simp [h2] at h
      | ok s2 =>
        simp only [h2] at h
        obtain ⟨f1, -⟩ := train_GP_frame env s s1 h1
        have f2 := set_best_posterior_mean_frame env s1 s2 h2
        have e1 : s2._eval_counter = s._eval_counter := by rw [f2, f1]
        have e2 : s2._have_feas = s._have_feas := by rw [f2, f1]
        have e3 : s2._batch_size = s._batch_size := by rw [f2, f1]
        have e4 : s2._max_eval = s._max_eval := by rw [f2, f1]
        have fin : ∀ s3 : Driver K, add_batch env s3 = Except.ok s' →
            s'._eval_counter = s3._eval_counter ∧ s'._eval_x = s3._eval_x ∧
              s'._batch_size = s3._batch_size ∧ s'._max_eval = s3._max_eval ∧
              s'._gp.isSome = true := by
          intro s3 h3
          simp only [add_batch, bind, Except.bind, pure, Except.pure] at h3
          cases hg : gpOf s3 with
          | error e => simp [hg] at h3
          | ok g =>
            simp only [hg] at h3
            injection h3 with h3
            subst h3
            exact ⟨rfl, rfl, rfl, rfl, rfl⟩
        by_cases hfe : s2._have_feas = true
        · simp only [hfe, not_true_eq_false, if_false] at h
          cases h3 : choose_batch m env s2 with
          | error e => simp [h3] at h
          | ok r =>
            obtain ⟨t0, x0⟩ := r
            simp only [h3] at h
            cases h4 : adjust_and_evaluate m env t0 x0 with
            | error e => simp [h4] at h
            | ok s3 =>
              simp only [h4] at h
              obtain ⟨g1, g2, g3, g4, g5⟩ := fin s3 h
              obtain ⟨a1, a2, a3, a4, -⟩ := adjust_and_evaluate_spec m env t0 s3 x0 h4
              obtain ⟨c1, c2⟩ := choose_batch_spec m env s2 t0 x0 h3
              have t1 : t0._eval_counter = s2._eval_counter := by rw [c2]
              have t2 : t0._batch_size = s2._batch_size := by rw [c2]
              have t3 : t0._max_eval = s2._max_eval := by rw [c2]
              rw [e2] at hfe
              refine ⟨?_, ?_, ?_, ?_, ?_, g5⟩
              · rw [g1, g2, a1, t1, e1]
              · intro hf; rw [hfe] at hf; exact absurd hf (by simp)
              · intro _; rw [g2, a2, c1, e3]
              · rw [g3, a3, t2, e3]
              · rw [g4, a4, t3, e4]
        · simp only [hfe, not_false_eq_true, if_true] at h
          by_cases hcol : env.pf_pareto_set.cols = 1
          · simp only [hcol, MYASSERT, if_true] at h
            cases h4 : adjust_and_evaluate m env s2 env.pf_pareto_set with
            | error e => simp [h4] at h
            | ok s3 =>
              simp only [h4] at h
              obtain ⟨g1, g2, g3, g4, g5⟩ := fin s3 h
              obtain ⟨a1, a2, a3, a4, -⟩ := adjust_and_evaluate_spec m env s2 s3 _ h4
              rw [e2] at hfe
              refine ⟨?_, ?_, ?_, ?_, ?_, g5⟩
              · rw [g1, g2, a1, e1]
              · intro _; rw [g2, a2]; exact hcol
              · intro hf; exact absurd hf hfe
              · rw [g3, a3, e3]
              · rw [g4, a4, e4]
          · simp [hcol, MYASSERT] at h

theorem optimize_loop_run {K : Type} [LinearOrderedField K] (m : Numerics K)
    (envs : Nat → StepEnv K) :
    ∀ (fuel k : Nat) (s : Driver K), 1 ≤ s._batch_size →
      s._max_eval - s._eval_counter ≤ fuel →
      ∃ tr last, tr.head? = some s ∧ tr.getLast? = some last ∧
        tr.length ≤ (s._max_eval - s._eval_counter) + 1 ∧
        List.Chain' (StepLink m envs) tr ∧
        last._max_eval = s._max_eval ∧ last._batch_size = s._batch_size ∧
        ((optimize_loop m envs fuel k s = some (.ok tr) ∧
            s._max_eval ≤ last._eval_counter ∧
            (1 < tr.length → last._eval_counter < s._max_eval + s._batch_size)) ∨
          (last._eval_counter < s._max_eval ∧
            ∃ e, optimize_one_step m (envs (k + tr.length - 1)) last = .error e ∧
              optimize_loop m envs fuel k s = some (.error e)))
  | 0, k, s, _, hfuel => by
    have hge : ¬ s._eval_counter < s._max_eval := by omega
    exact ⟨[s], s, rfl, rfl, by simp, List.chain'_singleton _, rfl, rfl,
      Or.inl ⟨by simp [optimize_loop, hge], by omega, by simp⟩⟩
  | fuel + 1, k, s, hb, hfuel => by
    by_cases hlt : s._eval_counter < s._max_eval
    · cases hstep : optimize_one_step m (envs k) s with
      | error e =>
        exact ⟨[s], s, rfl, rfl, by simp, List.chain'_singleton _, rfl, rfl,
          Or.inr ⟨hlt, e, by simpa using hstep, by simp [optimize_loop, hlt, hstep]⟩⟩
      | ok s1 =>
        obtain ⟨p1, p2, p3, p4, p5, -⟩ := optimize_one_step_spec m (envs k) s s1 hstep
        have hcols : 1 ≤ s1._eval_x.cols ∧ s1._eval_x.cols ≤ s._batch_size := by
          cases hf : s._have_feas with
          | false => rw [p2 hf]; exact ⟨le_refl 1, hb⟩
          | true => rw [p3 hf]; exact ⟨hb, le_refl _⟩
        obtain ⟨tr1, last, q1, q2, q3, q4, q5, q6, q7⟩ :=
          optimize_loop_run m envs fuel (k + 1) s1 (by omega) (by omega)
        have hlink : StepLink m envs s s1 := ⟨hlt, ⟨k, hstep⟩, p1, p2, p3, p5, p4⟩
        cases tr1 with
        | nil => simp at q1
        | cons t rest =>
          simp only [List.head?_cons, Option.some.injEq] at q1
          subst q1
          refine ⟨s :: t :: rest, last, rfl, by simpa using q2, ?_, List.Chain'.cons hlink q4,
            by omega, by omega, ?_⟩
          · simp only [List.length_cons] at q3 ⊢
            omega
          · rcases q7 with ⟨r1, r2, r3⟩ | ⟨r1, e, r2, r3⟩
            · refine Or.inl ⟨by simp [optimize_loop, hlt, hstep, r1], by omega, ?_⟩
              intro _
              cases rest with
              | nil =>
                simp only [List.getLast?_singleton, Option.some.injEq] at q2
                subst q2
                omega
              | cons u rest2 =>
                have := r3 (by simp)
                omega
            · refine Or.inr ⟨by omega, e, ?_, by simp [optimize_loop, hlt, hstep, r3]⟩
              have hidx : k + (s :: t :: rest).length - 1 = k + 1 + (t :: rest).length - 1 := by
                simp only [List.length_cons]
                omega
              rw [hidx]
              exact r2
    · exact ⟨[s], s, rfl, rfl, by simp, List.chain'_singleton _, rfl, rfl,
        Or.inl ⟨by simp [optimize_loop, hlt], by omega, by simp⟩⟩

/-- C6: from an initialised driver with `batch_size >= 1` the loop of
`optimize` makes at most `max_eval - eval_counter` calls of
`optimize_one_step`, whatever the collaborators return: with that much fuel (or
more) the model does not run out.  The states `tr` in which the loop condition
was tested start with the initial one; every state but the last has
`_eval_counter < max_eval` and leads to the next by a call that returned and
raised `_eval_counter` by the number of points it evaluated (`StepLink`: one
point in the feasibility branch, `batch_size` in the other two).  Either
`optimize` returns with exactly these states, the last one being the first with
`_eval_counter >= max_eval` and, after at least one call, with
`_eval_counter < max_eval + batch_size`; or the call in the last state, where
`_eval_counter < max_eval`, aborts, and `optimize` aborts with it. -/
theorem optimize_terminates {K : Type} [LinearOrderedField K] (m : Numerics K)
    (newGP : MatrixXd K → MatrixXd K → GP K) (finite : K → Bool) (unit : Nat → VectorXd K)
    (envs : Nat → StepEnv K) (fuel : Nat) (s : Driver K)
    (hgp : s._gp.isSome = true) (hb : 1 ≤ s._batch_size)
    (hfuel : s._max_eval - s._eval_counter ≤ fuel) :
    ∃ tr last, tr.head? = some s ∧ tr.getLast? = some last ∧
      tr.length ≤ (s._max_eval - s._eval_counter) + 1 ∧
      List.Chain' (StepLink m envs) tr ∧
      ((optimize m newGP finite unit envs fuel s = some (.ok tr) ∧
          s._max_eval ≤ last._eval_counter ∧
          (1 < tr.length → last._eval_counter < s._max_eval + s._batch_size)) ∨
        (last._eval_counter < s._max_eval ∧
          ∃ e, optimize_one_step m (envs (tr.length - 1)) last = .error e ∧
            optimize m newGP finite unit envs fuel s = some (.error e))) := by
  have hnone : ¬ s._gp.isNone = true := by
    cases hg : s._gp with
    | none => simp [hg] at hgp
    | some g => simp
  obtain ⟨tr, last, q1, q2, q3, q4, -, -, q7⟩ := optimize_loop_run m envs fuel 0 s hb hfuel
  refine ⟨tr, last, q1, q2, q3, q4, ?_⟩
  unfold optimize
  simp only [hnone, if_false]
  simpa using q7

/-! ## Initialisation from a database -/

theorem zipWith_all_iff_forall₂ {K : Type} (r : K → K → Prop) [DecidableRel r] :
    ∀ (c v : List K),
      (c.length = v.length ∧ (List.zipWith (fun x y => decide (r x y)) c v).all id = true) ↔
        List.Forall₂ r c v
  | [], [] => by simp
  | [], _ :: _ => by simp
  | _ :: _, [] => by simp
  | x :: c, y :: v => by
    have ih := zipWith_all_iff_forall₂ r c v
    simp only [List.length_cons, Nat.add_right_cancel_iff, List.zipWith_cons_cons, List.all_cons,
      id, Bool.and_eq_true, decide_eq_true_eq, List.forall₂_cons]
    rw [← ih]
    tauto

theorem allColsLe_iff {K : Type} [LinearOrder K] (m : MatrixXd K) (v : VectorXd K) :
    allColsLe m v = true ↔ ∀ c ∈ m.colList, List.Forall₂ (fun x u => x ≤ u) c v := by
  unfold allColsLe
  rw [List.all_eq_true]
  constructor
  · intro h c hc
    exact (zipWith_all_iff_forall₂ (fun x u => x ≤ u) c v).mp (of_decide_eq_true (h c hc))
  · intro h c hc
    exact decide_eq_true ((zipWith_all_iff_forall₂ (fun x u => x ≤ u) c v).mpr (h c hc))

theorem allColsGe_iff {K : Type} [LinearOrder K] (m : MatrixXd K) (v : VectorXd K) :
    allColsGe m v = true ↔ ∀ c ∈ m.colList, List.Forall₂ (fun x l => x ≥ l) c v := by
  unfold allColsGe
  rw [List.all_eq_true]
  constructor
  · intro h c hc
    exact (zipWith_all_iff_forall₂ (fun x l => x ≥ l) c v).mp (of_decide_eq_true (h c hc))
  · intro h c hc
    exact decide_eq_true ((zipWith_all_iff_forall₂ (fun x l => x ≥ l) c v).mpr (h c hc))

theorem allFinite_iff {K : Type} (finite : K → Bool) (m : MatrixXd K) :
    allFinite finite m = true ↔ ∀ c ∈ m.colList, ∀ v ∈ c, finite v = true := by
  simp [allFinite, List.all_eq_true]

theorem sortInsert_ok (lt : Nat → Nat → Except Fatal Bool) (a : Nat) :
    ∀ l : List Nat, (∀ b ∈ l, ∃ v, lt b a = .ok v) →
      ∃ r, sortInsert lt a l = .ok r ∧ r.Perm (a :: l)
  | [], _ => ⟨[a], rfl, List.Perm.refl _⟩
  | b :: l, h => by
    obtain ⟨v, hv⟩ := h b (List.mem_cons_self _ _)
    simp only [sortInsert, hv, bind, Except.bind, pure, Except.pure]
    cases v with
    | false => exact ⟨_, rfl, List.Perm.refl _⟩
    | true =>
      obtain ⟨r, hr, hp⟩ := sortInsert_ok lt a l (fun c hc => h c (List.mem_cons_of_mem _ hc))
      simp only [hr, if_true]
      exact ⟨_, rfl, (List.Perm.cons b hp).trans (List.Perm.swap a b l)⟩

theorem sortBy_ok (lt : Nat → Nat → Except Fatal Bool) :
    ∀ l : List Nat, (∀ a ∈ l, ∀ b ∈ l, ∃ v, lt b a = .ok v) →
      ∃ r, sortBy lt l = .ok r ∧ r.Perm l
  | [], _ => ⟨[], rfl, List.Perm.refl _⟩
  | a :: l, h => by
    obtain ⟨r, hr, hp⟩ := sortBy_ok lt l
      (fun x hx y hy => h x (List.mem_cons_of_mem _ hx) y (List.mem_cons_of_mem _ hy))
    obtain ⟨r2, hr2, hp2⟩ := sortInsert_ok lt a r
      (fun b hb => h a (List.mem_cons_self _ _) b (List.mem_cons_of_mem _ (hp.mem_iff.mp hb)))
    simp only [sortBy, hr, bind, Except.bind]
    exact ⟨r2, hr2, hp2.trans (List.Perm.cons a hp)⟩

theorem col_ok {K : Type} (m : MatrixXd K) (i : Nat) (h : i < m.cols) :
    ∃ c, m.col i = .ok c ∧ c ∈ m.colList := by
  unfold MatrixXd.cols at h
  refine ⟨m.colList[i], ?_, List.getElem_mem _⟩
  simp [MatrixXd.col, List.getElem?_eq_getElem h]

theorem find_best_ok {K : Type} [LinearOrder K] [Zero K] [Add K] (dby : MatrixXd K)
    (hne : ∀ c ∈ dby.colList, c ≠ []) (hn : 1 ≤ dby.cols) :
    ∃ i, _find_best dby = .ok i ∧ i < dby.cols := by
  have hlt : ∀ a ∈ _seq_idx dby.cols, ∀ b ∈ _seq_idx dby.cols,
      ∃ v, better_cols dby b a = Except.ok v := by
    intro a ha b hb
    simp only [_seq_idx, List.mem_range] at ha hb
    obtain ⟨ca, hca, hma⟩ := col_ok dby a ha
    obtain ⟨cb, hcb, hmb⟩ := col_ok dby b hb
    simp only [better_cols, hca, hcb, bind, Except.bind]
    exact ⟨_, better_eq_val cb ca (hne cb hmb) (hne ca hma)⟩
  obtain ⟨r, hr, hp⟩ := sortBy_ok _ _ hlt
  simp only [_find_best, hr, bind, Except.bind]
  cases r with
  | nil =>
    have := hp.length_eq
    simp [_seq_idx] at this
    omega
  | cons i rest =>
    refine ⟨i, rfl, ?_⟩
    have : i ∈ _seq_idx dby.cols := hp.mem_iff.mp (List.mem_cons_self _ _)
    simpa [_seq_idx] using this

/-- C7: `initialize(dbx, dby)` succeeds exactly under `InitConditions` (no
surrogate yet, `_dim` rows in `dbx`, `_num_spec` rows in `dby`, the same number
`N >= 2` of columns, every column of `dbx` within `[lb, ub]`, every entry of
`dby` finite); when it succeeds the driver has a surrogate, and in every other
case the call ends in `exit(EXIT_FAILURE)` or a failed `MYASSERT`, so no driver
with a surrogate comes out of it.  The driver has at least one output and
`dby` is a matrix (all columns of its height). -/
theorem initialize_succeeds_iff {K : Type} [LinearOrderedField K]
    (newGP : MatrixXd K → MatrixXd K → GP K) (finite : K → Bool) (s : Driver K)
    (dbx dby : MatrixXd K) (hy : dby.WF) (hspec : 1 ≤ s._num_spec) :
    ((∃ s', initialize_db newGP finite s dbx dby = .ok s') ↔ InitConditions finite s dbx dby) ∧
      (∀ s', initialize_db newGP finite s dbx dby = .ok s' → s'._gp.isSome = true) ∧
      (¬ InitConditions finite s dbx dby →
        initialize_db newGP finite s dbx dby = .error .exit_failure ∨
        initialize_db newGP finite s dbx dby = .error .assertion) := by
  unfold InitConditions
  rw [← allColsLe_iff, ← allColsGe_iff, ← allFinite_iff]
  unfold initialize_db
  by_cases h1 : s._gp.isSome = true
  · have hne : s._gp ≠ none := by
      intro h0
      rw [h0] at h1
      simp at h1
    simp [h1, hne]
  have hnone : s._gp = none := by
    cases hg : s._gp with
    | none => rfl
    | some g => simp [hg] at h1
  by_cases h2 : dbx.rows = s._dim
  swap
  · simp [h1, h2, MYASSERT, bind, Except.bind]
  by_cases h3 : dby.rows = s._num_spec
  swap
  · simp [h1, h2, h3, MYASSERT, bind, Except.bind]
  by_cases h4 : dbx.cols = dby.cols
  swap
  · simp [h1, h2, h3, h4, MYASSERT, bind, Except.bind]
  by_cases h5 : allColsLe dbx s._ub = true
  swap
  · simp [h1, h2, h3, h4, h5, MYASSERT, bind, Except.bind]
  by_cases h6 : allColsGe dbx s._lb = true
  swap
  · simp [h1, h2, h3, h4, h5, h6, MYASSERT, bind, Except.bind]
  by_cases h7 : dbx.cols < 2
  · have h7b : dby.cols < 2 := by omega
    have h7c : ¬ 2 ≤ dby.cols := by omega
    simp [h1, h2, h3, h4, h5, h6, h7b, h7c, MYASSERT, bind, Except.bind]
  by_cases h8 : allFinite finite dby = true
  swap
  · simp [h1, h2, h3, h4, h5, h6, h7, h8, MYASSERT, bind, Except.bind]
  have hcne : ∀ c ∈ dby.colList, c ≠ [] := fun c hc =>
    ne_nil_of_length c dby.rows (hy c hc) (h3 ▸ hspec)
  obtain ⟨i, hi, hlt⟩ := find_best_ok dby hcne (by omega)
  obtain ⟨cx, hcx, -⟩ := col_ok dbx i (h4 ▸ hlt)
  obtain ⟨cy, hcy, -⟩ := col_ok dby i hlt
  have h7b : ¬ dby.cols < 2 := by omega
  simp only [h1, h2, h3, h4, h5, h6, h7b, h8, hi, hcx, hcy, hnone, MYASSERT, bind, Except.bind,
    pure, Except.pure, not_true_eq_false, if_false, if_true, Bool.false_eq_true, true_and,
    Option.isSome_none, and_true]
  refine ⟨⟨fun _ => by omega, fun _ => ⟨_, rfl⟩⟩, ?_, ?_⟩
  · intro s' hs'
    injection hs' with hs'
    subst hs'
    rfl
  · intro hcon
    exact absurd (by omega : 2 ≤ dby.cols) hcon

/-- C7, on the example driver and a database of two points. -/
theorem initialize_succeeds_iff_example :
    ((∃ s', initialize_db (fun x y => { exampleGP ℚ with train_in := x, train_out := y })
          (fun _ => true) (exampleDriver ℚ) ⟨1, [[1 / 2], [-1]]⟩ ⟨1, [[1 / 4], [1]]⟩ = .ok s') ↔
        InitConditions (fun _ => true) (exampleDriver ℚ) ⟨1, [[1 / 2], [-1]]⟩
          ⟨1, [[1 / 4], [1]]⟩) ∧
      (∀ s', initialize_db (fun x y => { exampleGP ℚ with train_in := x, train_out := y })
          (fun _ => true) (exampleDriver ℚ) ⟨1, [[1 / 2], [-1]]⟩ ⟨1, [[1 / 4], [1]]⟩ = .ok s' →
        s'._gp.isSome = true) ∧
      (¬ InitConditions (fun _ => true) (exampleDriver ℚ) ⟨1, [[1 / 2], [-1]]⟩
          ⟨1, [[1 / 4], [1]]⟩ →
        initialize_db (fun x y => { exampleGP ℚ with train_in := x, train_out := y })
          (fun _ => true) (exampleDriver ℚ) ⟨1, [[1 / 2], [-1]]⟩ ⟨1, [[1 / 4], [1]]⟩
            = .error .exit_failure ∨
        initialize_db (fun x y => { exampleGP ℚ with train_in := x, train_out := y })
          (fun _ => true) (exampleDriver ℚ) ⟨1, [[1 / 2], [-1]]⟩ ⟨1, [[1 / 4], [1]]⟩
            = .error .assertion) :=
  initialize_succeeds_iff _ (fun _ => true) (exampleDriver ℚ) ⟨1, [[1 / 2], [-1]]⟩
    ⟨1, [[1 / 4], [1]]⟩ (by intro c hc; simp at hc; rcases hc with rfl | rfl <;> rfl)
    (Nat.le_refl 1)

/-! ## Acquisition functions -/

theorem get_tau_ok {K : Type} [LinearOrder K] [Zero K] [Sub K] (s : Driver K)
    (hby : s._best_y ≠ []) (hbp : s._best_posterior_y ≠ []) : ∃ t, _get_tau s 0 = .ok t := by
  unfold _get_tau
  cases hy : s._best_y with
  | nil => exact absurd hy hby
  | cons a l =>
    cases hp : s._best_posterior_y with
    | nil => exact absurd hp hbp
    | cons b l' =>
      cases s._posterior_ref <;>
        simp [coeff, bind, Except.bind, pure, Except.pure]

/-- C8: on a single-output driver whose surrogate is trained and whose
incumbent vectors have one entry per output, the value form `_acq(name, x)` and
the value and gradient form `_acq(name, x, grad)` return exactly for the four
names `pi_transf`, `log_lcb_improv_transf`, `log_ei`, `s2`; for every other
name both end in `exit(EXIT_FAILURE)`. -/
theorem acq_returns_iff_known {K : Type} [LinearOrderedField K] (m : Numerics K)
    (s : Driver K) (name : String) (x : VectorXd K) (hspec : s._num_spec = 1)
    (hgp : ∃ g, s._gp = some g ∧ g.trained = true)
    (hby : s._best_y.length = s._num_spec)
    (hbp : s._best_posterior_y.length = s._num_spec) :
    ((∃ v, _acq m s name x = .ok v) ↔
        name ∈ ["pi_transf", "log_lcb_improv_transf", "log_ei", "s2"]) ∧
      ((∃ v, _acq_grad m s name x = .ok v) ↔
        name ∈ ["pi_transf", "log_lcb_improv_transf", "log_ei", "s2"]) ∧
      (name ∉ ["pi_transf", "log_lcb_improv_transf", "log_ei", "s2"] →
        _acq m s name x = .error .exit_failure ∧
        _acq_grad m s name x = .error .exit_failure) := by
  obtain ⟨g, hg, htr⟩ := hgp
  have hy : s._best_y ≠ [] := ne_nil_of_length _ _ hby (by omega)
  have hp : s._best_posterior_y ≠ [] := ne_nil_of_length _ _ hbp (by omega)
  obtain ⟨t, ht⟩ := get_tau_ok s hy hp
  have hns : ¬ s._num_spec > 1 := by omega
  have hgo : gpOf s = .ok g := by simp [gpOf, hg]
  have hat : assertTrained s = .ok g := by
    simp [assertTrained, hgo, htr, MYASSERT, bind, Except.bind, pure, Except.pure]
  have v1 : ∃ v, _pi_transf m s x = .ok v := by
    simp [_pi_transf, hat, ht, bind, Except.bind, pure, Except.pure]
  have v2 : ∃ v, _log_lcb_improv_transf m s x = .ok v := by
    simp only [_log_lcb_improv_transf, _lcb_improv, hgo, ht, bind, Except.bind, pure,
      Except.pure]
    split
    · exact ⟨_, rfl⟩
    · split <;> exact ⟨_, rfl⟩
  have v3 : ∃ v, _log_ei m s x = .ok v := by
    simp [_log_ei, hgo, ht, bind, Except.bind, pure, Except.pure]
  have v4 : ∃ v, _s2 s x = .ok v := by
    simp [_s2, hat, bind, Except.bind, pure, Except.pure]
  have g1 : ∃ v, _pi_transf_grad m s x = .ok v := by
    simp [_pi_transf_grad, hat, ht, bind, Except.bind, pure, Except.pure]
  have g2 : ∃ v, _lcb_improv_transf_grad m s x = .ok v := by
    simp [_lcb_improv_transf_grad, _lcb_improv_grad, hgo, ht, bind, Except.bind, pure,
      Except.pure]
  have g3 : ∃ v, _log_ei_grad m s x = .ok v := by
    simp only [_log_ei_grad, hgo, ht, bind, Except.bind, pure, Except.pure]
    split <;> exact ⟨_, rfl⟩
  have g4 : ∃ v, _s2_grad s x = .ok v := by
    simp [_s2_grad, hat, bind, Except.bind, pure, Except.pure]
  unfold _acq _acq_grad
  simp only [hns, if_false, List.mem_cons, List.mem_singleton, List.not_mem_nil, or_false]
  by_cases n1 : name = "pi_transf"
  · simp [n1, v1, g1]
  by_cases n2 : name = "log_lcb_improv_transf"
  · simp [n2, v2, g2]
  by_cases n3 : name = "log_ei"
  · simp [n3, v3, g3]
  by_cases n4 : name = "s2"
  · simp [n4, v4, g4]
  simp [n1, n2, n3, n4]

/-- C8, on the example driver with a trained surrogate and the name `log_ei`. -/
theorem acq_returns_iff_known_example :
    ((∃ v, _acq exampleNumerics (exampleDriverGP ℚ) "log_ei" [3] = .ok v) ↔
        "log_ei" ∈ ["pi_transf", "log_lcb_improv_transf", "log_ei", "s2"]) ∧
      ((∃ v, _acq_grad exampleNumerics (exampleDriverGP ℚ) "log_ei" [3] = .ok v) ↔
        "log_ei" ∈ ["pi_transf", "log_lcb_improv_transf", "log_ei", "s2"]) ∧
      ("log_ei" ∉ ["pi_transf", "log_lcb_improv_transf", "log_ei", "s2"] →
        _acq exampleNumerics (exampleDriverGP ℚ) "log_ei" [3] = .error .exit_failure ∧
        _acq_grad exampleNumerics (exampleDriverGP ℚ) "log_ei" [3] = .error .exit_failure) :=
  acq_returns_iff_known exampleNumerics (exampleDriverGP ℚ) "log_ei" [3] rfl
    ⟨exampleGP ℚ, rfl, rfl⟩ rfl rfl

/-- C9 fails on the code: for the name `log_lcb_improv_transf` the value and
gradient form of `_acq` calls `_lcb_improv_transf(x, grad)`, not
`_log_lcb_improv_transf(x, grad)`.  On the example driver (incumbent 5,
`kappa = 1`, posterior mean 0 and variance 1, so the LCB improvement is 6) the
value form returns `log (log (1 + e^6))` and the value and gradient form
returns `log (1 + e^6)`, which is larger. -/
theorem acq_grad_value_differs (normcdf normpdf : ℝ → ℝ) :
    _acq ⟨Real.sqrt, Real.log, Real.exp, fun a b => a ^ b, Real.pi, normcdf, normpdf⟩
        (exampleDriverGP ℝ) "log_lcb_improv_transf" [0]
        = .ok (Real.log (Real.log (1 + Real.exp 6))) ∧
      (_acq_grad ⟨Real.sqrt, Real.log, Real.exp, fun a b => a ^ b, Real.pi, normcdf, normpdf⟩
        (exampleDriverGP ℝ) "log_lcb_improv_transf" [0]).map Prod.fst
        = .ok (Real.log (1 + Real.exp 6)) ∧
      Real.log (Real.log (1 + Real.exp 6)) < Real.log (1 + Real.exp 6) := by
  have hne : ¬ ("log_lcb_improv_transf" : String) = "pi_transf" := by decide
  refine ⟨?_, ?_, ?_⟩
  · simp only [_acq, _log_lcb_improv_transf, _lcb_improv, _get_tau, coeff, gpOf, exampleDriverGP,
      exampleDriver, exampleGP, bind, Except.bind, pure, Except.pure, hne, if_false]
    norm_num
  · simp only [_acq_grad, _lcb_improv_transf_grad, _lcb_improv_grad, _get_tau, coeff, gpOf,
      exampleDriverGP, exampleDriver, exampleGP, bind, Except.bind, pure, Except.pure,
      Except.map, hne, if_false]
    norm_num
  · have hpos : 0 < Real.log (1 + Real.exp 6) :=
      Real.log_pos (by linarith [Real.exp_pos 6])
    linarith [Real.log_le_sub_one_of_pos hpos]

/-! ## Kappa scheduler -/

/-- C10: `_set_kappa` assigns `kappa_of` at the iteration number `kappa_t`,
and in exact real arithmetic, for `upsilon >= 0` and `delta > 0`, the value
`sqrt (upsilon * 2 * log (t ^ (2 + dim / 2) * 3 * pi ^ 2 / (3 * delta)))` is
non-decreasing in the iteration number: for `1 <= t1 <= t2` the value for `t1`
is at most the value for `t2`. -/
theorem kappa_monotone (normcdf normpdf : ℝ → ℝ) (upsilon delta : ℝ) (dim : Nat) (t1 t2 : ℝ)
    (hu : 0 ≤ upsilon) (hd : 0 < delta) (h1 : 1 ≤ t1) (h12 : t1 ≤ t2) :
    (∀ s : Driver ℝ,
        (_set_kappa ⟨Real.sqrt, Real.log, Real.exp, fun a b => a ^ b, Real.pi, normcdf,
            normpdf⟩ s)._kappa
          = kappa_of ⟨Real.sqrt, Real.log, Real.exp, fun a b => a ^ b, Real.pi, normcdf,
            normpdf⟩ s._upsilon s._delta s._dim (kappa_t s)) ∧
      kappa_of ⟨Real.sqrt, Real.log, Real.exp, fun a b => a ^ b, Real.pi, normcdf, normpdf⟩
          upsilon delta dim t1
        ≤ kappa_of ⟨Real.sqrt, Real.log, Real.exp, fun a b => a ^ b, Real.pi, normcdf, normpdf⟩
          upsilon delta dim t2 := by
  refine ⟨fun _ => rfl, ?_⟩
  simp only [kappa_of]
  have ht1 : (0 : ℝ) < t1 := by linarith
  have hp : (0 : ℝ) ≤ 2 + (dim : ℝ) / 2 := by positivity
  have hpow : t1 ^ (2 + (dim : ℝ) / 2) ≤ t2 ^ (2 + (dim : ℝ) / 2) :=
    Real.rpow_le_rpow ht1.le h12 hp
  have hpos1 : 0 < t1 ^ (2 + (dim : ℝ) / 2) := Real.rpow_pos_of_pos ht1 _
  have hpi : 0 < Real.pi ^ (2 : ℝ) := Real.rpow_pos_of_pos Real.pi_pos _
  have hA1 : 0 < t1 ^ (2 + (dim : ℝ) / 2) * 3 * Real.pi ^ (2 : ℝ) / (3 * delta) := by
    positivity
  have hA : t1 ^ (2 + (dim : ℝ) / 2) * 3 * Real.pi ^ (2 : ℝ) / (3 * delta)
      ≤ t2 ^ (2 + (dim : ℝ) / 2) * 3 * Real.pi ^ (2 : ℝ) / (3 * delta) := by
    apply div_le_div_of_nonneg_right _ (by positivity)
    apply mul_le_mul_of_nonneg_right _ hpi.le
    apply mul_le_mul_of_nonneg_right hpow (by norm_num)
  apply Real.sqrt_le_sqrt
  apply mul_le_mul_of_nonneg_left (Real.log_le_log hA1 hA)
  positivity

/-- C10, at `upsilon = 1/2`, `delta = 1/20`, dimension 2, `t1 = 1`, `t2 = 3`. -/
theorem kappa_monotone_example :
    (∀ s : Driver ℝ,
        (_set_kappa ⟨Real.sqrt, Real.log, Real.exp, fun a b => a ^ b, Real.pi, fun _ => 0,
            fun _ => 0⟩ s)._kappa
          = kappa_of ⟨Real.sqrt, Real.log, Real.exp, fun a b => a ^ b, Real.pi, fun _ => 0,
            fun _ => 0⟩ s._upsilon s._delta s._dim (kappa_t s)) ∧
      kappa_of ⟨Real.sqrt, Real.log, Real.exp, fun a b => a ^ b, Real.pi,
            fun _ => 0, fun _ => 0⟩ (1 / 2) (1 / 20) 2 1
        ≤ kappa_of ⟨Real.sqrt, Real.log, Real.exp, fun a b => a ^ b, Real.pi,
            fun _ => 0, fun _ => 0⟩ (1 / 2) (1 / 20) 2 3 :=
  kappa_monotone (fun _ => 0) (fun _ => 0) (1 / 2) (1 / 20) 2 1 3 (by norm_num) (by norm_num)
    (le_refl 1) (by norm_num)

/-! ## Reachable states: the feasibility flag and the iteration number of `_set_kappa` -/

theorem create_frame {K : Type} [LinearOrderedField K] (dflt : Driver K) (INF : K)
    (f : VectorXd K → VectorXd K) (num_spec : Nat) (lb ub : VectorXd K) (s : Driver K)
    (h : create dflt INF f num_spec lb ub = .ok s) :
    s._gp = none ∧ s._eval_counter = 0 ∧ s._have_feas = false ∧ s._num_spec = num_spec ∧
      num_spec ≤ 1 ∧ s._num_init = dflt._num_init ∧ s._batch_size = dflt._batch_size ∧
      s._dim = lb.length ∧ s._lb = lb ∧ s._ub = ub := by
  unfold create at h
  by_cases h1 : ¬ ((-25 : K) < 25)
  · simp [h1] at h
  by_cases h2 : ¬ (lb.length = ub.length ∧ allLt lb ub = true)
  · simp only [h1, h2, if_true, if_false] at h
    cases h
  by_cases h3 : num_spec > 1
  · simp only [h1, h2, h3, if_true, if_false] at h
    cases h
  simp only [h1, h2, h3, if_false] at h
  injection h with h
  subst h
  exact ⟨rfl, rfl, rfl, rfl, by omega, rfl, rfl, rfl, rfl, rfl⟩

theorem col_mem {K : Type} (m : MatrixXd K) (i : Nat) (c : VectorXd K) (h : m.col i = .ok c) :
    c ∈ m.colList ∧ i < m.cols := by
  unfold MatrixXd.col at h
  cases hc : m.colList[i]? with
  | none => simp [hc] at h
  | some c' =>
    simp only [hc] at h
    injection h with h
    subst h
    obtain ⟨hlt, hget⟩ := List.getElem?_eq_some_iff.mp hc
    exact ⟨hget ▸ List.getElem_mem _, hlt⟩

theorem initialize_db_frame {K : Type} [LinearOrderedField K]
    (newGP : MatrixXd K → MatrixXd K → GP K) (finite : K → Bool) (s s' : Driver K)
    (dbx dby : MatrixXd K) (h : initialize_db newGP finite s dbx dby = .ok s') :
    s'._eval_counter = s._eval_counter ∧ s'._num_init = s._num_init ∧
      s'._batch_size = s._batch_size ∧ s'._num_spec = s._num_spec ∧
      s'._have_feas = _is_feas s'._best_y ∧ s'._gp.isSome = true ∧
      s'._no_improve_counter = 0 ∧ s'._best_y ∈ dby.colList ∧ dby.rows = s._num_spec := by
  unfold initialize_db at h
  by_cases h1 : s._gp.isSome = true
  · simp [h1] at h
  simp only [h1, if_false, MYASSERT, bind, Except.bind, pure, Except.pure] at h
  by_cases h2 : dbx.rows = s._dim
  swap
  · simp [h2] at h
  by_cases h3 : dby.rows = s._num_spec
  swap
  · simp [h2, h3] at h
  by_cases h4 : dbx.cols = dby.cols
  swap
  · simp [h2, h3, h4] at h
  by_cases h5 : allColsLe dbx s._ub = true
  swap
  · simp [h2, h3, h4, h5] at h
  by_cases h6 : allColsGe dbx s._lb = true
  swap
  · simp [h2, h3, h4, h5, h6] at h
  simp only [h2, h3, h4, h5, h6, if_true] at h
  by_cases h7 : dby.cols < 2
  · simp [h7] at h
  by_cases h8 : allFinite finite dby = true
  swap
  · simp [h7, h8] at h
  simp only [h7, h8, if_false, not_true_eq_false] at h
  cases hb : _find_best dby with
  | error e => simp [hb] at h
  | ok i =>
    simp only [hb] at h
    cases hx : dbx.col i with
    | error e => simp [hx] at h
    | ok cx =>
      cases hy : dby.col i with
      | error e => simp [hx, hy] at h
      | ok cy =>
        simp only [hx, hy] at h
        injection h with h
        subst h
        exact ⟨rfl, rfl, rfl, rfl, rfl, rfl, rfl, (col_mem dby i cy hy).1, h3⟩

theorem initialize_db_ok {K : Type} [LinearOrderedField K]
    (newGP : MatrixXd K → MatrixXd K → GP K) (finite : K → Bool) (s : Driver K)
    (dbx dby : MatrixXd K) (hy : dby.WF) (hspec : 1 ≤ s._num_spec)
    (hc : InitConditions finite s dbx dby) :
    ∃ s', initialize_db newGP finite s dbx dby = .ok s' := by
  unfold InitConditions at hc
  rw [← allColsLe_iff, ← allColsGe_iff, ← allFinite_iff] at hc
  obtain ⟨h1, h2, h3, h4, h7, h5, h6, h8⟩ := hc
  have hcne : ∀ c ∈ dby.colList, c ≠ [] := fun c hc =>
    ne_nil_of_length c dby.rows (hy c hc) (h3 ▸ hspec)
  obtain ⟨i, hi, hlt⟩ := find_best_ok dby hcne (by omega)
  obtain ⟨cx, hcx, -⟩ := col_ok dbx i (h4 ▸ hlt)
  obtain ⟨cy, hcy, -⟩ := col_ok dby i hlt
  have h7b : ¬ dby.cols < 2 := by omega
  unfold initialize_db
  simp only [h1, h2, h3, h4, h5, h6, h7b, h8, hi, hcx, hcy, MYASSERT, bind, Except.bind,
    pure, Except.pure, not_true_eq_false, if_false, if_true, Bool.false_eq_true,
    Option.isSome_none]
  exact ⟨_, rfl⟩

theorem is_feas_of_length_le_one {K : Type} [LinearOrder K] [Zero K] (v : VectorXd K)
    (h : v.length ≤ 1) : _is_feas v = true := by
  unfold _is_feas
  simp [show ¬ v.length > 1 from by omega]

theorem run_func_visit_have_feas {K : Type} [LinearOrder K] [Zero K] [Add K]
    (s s' : Driver K) (ni ni' : Bool) (xy : VectorXd K × VectorXd K)
    (h : run_func_visit (s, ni) xy = .ok (s', ni')) (hf : s._have_feas = true) :
    s'._have_feas = true := by
  obtain ⟨x, y⟩ := xy
  simp only [run_func_visit, bind, Except.bind, pure, Except.pure] at h
  cases hb : _better y s._best_y with
  | error e => simp [hb] at h
  | ok b =>
    simp only [hb] at h
    cases b <;> cases hfe : _is_feas y <;> simp [hfe] at h <;> obtain ⟨h, -⟩ := h <;>
      subst h <;> first | rfl | exact hf

theorem run_func_scan_have_feas {K : Type} [LinearOrder K] [Zero K] [Add K] :
    ∀ (zs : List (VectorXd K × VectorXd K)) (s s' : Driver K) (ni ni' : Bool),
      run_func_scan (s, ni) zs = .ok (s', ni') → s._have_feas = true → s'._have_feas = true
  | [], s, s', ni, ni', h, hf => by
    simp only [run_func_scan] at h
    injection h with h
    injection h with h1 h2
    subst h1
    exact hf
  | xy :: zs, s, s', ni, ni', h, hf => by
    simp only [run_func_scan, bind, Except.bind] at h
    cases h1 : run_func_visit (s, ni) xy with
    | error e => simp [h1] at h
    | ok acc1 =>
      obtain ⟨s1, ni1⟩ := acc1
      simp only [h1] at h
      exact run_func_scan_have_feas zs s1 s' ni1 ni' h
        (run_func_visit_have_feas s s1 ni ni1 xy h1 hf)

theorem run_func_have_feas {K : Type} [LinearOrder K] [Zero K] [Add K] [Mul K]
    (s s' : Driver K) (xs ys : MatrixXd K) (h : _run_func s xs = .ok (s', ys)) :
    (s._have_feas = true → s'._have_feas = true) ∧ s'._num_spec = s._num_spec ∧
      s'._gp = s._gp ∧ ys.WF ∧ ys.rows = s._num_spec := by
  obtain ⟨-, fr⟩ := run_func_frame s s' xs ys h
  have e1 : s'._num_spec = s._num_spec := by rw [fr]
  have e2 : s'._gp = s._gp := by rw [fr]
  unfold _run_func at h
  simp only [bind, Except.bind, pure, Except.pure] at h
  split at h
  · exact absurd h (by simp)
  · rename_i hwf
    cases h1 : run_func_scan (s, true)
        ((_rescale s xs).colList.zip ((_rescale s xs).colList.map s._func)) with
    | error e => simp [h1] at h
    | ok acc =>
      obtain ⟨s1, ni⟩ := acc
      simp only [h1] at h
      have hys : ys = ⟨s._num_spec, (_rescale s xs).colList.map s._func⟩ := by
        cases ni <;> simp at h <;> exact h.2.symm
      have hfe : s'._have_feas = s1._have_feas := by
        cases ni <;> simp at h <;> rw [← h.1]
      refine ⟨fun hf => ?_, e1, e2, ?_, ?_⟩
      · rw [hfe]
        exact run_func_scan_have_feas _ s s1 true ni h1 hf
      · rw [hys]
        intro c hc
        simp only [not_not] at hwf
        exact hwf c hc
      · rw [hys]

theorem add_batch_frame {K : Type} (env : StepEnv K) (s s' : Driver K)
    (h : add_batch env s = .ok s') : s' = { s with _gp := s'._gp } ∧ s'._gp.isSome = true := by
  simp only [add_batch, bind, Except.bind, pure, Except.pure] at h
  cases hg : gpOf s with
  | error e => simp [hg] at h
  | ok g =>
    simp only [hg] at h
    injection h with h
    subst h
    exact ⟨rfl, rfl⟩

theorem adjust_and_evaluate_have_feas {K : Type} [LinearOrderedField K] (m : Numerics K)
    (env : StepEnv K) (t0 s' : Driver K) (x0 : MatrixXd K)
    (h : adjust_and_evaluate m env t0 x0 = .ok s') :
    (t0._have_feas = true → s'._have_feas = true) ∧ s'._num_spec = t0._num_spec := by
  simp only [adjust_and_evaluate, bind, Except.bind, pure, Except.pure] at h
  cases h1 : _adjust_x m.sqrt t0 env.adjust_draws x0 with
  | error e => simp [h1] at h
  | ok x =>
    simp only [h1] at h
    cases h2 : _run_func t0 x with
    | error e => simp [h2] at h
    | ok r =>
      obtain ⟨t, y⟩ := r
      simp only [h2] at h
      injection h with h
      subst h
      obtain ⟨f1, f2, -⟩ := run_func_have_feas t0 t x y h2
      exact ⟨f1, f2⟩

theorem step_guard_have_feas {K : Type} (env : StepEnv K) (s s1 s2 : Driver K)
    (hf : s._gp.isSome = true → s._have_feas = true) (h1 : _train_GP env s = .ok s1)
    (h2 : _set_best_posterior_mean env s1 = .ok s2) : s2._have_feas = true := by
  obtain ⟨f1, -⟩ := train_GP_frame env s s1 h1
  have f2 := set_best_posterior_mean_frame env s1 s2 h2
  have e2 : s2._have_feas = s._have_feas := by rw [f2, f1]
  rw [e2]
  apply hf
  simp only [_train_GP, gpOf, bind, Except.bind] at h1
  cases hg : s._gp with
  | none => simp [hg] at h1
  | some g => rfl

theorem optimize_one_step_eq_feasible {K : Type} [LinearOrderedField K] (m : Numerics K)
    (env : StepEnv K) (s : Driver K) (hf : s._gp.isSome = true → s._have_feas = true) :
    optimize_one_step m env s = optimize_one_step_feasible m env s := by
  unfold optimize_one_step optimize_one_step_feasible
  split
  · rfl
  · simp only [bind, Except.bind]
    cases h1 : _train_GP env s with
    | error e => rfl
    | ok s1 =>
      simp only []
      cases h2 : _set_best_posterior_mean env s1 with
      | error e => rfl
      | ok s2 =>
        simp only [step_guard_have_feas env s s1 s2 hf h1 h2, not_true_eq_false, if_false]

theorem optimize_one_step_have_feas {K : Type} [LinearOrderedField K] (m : Numerics K)
    (env : StepEnv K) (s s' : Driver K) (hf : s._gp.isSome = true → s._have_feas = true)
    (h : optimize_one_step m env s = .ok s') :
    s'._num_spec = s._num_spec ∧ s'._have_feas = true := by
  rw [optimize_one_step_eq_feasible m env s hf] at h
  unfold optimize_one_step_feasible at h
  split at h
  · exact absurd h (by simp)
  · simp only [bind, Except.bind, pure, Except.pure] at h
    cases h1 : _train_GP env s with
    | error e => simp [h1] at h
    | ok s1 =>
      simp only [h1] at h
      cases h2 : _set_best_posterior_mean env s1 with
      | error e => simp [h2] at h
      | ok s2 =>
        simp only [h2] at h
        obtain ⟨f1, -⟩ := train_GP_frame env s s1 h1
        have f2 := set_best_posterior_mean_frame env s1 s2 h2
        have e1 : s2._num_spec = s._num_spec := by rw [f2, f1]
        have e2 := step_guard_have_feas env s s1 s2 hf h1 h2
        cases h3 : choose_batch m env s2 with
        | error e => simp [h3] at h
        | ok r =>
          obtain ⟨t0, x0⟩ := r
          simp only [h3] at h
          cases h4 : adjust_and_evaluate m env t0 x0 with
          | error e => simp [h4] at h
          | ok s3 =>
            simp only [h4] at h
            obtain ⟨c1, c2⟩ := choose_batch_spec m env s2 t0 x0 h3
            have t1 : t0._have_feas = s2._have_feas := by rw [c2]
            have t2 : t0._num_spec = s2._num_spec := by rw [c2]
            obtain ⟨a1, a2⟩ := adjust_and_evaluate_have_feas m env t0 s3 x0 h4
            obtain ⟨b1, -⟩ := add_batch_frame env s3 s' h
            have u1 : s'._have_feas = s3._have_feas := by rw [b1]
            have u2 : s'._num_spec = s3._num_spec := by rw [b1]
            exact ⟨by rw [u2, a2, t2, e1], by rw [u1]; exact a1 (by rw [t1]; exact e2)⟩

theorem initialize_db_have_feas {K : Type} [LinearOrderedField K]
    (newGP : MatrixXd K → MatrixXd K → GP K) (finite : K → Bool) (s s' : Driver K)
    (dbx dby : MatrixXd K) (hy : dby.WF) (hspec : s._num_spec ≤ 1)
    (h : initialize_db newGP finite s dbx dby = .ok s') :
    s'._have_feas = true ∧ s'._num_spec = s._num_spec := by
  obtain ⟨-, -, -, e4, e5, -, -, e8, e9⟩ := initialize_db_frame newGP finite s s' dbx dby h
  refine ⟨?_, e4⟩
  rw [e5]
  apply is_feas_of_length_le_one
  rw [hy _ e8, e9]
  exact hspec

theorem initialize_size_have_feas {K : Type} [LinearOrderedField K]
    (newGP : MatrixXd K → MatrixXd K → GP K) (finite : K → Bool) (unit : Nat → VectorXd K)
    (s s' : Driver K) (n : Nat) (hspec : s._num_spec ≤ 1)
    (h : initialize_size newGP finite unit s n = .ok s') :
    s'._have_feas = true ∧ s'._num_spec = s._num_spec := by
  simp only [initialize_size, bind, Except.bind] at h
  cases h1 : _run_func s (_doe s unit n) with
  | error e => simp [h1] at h
  | ok r =>
    obtain ⟨s1, dby⟩ := r
    simp only [h1] at h
    obtain ⟨-, f2, -, f4, -⟩ := run_func_have_feas s s1 _ dby h1
    obtain ⟨g1, g2⟩ := initialize_db_have_feas newGP finite s1 s' _ dby f4 (by omega) h
    exact ⟨g1, by rw [g2, f2]⟩

theorem reachable_invariant {K : Type} [LinearOrderedField K] (s : Driver K)
    (hr : Reachable s) : s._num_spec ≤ 1 ∧ (s._gp.isSome = true → s._have_feas = true) := by
  induction hr with
  | constructed dflt INF f num_spec lb ub s h =>
    obtain ⟨hg, -, -, hn, hle, -⟩ := create_frame dflt INF f num_spec lb ub s h
    exact ⟨by omega, fun hs => by simp [hg] at hs⟩
  | after_set_init_num s n _ ih => exact ih
  | after_set_max_eval s n _ ih => exact ih
  | after_set_batch s n _ ih => exact ih
  | after_set_force_select_hyp s f _ ih => exact ih
  | after_set_tol_no_improvement s n _ ih => exact ih
  | after_set_eval_fixed s n _ ih => exact ih
  | after_initialize_db newGP finite s dbx dby s1 _ hy h ih =>
    obtain ⟨g1, g2⟩ := initialize_db_have_feas newGP finite s s1 dbx dby hy ih.1 h
    exact ⟨by omega, fun _ => g1⟩
  | after_initialize_size newGP finite unit s n s1 _ h ih =>
    obtain ⟨g1, g2⟩ := initialize_size_have_feas newGP finite unit s s1 n ih.1 h
    exact ⟨by omega, fun _ => g1⟩
  | after_run_func s xs s1 ys _ h ih =>
    obtain ⟨f1, f2, f3, -⟩ := run_func_have_feas s s1 xs ys h
    exact ⟨by omega, fun hs => f1 (ih.2 (f3 ▸ hs))⟩
  | after_optimize_one_step m env s s1 _ h ih =>
    obtain ⟨g1, g2⟩ := optimize_one_step_have_feas m env s s1 ih.2 h
    exact ⟨by omega, fun _ => g2⟩

/-- C19: in every state reachable from a driver that the constructor returned
(the constructor accepts `num_spec <= 1` only, and `_is_feas` holds of every
vector with `_num_spec` entries), every call of `initialize` that returns, from
a database or from a sample count, leaves `_have_feas` true; `_have_feas` is
true whenever the driver has a surrogate; a call of `_run_func` that returns
keeps it true; and `optimize_one_step` does what its body without the
feasibility-seeking branch does: the guard `not _have_feas` is false in the
state in which it is tested. -/
theorem have_feas_after_initialize {K : Type} [LinearOrderedField K] (s : Driver K)
    (hr : Reachable s) :
    s._num_spec ≤ 1 ∧
      (∀ v : VectorXd K, v.length = s._num_spec → _is_feas v = true) ∧
      (∀ newGP finite dbx dby s1, dby.WF →
        initialize_db newGP finite s dbx dby = .ok s1 → s1._have_feas = true) ∧
      (∀ newGP finite unit init_size s1,
        initialize_size newGP finite unit s init_size = .ok s1 → s1._have_feas = true) ∧
      (s._gp.isSome = true → s._have_feas = true) ∧
      (∀ xs s1 ys, _run_func s xs = .ok (s1, ys) → s._have_feas = true →
        s1._have_feas = true) ∧
      (∀ m env, optimize_one_step m env s = optimize_one_step_feasible m env s) ∧
      (∀ env s1 s2, _train_GP env s = .ok s1 → _set_best_posterior_mean env s1 = .ok s2 →
        s2._have_feas = true) := by
  obtain ⟨h1, h2⟩ := reachable_invariant s hr
  refine ⟨h1, ?_, ?_, ?_, h2, ?_, ?_, ?_⟩
  · intro v hv
    exact is_feas_of_length_le_one v (by omega)
  · intro newGP finite dbx dby s1 hy h
    exact (initialize_db_have_feas newGP finite s s1 dbx dby hy h1 h).1
  · intro newGP finite unit n s1 h
    exact (initialize_size_have_feas newGP finite unit s s1 n h1 h).1
  · intro xs s1 ys h hf
    exact (run_func_have_feas s s1 xs ys h).1 hf
  · intro m env
    exact optimize_one_step_eq_feasible m env s h2
  · intro env s1 s2 ha hb
    exact step_guard_have_feas env s s1 s2 h2 ha hb

theorem example_database_init (newGP : MatrixXd ℚ → MatrixXd ℚ → GP ℚ)
    (f : VectorXd ℚ → VectorXd ℚ) :
    ∃ s0 s1, create (exampleDriver ℚ) 1000 f 1 [-1] [1] = .ok s0 ∧
      initialize_db newGP (fun _ => true) s0 ⟨1, [[1 / 2], [-1]]⟩ ⟨1, [[1 / 4], [1]]⟩ = .ok s1 ∧
      Reachable s1 ∧ s1._eval_counter = 0 ∧ s1._num_init = 2 ∧ s1._batch_size = 2 ∧
      s1._no_improve_counter = 0 ∧ s1._gp.isSome = true := by
  obtain ⟨s0, hs0, -⟩ := create_ok (exampleDriver ℚ) 1000 f 1 [-1] [1]
    (List.Forall₂.cons (by norm_num) List.Forall₂.nil) (Nat.le_refl 1)
  obtain ⟨hg, he, -, hn, -, hni, hbs, hd, hlb, hub⟩ := create_frame _ _ _ _ _ _ _ hs0
  have hwf : (⟨1, [[1 / 4], [1]]⟩ : MatrixXd ℚ).WF := by
    intro c hc
    simp at hc
    rcases hc with rfl | rfl <;> rfl
  have hi : ∃ s1, initialize_db newGP (fun _ => true) s0 ⟨1, [[1 / 2], [-1]]⟩
      ⟨1, [[1 / 4], [1]]⟩ = .ok s1 := by
    apply initialize_db_ok newGP (fun _ => true) s0 ⟨1, [[1 / 2], [-1]]⟩
      ⟨1, [[1 / 4], [1]]⟩ hwf (by omega)
    simp [InitConditions, hg, hd, hn, hub, hlb, MatrixXd.cols]
    norm_num
  obtain ⟨s1, hs1⟩ := hi
  obtain ⟨e1, e2, e3, -, -, e6, e7, -⟩ := initialize_db_frame newGP _ s0 s1 _ _ hs1
  have hni2 : s0._num_init = 2 := hni
  have hbs2 : s0._batch_size = 2 := hbs
  exact ⟨s0, s1, hs0, hs1,
    Reachable.after_initialize_db newGP _ s0 _ _ s1
      (Reachable.constructed _ _ _ _ _ _ s0 hs0) hwf hs1,
    by omega, by omega, by omega, e7, e6⟩

/-- C19, on the driver constructed for the box `[-1, 1]` and initialised from a
database of two points. -/
theorem have_feas_after_initialize_example :
    ∃ s0 s : Driver ℚ, create (exampleDriver ℚ) 1000 (exampleDriver ℚ)._func 1 [-1] [1] = .ok s0 ∧
      initialize_db (fun x y => { exampleGP ℚ with train_in := x, train_out := y })
        (fun _ => true) s0 ⟨1, [[1 / 2], [-1]]⟩ ⟨1, [[1 / 4], [1]]⟩ = .ok s ∧
      s._gp.isSome = true ∧
      (s._num_spec ≤ 1 ∧
        (∀ v : VectorXd ℚ, v.length = s._num_spec → _is_feas v = true) ∧
        (∀ newGP finite dbx dby s1, dby.WF →
          initialize_db newGP finite s dbx dby = .ok s1 → s1._have_feas = true) ∧
        (∀ newGP finite unit init_size s1,
          initialize_size newGP finite unit s init_size = .ok s1 → s1._have_feas = true) ∧
        (s._gp.isSome = true → s._have_feas = true) ∧
        (∀ xs s1 ys, _run_func s xs = .ok (s1, ys) → s._have_feas = true →
          s1._have_feas = true) ∧
        (∀ m env, optimize_one_step m env s = optimize_one_step_feasible m env s) ∧
        (∀ env s1 s2, _train_GP env s = .ok s1 → _set_best_posterior_mean env s1 = .ok s2 →
          s2._have_feas = true)) := by
  obtain ⟨s0, s, h0, h1, hr, -, -, -, -, hg⟩ :=
    example_database_init (fun x y => { exampleGP ℚ with train_in := x, train_out := y })
      (exampleDriver ℚ)._func
  exact ⟨s0, s, h0, h1, hg, have_feas_after_initialize s hr⟩

theorem kappa_t_of_le (s : Driver ℚ) (h1 : s._num_init ≤ s._eval_counter)
    (h2 : s._eval_counter < 2 ^ 64) :
    kappa_t s
      = 1 + ((s._eval_counter : ℚ) - (s._num_init : ℚ)) / (s._batch_size : ℚ) := by
  have hs : sizeSub s._eval_counter s._num_init = s._eval_counter - s._num_init := by
    unfold sizeSub
    omega
  simp only [kappa_t, hs, Nat.cast_sub h1, one_mul]

/-- C11 fails on the code: the driver constructed for the box `[-1, 1]` with
`_num_init = 2` and `_batch_size = 2`, then initialised from a database of two
points, is in a state the driver reaches, with `_eval_counter = 0` (the
initialisation from a database does not count evaluations), a feasible
incumbent and `_no_improve_counter = 0`, so the next `optimize_one_step` calls
`_set_kappa`.  There the unsigned difference `_eval_counter - _num_init` is
`2 ^ 64 - 2` and `t = 1 + (2 ^ 64 - 2) / 2 = 2 ^ 63`, where
`1 + (eval_counter - init_size) / batch_size = 1 + (0 - 2) / 2 = 0`; `_kappa` is
computed from `2 ^ 63`.  In the states with `_num_init <= _eval_counter < 2 ^ 64`
the subtraction does not wrap and `t` is the mathematical value. -/
theorem set_kappa_t_after_database_init (newGP : MatrixXd ℚ → MatrixXd ℚ → GP ℚ)
    (f : VectorXd ℚ → VectorXd ℚ) (m : Numerics ℚ) :
    (∃ s0 s1, create (exampleDriver ℚ) 1000 f 1 [-1] [1] = .ok s0 ∧
      initialize_db newGP (fun _ => true) s0 ⟨1, [[1 / 2], [-1]]⟩ ⟨1, [[1 / 4], [1]]⟩ = .ok s1 ∧
      Reachable s1 ∧ s1._have_feas = true ∧ s1._no_improve_counter = 0 ∧
      s1._eval_counter = 0 ∧ s1._num_init = 2 ∧ s1._batch_size = 2 ∧
      sizeSub s1._eval_counter s1._num_init = 2 ^ 64 - 2 ∧
      kappa_t s1 = 2 ^ 63 ∧
      (1 : ℚ) + ((s1._eval_counter : ℚ) - (s1._num_init : ℚ)) / (s1._batch_size : ℚ) = 0 ∧
      (_set_kappa m s1)._kappa = kappa_of m s1._upsilon s1._delta s1._dim (2 ^ 63)) ∧
    (∀ s : Driver ℚ, s._num_init ≤ s._eval_counter → s._eval_counter < 2 ^ 64 →
      kappa_t s
        = 1 + ((s._eval_counter : ℚ) - (s._num_init : ℚ)) / (s._batch_size : ℚ)) := by
  obtain ⟨s0, s1, h0, h1, hr, e1, e2, e3, e4, hg⟩ := example_database_init newGP f
  have hk : kappa_t s1 = 2 ^ 63 := by
    simp only [kappa_t, e1, e2, e3, sizeSub]
    norm_num
  refine ⟨⟨s0, s1, h0, h1, hr, (reachable_invariant s1 hr).2 hg, e4, e1, e2, e3, ?_, hk, ?_, ?_⟩,
    kappa_t_of_le⟩
  · rw [e1, e2]
    rfl
  · rw [e1, e2, e3]
    norm_num
  · simp only [_set_kappa, hk]

/-! ## The best column of a database -/

theorem betterVal_neg_trans {K : Type} [LinearOrder K] [Zero K] [Add K] (x b a : VectorXd K)
    (hb : b ≠ []) (h : betterVal x a = true) :
    betterVal x b = true ∨ betterVal b a = true := by
  unfold betterVal at h ⊢
  cases h1 : _is_feas x <;> cases h2 : _is_feas b <;> cases h3 : _is_feas a <;>
    simp [h1, h2, h3] at h ⊢
  · by_cases hxb : violationVal x < violationVal b
    · exact Or.inl hxb
    · exact Or.inr (lt_of_le_of_lt (not_lt.mp hxb) h)
  · cases x with
    | nil => simp [objLt] at h
    | cons x0 xl =>
      cases a with
      | nil => simp [objLt] at h
      | cons a0 al =>
        cases b with
        | nil => exact absurd rfl hb
        | cons b0 bl =>
          simp only [objLt, decide_eq_true_eq] at h ⊢
          by_cases hxb : x0 < b0
          · exact Or.inl hxb
          · exact Or.inr (lt_of_le_of_lt (not_lt.mp hxb) h)

theorem sortInsert_sorted (lt : Nat → Nat → Except Fatal Bool) (R : Nat → Nat → Bool)
    (P : Nat → Prop) (hlt : ∀ a b, P a → P b → lt a b = .ok (R a b))
    (hasym : ∀ a b, P a → P b → R a b = true → R b a = false)
    (hneg : ∀ x b a, P x → P b → P a → R x a = true → R x b = true ∨ R b a = true)
    (a : Nat) (ha : P a) :
    ∀ l : List Nat, (∀ b ∈ l, P b) → l.Pairwise (fun u v => R v u = false) →
      ∃ r, sortInsert lt a l = .ok r ∧ r.Perm (a :: l) ∧ r.Pairwise (fun u v => R v u = false)
  | [], _, _ => ⟨[a], rfl, List.Perm.refl _, List.pairwise_singleton _ _⟩
  | b :: l, hP, hs => by
    have hPb : P b := hP b (List.mem_cons_self _ _)
    obtain ⟨hminb, hsl⟩ := List.pairwise_cons.mp hs
    simp only [sortInsert, hlt b a hPb ha, bind, Except.bind, pure, Except.pure]
    cases hba : R b a with
    | false =>
      refine ⟨a :: b :: l, rfl, List.Perm.refl _, List.pairwise_cons.mpr ⟨?_, hs⟩⟩
      intro x hx
      rcases List.mem_cons.mp hx with rfl | hx
      · exact hba
      · have hPx : P x := hP x (List.mem_cons_of_mem _ hx)
        cases hxa : R x a with
        | false => rfl
        | true =>
          rcases hneg x b a hPx hPb ha hxa with h1 | h1
          · rw [hminb x hx] at h1
            cases h1
          · rw [hba] at h1
            cases h1
    | true =>
      obtain ⟨r, hr, hp, hm⟩ := sortInsert_sorted lt R P hlt hasym hneg a ha l
        (fun c hc => hP c (List.mem_cons_of_mem _ hc)) hsl
      simp only [hr, if_true]
      refine ⟨b :: r, rfl, (List.Perm.cons b hp).trans (List.Perm.swap a b l),
        List.pairwise_cons.mpr ⟨?_, hm⟩⟩
      intro x hx
      have hx2 : x ∈ a :: l := hp.mem_iff.mp hx
      rcases List.mem_cons.mp hx2 with rfl | hx3
      · exact hasym b x hPb ha hba
      · exact hminb x hx3

theorem sortBy_sorted (lt : Nat → Nat → Except Fatal Bool) (R : Nat → Nat → Bool)
    (P : Nat → Prop) (hlt : ∀ a b, P a → P b → lt a b = .ok (R a b))
    (hasym : ∀ a b, P a → P b → R a b = true → R b a = false)
    (hneg : ∀ x b a, P x → P b → P a → R x a = true → R x b = true ∨ R b a = true) :
    ∀ l : List Nat, (∀ b ∈ l, P b) →
      ∃ r, sortBy lt l = .ok r ∧ r.Perm l ∧ r.Pairwise (fun u v => R v u = false)
  | [], _ => ⟨[], rfl, List.Perm.refl _, List.Pairwise.nil⟩
  | a :: l, hP => by
    obtain ⟨r, hr, hp, hs⟩ := sortBy_sorted lt R P hlt hasym hneg l
      (fun c hc => hP c (List.mem_cons_of_mem _ hc))
    obtain ⟨r2, hr2, hp2, hs2⟩ := sortInsert_sorted lt R P hlt hasym hneg a
      (hP a (List.mem_cons_self _ _)) r
      (fun c hc => hP c (List.mem_cons_of_mem _ (hp.mem_iff.mp hc))) hs
    simp only [sortBy, hr, bind, Except.bind]
    exact ⟨r2, hr2, hp2.trans (List.Perm.cons a hp), hs2⟩

theorem col_eq_getD {K : Type} (m : MatrixXd K) (i : Nat) (h : i < m.cols) :
    m.col i = .ok (m.colList.getD i []) ∧ m.colList.getD i [] ∈ m.colList := by
  unfold MatrixXd.cols at h
  have hg : m.colList.getD i [] = m.colList[i] := by
    simp [List.getD_eq_getElem?_getD, List.getElem?_eq_getElem h]
  rw [hg]
  exact ⟨by simp [MatrixXd.col, List.getElem?_eq_getElem h], List.getElem_mem _⟩

theorem find_best_spec {K : Type} [LinearOrder K] [Zero K] [Add K] (dby : MatrixXd K)
    (hne : ∀ c ∈ dby.colList, c ≠ []) (hn : 1 ≤ dby.cols) :
    ∃ i, _find_best dby = .ok i ∧ i < dby.cols ∧
      ∀ j, j < dby.cols →
        betterVal (dby.colList.getD j []) (dby.colList.getD i []) = false := by
  have hP : ∀ b ∈ _seq_idx dby.cols, b < dby.cols := by
    intro b hb
    simpa [_seq_idx] using hb
  obtain ⟨r, hr, hp, hs⟩ := sortBy_sorted (better_cols dby)
    (fun a b => betterVal (dby.colList.getD a []) (dby.colList.getD b []))
    (fun i => i < dby.cols)
    (by
      intro a b ha hb
      obtain ⟨ca, ma⟩ := col_eq_getD dby a ha
      obtain ⟨cb, mb⟩ := col_eq_getD dby b hb
      simp only [better_cols, ca, cb, bind, Except.bind]
      exact better_eq_val _ _ (hne _ ma) (hne _ mb))
    (fun a b _ _ h => betterVal_asymm _ _ h)
    (fun x b a _ hb _ h => betterVal_neg_trans _ _ _ (hne _ (col_eq_getD dby b hb).2) h)
    (_seq_idx dby.cols) hP
  simp only [_find_best, hr, bind, Except.bind]
  cases r with
  | nil =>
    have := hp.length_eq
    simp [_seq_idx] at this
    omega
  | cons i rest =>
    have hi : i < dby.cols := hP i (hp.mem_iff.mp (List.mem_cons_self _ _))
    refine ⟨i, rfl, hi, ?_⟩
    intro j hj
    have hjm : j ∈ i :: rest := hp.mem_iff.mpr (by simpa [_seq_idx] using hj)
    rcases List.mem_cons.mp hjm with rfl | hjr
    · exact betterVal_irrefl _
    · exact (List.pairwise_cons.mp hs).1 j hjr

/-- C18: for a database `dby` of outputs with at least one row and at least one
column, `_find_best(dby)` returns an index `i < dby.cols()` such that no column
of `dby` is `_better` than column `i`; and on vectors with as many entries as
`dby` has rows `_better` is a strict weak order: it returns for every pair, it
is irreflexive, asymmetric and transitive, and incomparability (neither vector
`_better` than the other) is transitive. -/
theorem find_best_minimal {K : Type} [LinearOrder K] [Zero K] [Add K] (dby : MatrixXd K)
    (hwf : dby.WF) (hrows : 1 ≤ dby.rows) (hcols : 1 ≤ dby.cols) :
    (∃ i, _find_best dby = .ok i ∧ i < dby.cols ∧
      ∀ j cj ci, dby.col j = .ok cj → dby.col i = .ok ci → _better cj ci = .ok false) ∧
    (∀ v1 v2 : VectorXd K, v1.length = dby.rows → v2.length = dby.rows →
      ∃ b, _better v1 v2 = .ok b) ∧
    (∀ v : VectorXd K, v.length = dby.rows → _better v v = .ok false) ∧
    (∀ v1 v2 : VectorXd K, v1.length = dby.rows → v2.length = dby.rows →
      _better v1 v2 = .ok true → _better v2 v1 = .ok false) ∧
    (∀ v1 v2 v3 : VectorXd K, v1.length = dby.rows → v2.length = dby.rows →
      v3.length = dby.rows → _better v1 v2 = .ok true → _better v2 v3 = .ok true →
      _better v1 v3 = .ok true) ∧
    (∀ v1 v2 v3 : VectorXd K, v1.length = dby.rows → v2.length = dby.rows →
      v3.length = dby.rows → _better v1 v2 = .ok false → _better v2 v1 = .ok false →
      _better v2 v3 = .ok false → _better v3 v2 = .ok false →
      _better v1 v3 = .ok false ∧ _better v3 v1 = .ok false) := by
  have hl : ∀ v : VectorXd K, v.length = dby.rows → v ≠ [] := fun v hv =>
    ne_nil_of_length v dby.rows hv hrows
  have hne : ∀ c ∈ dby.colList, c ≠ [] := fun c hc => hl c (hwf c hc)
  have hval : ∀ v1 v2 : VectorXd K, v1.length = dby.rows → v2.length = dby.rows →
      _better v1 v2 = .ok (betterVal v1 v2) := fun v1 v2 h1 h2 =>
    better_eq_val v1 v2 (hl v1 h1) (hl v2 h2)
  refine ⟨?_, ?_, ?_, ?_, ?_, ?_⟩
  · obtain ⟨i, hi, hlt, hmin⟩ := find_best_spec dby hne hcols
    refine ⟨i, hi, hlt, ?_⟩
    intro j cj ci hj hci
    obtain ⟨mj, hjlt⟩ := col_mem dby j cj hj
    obtain ⟨mi, -⟩ := col_mem dby i ci hci
    have ej := (col_eq_getD dby j hjlt).1
    have ei := (col_eq_getD dby i hlt).1
    rw [hj] at ej
    rw [hci] at ei
    injection ej with ej
    injection ei with ei
    rw [better_eq_val cj ci (hne cj mj) (hne ci mi), ej, ei, hmin j hjlt]
  · intro v1 v2 h1 h2
    exact ⟨_, hval v1 v2 h1 h2⟩
  · intro v hv
    rw [hval v v hv hv, betterVal_irrefl]
  · intro v1 v2 h1 h2 h
    rw [hval v1 v2 h1 h2] at h
    injection h with h
    rw [hval v2 v1 h2 h1, betterVal_asymm v1 v2 h]
  · intro v1 v2 v3 h1 h2 h3 h12 h23
    rw [hval v1 v2 h1 h2] at h12
    rw [hval v2 v3 h2 h3] at h23
    injection h12 with h12
    injection h23 with h23
    rw [hval v1 v3 h1 h3, betterVal_trans v1 v2 v3 h12 h23]
  · intro v1 v2 v3 h1 h2 h3 h12 h21 h23 h32
    rw [hval v1 v2 h1 h2] at h12
    rw [hval v2 v1 h2 h1] at h21
    rw [hval v2 v3 h2 h3] at h23
    rw [hval v3 v2 h3 h2] at h32
    injection h12 with h12
    injection h21 with h21
    injection h23 with h23
    injection h32 with h32
    rw [hval v1 v3 h1 h3, hval v3 v1 h3 h1]
    constructor
    · cases h : betterVal v1 v3 with
      | false => rfl
      | true =>
        rcases betterVal_neg_trans v1 v2 v3 (hl v2 h2) h with h' | h'
        · rw [h12] at h'
          cases h'
        · rw [h23] at h'
          cases h'
    · cases h : betterVal v3 v1 with
      | false => rfl
      | true =>
        rcases betterVal_neg_trans v3 v2 v1 (hl v2 h2) h with h' | h'
        · rw [h32] at h'
          cases h'
        · rw [h21] at h'
          cases h'

/-- C18, on a database of three columns with one output each. -/
theorem find_best_minimal_example :
    (∃ i, _find_best (⟨1, [[3], [1], [2]]⟩ : MatrixXd ℚ) = .ok i ∧
      i < (⟨1, [[3], [1], [2]]⟩ : MatrixXd ℚ).cols ∧
      ∀ j cj ci, (⟨1, [[3], [1], [2]]⟩ : MatrixXd ℚ).col j = .ok cj →
        (⟨1, [[3], [1], [2]]⟩ : MatrixXd ℚ).col i = .ok ci → _better cj ci = .ok false) ∧
    (∀ v1 v2 : VectorXd ℚ, v1.length = 1 → v2.length = 1 → ∃ b, _better v1 v2 = .ok b) ∧
    (∀ v : VectorXd ℚ, v.length = 1 → _better v v = .ok false) ∧
    (∀ v1 v2 : VectorXd ℚ, v1.length = 1 → v2.length = 1 →
      _better v1 v2 = .ok true → _better v2 v1 = .ok false) ∧
    (∀ v1 v2 v3 : VectorXd ℚ, v1.length = 1 → v2.length = 1 →
      v3.length = 1 → _better v1 v2 = .ok true → _better v2 v3 = .ok true →
      _better v1 v3 = .ok true) ∧
    (∀ v1 v2 v3 : VectorXd ℚ, v1.length = 1 → v2.length = 1 →
      v3.length = 1 → _better v1 v2 = .ok false → _better v2 v1 = .ok false →
      _better v2 v3 = .ok false → _better v3 v2 = .ok false →
      _better v1 v3 = .ok false ∧ _better v3 v1 = .ok false) :=
  find_best_minimal (⟨1, [[3], [1], [2]]⟩ : MatrixXd ℚ)
    (by intro c hc; simp at hc; rcases hc with rfl | rfl | rfl <;> rfl)
    (Nat.le_refl 1) (by decide)

/-! ## The gradients of the transformed LCB improvements -/

theorem example_slope_lcb_improv_grad (normcdf normpdf : ℝ → ℝ) (tau : ℝ) :
    _lcb_improv_grad ⟨Real.sqrt, Real.log, Real.exp, fun a b => a ^ b, Real.pi, normcdf, normpdf⟩
      (exampleSlopeDriver ℝ tau) [0] = .ok (tau + 1, [-1]) := by
  simp only [_lcb_improv_grad, _get_tau, coeff, gpOf, exampleSlopeDriver, exampleDriver,
    exampleSlopeGP, bind, Except.bind, pure, Except.pure, smul, sdiv, vsub]
  norm_num

/-- C17 fails on the code: when `_lcb_improv(x, grad)` returns the LCB
improvement `v <= 20` and the gradient `g`, `_lcb_improv_transf(x, grad)`
returns the value `log (1 + e^v)` and the gradient `g` multiplied by
`exp(val) / (1 + exp(val))` for `val = log (1 + e^v)`, which is
`(1 + e^v) / (2 + e^v)`; the derivative of `log (1 + e^v)` is the logistic
`e^v / (1 + e^v)`, which is smaller.  For `v > 20` the value is `v` and the
factor 1, and the value form returns the same values. -/
theorem lcb_improv_transf_gradient_scaling (normcdf normpdf : ℝ → ℝ) (s : Driver ℝ)
    (x : VectorXd ℝ) (v : ℝ) (g : VectorXd ℝ)
    (h : _lcb_improv_grad ⟨Real.sqrt, Real.log, Real.exp, fun a b => a ^ b, Real.pi, normcdf,
      normpdf⟩ s x = .ok (v, g)) :
    (v ≤ 20 →
      _lcb_improv_transf_grad ⟨Real.sqrt, Real.log, Real.exp, fun a b => a ^ b, Real.pi,
          normcdf, normpdf⟩ s x
        = .ok (Real.log (1 + Real.exp v), smul ((1 + Real.exp v) / (2 + Real.exp v)) g) ∧
      HasDerivAt (fun u => Real.log (1 + Real.exp u)) (Real.exp v / (1 + Real.exp v)) v ∧
      Real.exp v / (1 + Real.exp v) < (1 + Real.exp v) / (2 + Real.exp v)) ∧
    (20 < v →
      _lcb_improv_transf_grad ⟨Real.sqrt, Real.log, Real.exp, fun a b => a ^ b, Real.pi,
          normcdf, normpdf⟩ s x = .ok (v, smul 1 g)) ∧
    (∀ w, _lcb_improv ⟨Real.sqrt, Real.log, Real.exp, fun a b => a ^ b, Real.pi, normcdf,
        normpdf⟩ s x = .ok w →
      _lcb_improv_transf ⟨Real.sqrt, Real.log, Real.exp, fun a b => a ^ b, Real.pi, normcdf,
        normpdf⟩ s x = .ok (if w > 20 then w else Real.log (1 + Real.exp w))) := by
  have hpos : 0 < Real.exp v := Real.exp_pos v
  refine ⟨fun hv => ⟨?_, ?_, ?_⟩, fun hv => ?_, fun w hw => ?_⟩
  · have hn : ¬ v > 20 := not_lt.mpr hv
    simp only [_lcb_improv_transf_grad, h, bind, Except.bind, pure, Except.pure, hn, if_false]
    rw [Real.exp_log (by linarith)]
    have : (1 : ℝ) + (1 + Real.exp v) = 2 + Real.exp v := by ring
    rw [this]
  · have h1 : HasDerivAt (fun u => 1 + Real.exp u) (Real.exp v) v :=
      (Real.hasDerivAt_exp v).const_add 1
    exact h1.log (by linarith)
  · rw [div_lt_div_iff₀ (by linarith) (by linarith)]
    nlinarith
  · simp only [_lcb_improv_transf_grad, h, bind, Except.bind, pure, Except.pure, hv, if_true]
  · simp only [_lcb_improv_transf, hw, bind, Except.bind, pure, Except.pure]

/-- C17, on the example driver with the surrogate of slope one and the
incumbent value -1: the LCB improvement is 0, the gradient is multiplied by
`2 / 3` where the logistic derivative is `1 / 2`. -/
theorem lcb_improv_transf_gradient_scaling_example :
    ((0 : ℝ) ≤ 20 →
      _lcb_improv_transf_grad ⟨Real.sqrt, Real.log, Real.exp, fun a b => a ^ b, Real.pi,
          fun _ => 0, fun _ => 0⟩ (exampleSlopeDriver ℝ (-1)) [0]
        = .ok (Real.log (1 + Real.exp 0), smul ((1 + Real.exp 0) / (2 + Real.exp 0)) [-1]) ∧
      HasDerivAt (fun u => Real.log (1 + Real.exp u)) (Real.exp 0 / (1 + Real.exp 0)) 0 ∧
      Real.exp 0 / (1 + Real.exp 0) < (1 + Real.exp 0) / (2 + Real.exp 0)) ∧
    ((20 : ℝ) < 0 →
      _lcb_improv_transf_grad ⟨Real.sqrt, Real.log, Real.exp, fun a b => a ^ b, Real.pi,
          fun _ => 0, fun _ => 0⟩ (exampleSlopeDriver ℝ (-1)) [0] = .ok (0, smul 1 [-1])) ∧
    (∀ w, _lcb_improv ⟨Real.sqrt, Real.log, Real.exp, fun a b => a ^ b, Real.pi, fun _ => 0,
        fun _ => 0⟩ (exampleSlopeDriver ℝ (-1)) [0] = .ok w →
      _lcb_improv_transf ⟨Real.sqrt, Real.log, Real.exp, fun a b => a ^ b, Real.pi, fun _ => 0,
        fun _ => 0⟩ (exampleSlopeDriver ℝ (-1)) [0]
          = .ok (if w > 20 then w else Real.log (1 + Real.exp w))) :=
  lcb_improv_transf_gradient_scaling (fun _ => 0) (fun _ => 0) (exampleSlopeDriver ℝ (-1)) [0] 0 [-1]
    (by
      have h := example_slope_lcb_improv_grad (fun _ => 0) (fun _ => 0) (-1)
      norm_num at h
      exact h)

/-- C16 fails on the code: when `_lcb_improv(x, grad)` returns the LCB
improvement `v` and the gradient `g`, `_log_lcb_improv_transf(x, grad)` returns
in the branch `v > 20` the value `log v` and the gradient `g` multiplied by
`1 / log v`, which is larger than the derivative `1 / v` of `log v`.  In the
branch `-10 < v <= 20` the factor `e^v / (log (1 + e^v) * (1 + e^v))` is the
derivative of the value `log (log (1 + e^v))`, and in the branch `v <= -10`
the factor `1 - 0.5 * e^v` is the derivative of the value `v - 0.5 * e^v`. -/
theorem log_lcb_improv_transf_grad_factor (normcdf normpdf : ℝ → ℝ) (s : Driver ℝ)
    (x : VectorXd ℝ) (v : ℝ) (g : VectorXd ℝ)
    (h : _lcb_improv_grad ⟨Real.sqrt, Real.log, Real.exp, fun a b => a ^ b, Real.pi, normcdf,
      normpdf⟩ s x = .ok (v, g)) :
    (20 < v →
      _log_lcb_improv_transf_grad ⟨Real.sqrt, Real.log, Real.exp, fun a b => a ^ b, Real.pi,
          normcdf, normpdf⟩ s x = .ok (Real.log v, smul (1 / Real.log v) g) ∧
      HasDerivAt Real.log (1 / v) v ∧ 1 / v < 1 / Real.log v) ∧
    (-10 < v → v ≤ 20 →
      _log_lcb_improv_transf_grad ⟨Real.sqrt, Real.log, Real.exp, fun a b => a ^ b, Real.pi,
          normcdf, normpdf⟩ s x
        = .ok (Real.log (Real.log (1 + Real.exp v)),
            smul (Real.exp v / (Real.log (1 + Real.exp v) * (1 + Real.exp v))) g) ∧
      HasDerivAt (fun u => Real.log (Real.log (1 + Real.exp u)))
        (Real.exp v / (Real.log (1 + Real.exp v) * (1 + Real.exp v))) v) ∧
    (v ≤ -10 →
      _log_lcb_improv_transf_grad ⟨Real.sqrt, Real.log, Real.exp, fun a b => a ^ b, Real.pi,
          normcdf, normpdf⟩ s x
        = .ok (v - 1 / 2 * Real.exp v, smul (1 - 1 / 2 * Real.exp v) g) ∧
      HasDerivAt (fun u => u - 1 / 2 * Real.exp u) (1 - 1 / 2 * Real.exp v) v) := by
  have hpos : 0 < Real.exp v := Real.exp_pos v
  refine ⟨fun hv => ⟨?_, ?_, ?_⟩, fun hv1 hv2 => ⟨?_, ?_⟩, fun hv => ⟨?_, ?_⟩⟩
  · simp only [_log_lcb_improv_transf_grad, h, bind, Except.bind, pure, Except.pure, hv,
      gt_iff_lt, if_true]
  · have := Real.hasDerivAt_log (show v ≠ 0 by linarith)
    simpa [one_div] using this
  · have hv0 : 0 < v := by linarith
    have hlog : 0 < Real.log v := Real.log_pos (by linarith)
    have hlt : Real.log v < v := by linarith [Real.log_le_sub_one_of_pos hv0]
    exact one_div_lt_one_div_of_lt hlog hlt
  · have hn : ¬ 20 < v := not_lt.mpr hv2
    simp only [_log_lcb_improv_transf_grad, h, bind, Except.bind, pure, Except.pure, hn, hv1,
      gt_iff_lt, if_true, if_false]
  · have h1 : HasDerivAt (fun u => 1 + Real.exp u) (Real.exp v) v :=
      (Real.hasDerivAt_exp v).const_add 1
    have h2 : HasDerivAt (fun u => Real.log (1 + Real.exp u))
        (Real.exp v / (1 + Real.exp v)) v := h1.log (by linarith)
    have hl : 0 < Real.log (1 + Real.exp v) := Real.log_pos (by linarith)
    have h3 := h2.log (ne_of_gt hl)
    have e : Real.exp v / (1 + Real.exp v) / Real.log (1 + Real.exp v)
        = Real.exp v / (Real.log (1 + Real.exp v) * (1 + Real.exp v)) := by
      rw [div_div, mul_comm]
    rw [← e]
    exact h3
  · have hn1 : ¬ 20 < v := by linarith
    have hn2 : ¬ -10 < v := not_lt.mpr hv
    simp only [_log_lcb_improv_transf_grad, h, bind, Except.bind, pure, Except.pure, hn1, hn2,
      gt_iff_lt, if_false]
  · have h1 : HasDerivAt (fun u => 1 / 2 * Real.exp u) (1 / 2 * Real.exp v) v :=
      (Real.hasDerivAt_exp v).const_mul (1 / 2)
    exact (hasDerivAt_id v).sub h1

/-- C16, on the example driver with the surrogate of slope one and the
incumbent value 20: the LCB improvement is 21, the gradient is multiplied by
`1 / log 21` where the derivative of `log v` is `1 / 21`. -/
theorem log_lcb_improv_transf_grad_factor_example :
    ((20 : ℝ) < 21 →
      _log_lcb_improv_transf_grad ⟨Real.sqrt, Real.log, Real.exp, fun a b => a ^ b, Real.pi,
          fun _ => 0, fun _ => 0⟩ (exampleSlopeDriver ℝ 20) [0]
        = .ok (Real.log 21, smul (1 / Real.log 21) [-1]) ∧
      HasDerivAt Real.log (1 / 21) 21 ∧ 1 / (21 : ℝ) < 1 / Real.log 21) ∧
    ((-10 : ℝ) < 21 → (21 : ℝ) ≤ 20 →
      _log_lcb_improv_transf_grad ⟨Real.sqrt, Real.log, Real.exp, fun a b => a ^ b, Real.pi,
          fun _ => 0, fun _ => 0⟩ (exampleSlopeDriver ℝ 20) [0]
        = .ok (Real.log (Real.log (1 + Real.exp 21)),
            smul (Real.exp 21 / (Real.log (1 + Real.exp 21) * (1 + Real.exp 21))) [-1]) ∧
      HasDerivAt (fun u => Real.log (Real.log (1 + Real.exp u)))
        (Real.exp 21 / (Real.log (1 + Real.exp 21) * (1 + Real.exp 21))) 21) ∧
    ((21 : ℝ) ≤ -10 →
      _log_lcb_improv_transf_grad ⟨Real.sqrt, Real.log, Real.exp, fun a b => a ^ b, Real.pi,
          fun _ => 0, fun _ => 0⟩ (exampleSlopeDriver ℝ 20) [0]
        = .ok (21 - 1 / 2 * Real.exp 21, smul (1 - 1 / 2 * Real.exp 21) [-1]) ∧
      HasDerivAt (fun u => u - 1 / 2 * Real.exp u) (1 - 1 / 2 * Real.exp 21) 21) :=
  log_lcb_improv_transf_grad_factor (fun _ => 0) (fun _ => 0) (exampleSlopeDriver ℝ 20) [0] 21
    [-1]
    (by
      have h := example_slope_lcb_improv_grad (fun _ => 0) (fun _ => 0) 20
      norm_num at h
      exact h)

/-! ## The branch boundaries of `_log_lcb_improv_transf` -/

theorem log_lcb_improv_transf_eq_value {K : Type} [LinearOrderedField K] (m : Numerics K)
    (s : Driver K) (x : VectorXd K) (v : K) (h : _lcb_improv m s x = .ok v) :
    _log_lcb_improv_transf m s x = .ok (log_lcb_transf_value m.log m.exp v) := by
  simp only [_log_lcb_improv_transf, h, bind, Except.bind, pure, Except.pure,
    log_lcb_transf_value]
  split
  · rfl
  · split <;> rfl

theorem log_lcb_value_right_of_20 :
    Filter.Tendsto (log_lcb_transf_value Real.log Real.exp) (nhdsWithin 20 (Set.Ioi 20))
      (nhds (Real.log 20)) := by
  have h1 : Filter.Tendsto Real.log (nhdsWithin 20 (Set.Ioi 20)) (nhds (Real.log 20)) :=
    (Real.continuousAt_log (by norm_num)).tendsto.mono_left nhdsWithin_le_nhds
  refine h1.congr' ?_
  filter_upwards [self_mem_nhdsWithin] with x hx
  have hx' : x > 20 := hx
  simp [log_lcb_transf_value, hx']

theorem log_lcb_value_at_20 :
    log_lcb_transf_value Real.log Real.exp 20 = Real.log (Real.log (1 + Real.exp 20)) := by
  unfold log_lcb_transf_value
  rw [if_neg (by norm_num), if_pos (by norm_num)]

theorem log_one_add_exp_20 :
    20 < Real.log (1 + Real.exp 20) ∧
      Real.log (1 + Real.exp 20) ≤ 20 + Real.exp (-20) := by
  have e : (1 : ℝ) + Real.exp 20 = Real.exp 20 * (1 + Real.exp (-20)) := by
    rw [mul_add, mul_one, ← Real.exp_add]
    norm_num
    ring
  have hp : 0 < Real.exp (-20) := Real.exp_pos _
  rw [e, Real.log_mul (ne_of_gt (Real.exp_pos _)) (by linarith), Real.log_exp]
  constructor
  · linarith [Real.log_pos (show (1 : ℝ) < 1 + Real.exp (-20) by linarith)]
  · linarith [Real.log_le_sub_one_of_pos (show (0 : ℝ) < 1 + Real.exp (-20) by linarith)]

theorem log_lcb_value_gap_at_20 :
    Real.log 20 < log_lcb_transf_value Real.log Real.exp 20 ∧
      log_lcb_transf_value Real.log Real.exp 20 - Real.log 20 ≤ Real.exp (-20) / 20 := by
  rw [log_lcb_value_at_20]
  obtain ⟨h1, h2⟩ := log_one_add_exp_20
  constructor
  · exact Real.log_lt_log (by norm_num) h1
  · rw [← Real.log_div (by linarith) (by norm_num)]
    have hpos : 0 < Real.log (1 + Real.exp 20) / 20 := by positivity
    have := Real.log_le_sub_one_of_pos hpos
    have h3 : Real.log (1 + Real.exp 20) / 20 - 1 ≤ Real.exp (-20) / 20 := by
      rw [div_sub_one (by norm_num)]
      apply div_le_div_of_nonneg_right _ (by norm_num)
      linarith
    linarith

theorem log_lcb_value_not_continuous_at_20 :
    ¬ ContinuousAt (log_lcb_transf_value Real.log Real.exp) 20 := by
  intro hc
  have h1 : Filter.Tendsto (log_lcb_transf_value Real.log Real.exp)
      (nhdsWithin 20 (Set.Ioi 20)) (nhds (log_lcb_transf_value Real.log Real.exp 20)) :=
    hc.tendsto.mono_left nhdsWithin_le_nhds
  have h2 := tendsto_nhds_unique h1 log_lcb_value_right_of_20
  linarith [log_lcb_value_gap_at_20.1]

theorem log_one_add_bounds (u : ℝ) (h0 : 0 < u) (h1 : u ≤ 1 / 61) :
    u - u ^ 2 / 2 + u ^ 3 / 3 - 2 * u ^ 4 ≤ Real.log (1 + u) ∧
      Real.log (1 + u) ≤ u - u ^ 2 / 2 + 2 * u ^ 3 := by
  have habs : |(-u)| < 1 := by
    rw [abs_neg, abs_of_pos h0]
    linarith
  have h3 := Real.abs_log_sub_add_sum_range_le habs 3
  have h2 := Real.abs_log_sub_add_sum_range_le habs 2
  simp only [Finset.sum_range_succ, Finset.sum_range_zero, abs_neg, abs_of_pos h0,
    sub_neg_eq_add] at h2 h3
  norm_num at h2 h3
  have hu1 : 0 < 1 - u := by linarith
  have b3 : u ^ 4 / (1 - u) ≤ 2 * u ^ 4 := by
    rw [div_le_iff₀ hu1]
    have : 0 ≤ u ^ 4 := by positivity
    nlinarith
  have b2 : u ^ 3 / (1 - u) ≤ 2 * u ^ 3 := by
    rw [div_le_iff₀ hu1]
    have : 0 ≤ u ^ 3 := by positivity
    nlinarith
  have a3 := abs_le.mp (h3.trans b3)
  have a2 := abs_le.mp (h2.trans b2)
  constructor
  · have := a3.1
    ring_nf at this ⊢
    linarith
  · have := a2.2
    ring_nf at this ⊢
    linarith

theorem exp_neg_ten_small : 0 < Real.exp (-10) ∧ Real.exp (-10) ≤ 1 / 61 := by
  refine ⟨Real.exp_pos _, ?_⟩
  have h : (61 : ℝ) ≤ Real.exp 10 := by
    have := Real.quadratic_le_exp_of_nonneg (show (0 : ℝ) ≤ 10 by norm_num)
    norm_num at this
    linarith
  rw [Real.exp_neg, one_div]
  exact inv_anti₀ (by norm_num) h

theorem log_log_one_add_gap (u : ℝ) (h0 : 0 < u) (h1 : u ≤ 1 / 61) (hu : Real.log u = -10) :
    0 < Real.log (Real.log (1 + u)) - (-10 - 1 / 2 * u) ∧
      Real.log (Real.log (1 + u)) - (-10 - 1 / 2 * u) ≤ 2 * u ^ 2 := by
  obtain ⟨lo, hi⟩ := log_one_add_bounds u h0 h1
  have hL : 0 < Real.log (1 + u) := Real.log_pos (by linarith)
  have hue : Real.exp (-10) = u := by rw [← hu, Real.exp_log h0]
  constructor
  · have key : -10 - 1 / 2 * u < Real.log (Real.log (1 + u)) := by
      rw [Real.lt_log_iff_exp_lt hL]
      have e1 : Real.exp (-10 - 1 / 2 * u) = u * Real.exp (-(u / 2)) := by
        rw [show (-10 - 1 / 2 * u : ℝ) = -10 + -(u / 2) by ring, Real.exp_add, hue]
      rw [e1]
      have habs : |(-(u / 2))| ≤ 1 := by
        rw [abs_neg, abs_of_pos (by linarith)]
        linarith
      have h4 := (abs_le.mp (Real.abs_exp_sub_one_sub_id_le habs)).2
      have h5 : Real.exp (-(u / 2)) ≤ 1 - u / 2 + u ^ 2 / 4 := by
        ring_nf at h4 ⊢
        linarith
      have h6 : u * Real.exp (-(u / 2)) ≤ u * (1 - u / 2 + u ^ 2 / 4) :=
        mul_le_mul_of_nonneg_left h5 h0.le
      have h7 : u * (1 - u / 2 + u ^ 2 / 4) < u - u ^ 2 / 2 + u ^ 3 / 3 - 2 * u ^ 4 := by
        have hu3 : 0 < u ^ 3 := by positivity
        nlinarith
      linarith
    linarith
  · have key : Real.log (Real.log (1 + u)) ≤ -10 - 1 / 2 * u + 2 * u ^ 2 := by
      rw [Real.log_le_iff_le_exp hL]
      have e1 : Real.exp (-10 - 1 / 2 * u + 2 * u ^ 2)
          = u * Real.exp (-(u / 2) + 2 * u ^ 2) := by
        rw [show (-10 - 1 / 2 * u + 2 * u ^ 2 : ℝ) = -10 + (-(u / 2) + 2 * u ^ 2) by ring,
          Real.exp_add, hue]
      rw [e1]
      have h4 := Real.add_one_le_exp (-(u / 2) + 2 * u ^ 2)
      have h6 : u * (-(u / 2) + 2 * u ^ 2 + 1) ≤ u * Real.exp (-(u / 2) + 2 * u ^ 2) :=
        mul_le_mul_of_nonneg_left h4 h0.le
      have h7 : u - u ^ 2 / 2 + 2 * u ^ 3 ≤ u * (-(u / 2) + 2 * u ^ 2 + 1) := by
        ring_nf
        linarith
      linarith
    linarith

theorem log_lcb_value_at_neg_10 :
    log_lcb_transf_value Real.log Real.exp (-10) = -10 - 1 / 2 * Real.exp (-10) := by
  unfold log_lcb_transf_value
  rw [if_neg (by norm_num), if_neg (by norm_num)]

theorem log_lcb_value_gap_at_neg_10 :
    0 < Real.log (Real.log (1 + Real.exp (-10))) - log_lcb_transf_value Real.log Real.exp (-10) ∧
      Real.log (Real.log (1 + Real.exp (-10))) - log_lcb_transf_value Real.log Real.exp (-10)
        ≤ 2 * Real.exp (-20) := by
  rw [log_lcb_value_at_neg_10]
  obtain ⟨h0, h1⟩ := exp_neg_ten_small
  have h := log_log_one_add_gap (Real.exp (-10)) h0 h1 (Real.log_exp _)
  have e : Real.exp (-10) ^ 2 = Real.exp (-20) := by
    rw [sq, ← Real.exp_add]
    norm_num
  rw [e] at h
  exact h

theorem continuous_log_log_one_add_exp (a : ℝ) :
    ContinuousAt (fun x => Real.log (Real.log (1 + Real.exp x))) a := by
  have hpos : 0 < Real.exp a := Real.exp_pos a
  have h1 : HasDerivAt (fun u => 1 + Real.exp u) (Real.exp a) a :=
    (Real.hasDerivAt_exp a).const_add 1
  have h2 := h1.log (show 1 + Real.exp a ≠ 0 by linarith)
  have hl : 0 < Real.log (1 + Real.exp a) := Real.log_pos (by linarith)
  exact (h2.log (ne_of_gt hl)).continuousAt

theorem log_lcb_value_left_of_20 :
    ContinuousWithinAt (log_lcb_transf_value Real.log Real.exp) (Set.Iic 20) 20 := by
  have h1 : Filter.Tendsto (fun x => Real.log (Real.log (1 + Real.exp x)))
      (nhdsWithin 20 (Set.Iic 20)) (nhds (Real.log (Real.log (1 + Real.exp 20)))) :=
    (continuous_log_log_one_add_exp 20).tendsto.mono_left nhdsWithin_le_nhds
  unfold ContinuousWithinAt
  rw [log_lcb_value_at_20]
  refine h1.congr' ?_
  filter_upwards [self_mem_nhdsWithin,
    mem_nhdsWithin_of_mem_nhds (Ioi_mem_nhds (show (-10 : ℝ) < 20 by norm_num))] with x hx hx2
  have h20 : ¬ x > 20 := not_lt.mpr hx
  have h10 : x > -10 := hx2
  simp [log_lcb_transf_value, h20, h10]

theorem log_lcb_value_right_of_neg_10 :
    Filter.Tendsto (log_lcb_transf_value Real.log Real.exp) (nhdsWithin (-10) (Set.Ioi (-10)))
      (nhds (Real.log (Real.log (1 + Real.exp (-10))))) := by
  have h1 : Filter.Tendsto (fun x => Real.log (Real.log (1 + Real.exp x)))
      (nhdsWithin (-10) (Set.Ioi (-10))) (nhds (Real.log (Real.log (1 + Real.exp (-10))))) :=
    (continuous_log_log_one_add_exp (-10)).tendsto.mono_left nhdsWithin_le_nhds
  refine h1.congr' ?_
  filter_upwards [self_mem_nhdsWithin,
    mem_nhdsWithin_of_mem_nhds (Iio_mem_nhds (show (-10 : ℝ) < 20 by norm_num))] with x hx hx2
  have h20 : ¬ x > 20 := not_lt.mpr (le_of_lt hx2)
  have h10 : x > -10 := hx
  simp [log_lcb_transf_value, h20, h10]

theorem log_lcb_value_left_of_neg_10 :
    ContinuousWithinAt (log_lcb_transf_value Real.log Real.exp) (Set.Iic (-10)) (-10) := by
  have hc : ContinuousAt (fun x : ℝ => x - 1 / 2 * Real.exp x) (-10) := by
    have h1 : HasDerivAt (fun u => 1 / 2 * Real.exp u) (1 / 2 * Real.exp (-10)) (-10) :=
      (Real.hasDerivAt_exp (-10)).const_mul (1 / 2)
    exact ((hasDerivAt_id (-10 : ℝ)).sub h1).continuousAt
  have h1 : Filter.Tendsto (fun x : ℝ => x - 1 / 2 * Real.exp x)
      (nhdsWithin (-10) (Set.Iic (-10))) (nhds (-10 - 1 / 2 * Real.exp (-10))) :=
    hc.tendsto.mono_left nhdsWithin_le_nhds
  unfold ContinuousWithinAt
  rw [log_lcb_value_at_neg_10]
  refine h1.congr' ?_
  filter_upwards [self_mem_nhdsWithin] with x hx
  have hx' : x ≤ -10 := hx
  have h20 : ¬ x > 20 := by
    intro h
    linarith
  have h10 : ¬ x > -10 := not_lt.mpr hx'
  simp [log_lcb_transf_value, h20, h10]

theorem log_lcb_value_not_continuous_at_neg_10 :
    ¬ ContinuousAt (log_lcb_transf_value Real.log Real.exp) (-10) := by
  intro hc
  have h1 : Filter.Tendsto (log_lcb_transf_value Real.log Real.exp)
      (nhdsWithin (-10) (Set.Ioi (-10)))
      (nhds (log_lcb_transf_value Real.log Real.exp (-10))) :=
    hc.tendsto.mono_left nhdsWithin_le_nhds
  have h2 := tendsto_nhds_unique h1 log_lcb_value_right_of_neg_10
  linarith [log_lcb_value_gap_at_neg_10.1]

theorem exp_neg_twenty_small : 2 * Real.exp (-20) < 1 / 10 ^ 8 := by
  have h1 : (27 / 10 : ℝ) < Real.exp 1 := by
    have := Real.exp_one_gt_d9
    norm_num at this ⊢
    linarith
  have h2 : (27 / 10 : ℝ) ^ 20 < Real.exp 1 ^ 20 :=
    pow_lt_pow_left₀ h1 (by norm_num) (by norm_num)
  have h3 : Real.exp 1 ^ 20 = Real.exp 20 := by
    rw [← Real.exp_nat_mul]
    norm_num
  have h4 : (2 * 10 ^ 8 : ℝ) < Real.exp 20 := by
    rw [← h3]
    exact lt_trans (by norm_num) h2
  rw [Real.exp_neg, ← div_eq_mul_inv, div_lt_div_iff₀ (Real.exp_pos _) (by norm_num)]
  linarith

/-- C15 does not hold as stated: the value of `_log_lcb_improv_transf(x)` is
`log_lcb_transf_value log exp v` for the LCB improvement `v`, and in exact real
arithmetic this function of `v` is not continuous at `v = 20`: from the right
it tends to `log 20`, and its value at 20, `log (log (1 + e^20))`, is
larger. -/
theorem log_lcb_improv_transf_jump_at_20 :
    (∀ (s : Driver ℝ) (x : VectorXd ℝ) (v : ℝ),
      _lcb_improv ⟨Real.sqrt, Real.log, Real.exp, fun a b => a ^ b, Real.pi, fun _ => 0,
        fun _ => 0⟩ s x = .ok v →
      _log_lcb_improv_transf ⟨Real.sqrt, Real.log, Real.exp, fun a b => a ^ b, Real.pi,
        fun _ => 0, fun _ => 0⟩ s x = .ok (log_lcb_transf_value Real.log Real.exp v)) ∧
    log_lcb_transf_value Real.log Real.exp 20 = Real.log (Real.log (1 + Real.exp 20)) ∧
    Filter.Tendsto (log_lcb_transf_value Real.log Real.exp) (nhdsWithin 20 (Set.Ioi 20))
      (nhds (Real.log 20)) ∧
    Real.log 20 < log_lcb_transf_value Real.log Real.exp 20 ∧
    ¬ ContinuousAt (log_lcb_transf_value Real.log Real.exp) 20 :=
  ⟨fun s x v h => log_lcb_improv_transf_eq_value _ s x v h, log_lcb_value_at_20,
    log_lcb_value_right_of_20, log_lcb_value_gap_at_20.1, log_lcb_value_not_continuous_at_20⟩

/-- C15, amended: the value of `_log_lcb_improv_transf(x)` is
`log_lcb_transf_value log exp v` for the LCB improvement `v`.  In exact real
arithmetic this function is continuous from the left at both branch boundaries
`v = 20` and `v = -10`.  From the right it tends to `log 20` at 20 and to
`log (log (1 + e^(-10)))` at -10, and neither is the value at the boundary: the
value at 20 exceeds `log 20` by at most `e^(-20) / 20`, and
`log (log (1 + e^(-10)))` exceeds the value at -10, which is
`-10 - 0.5 * e^(-10)`, by at most `2 * e^(-20)`.  So the function is continuous
at neither boundary, with jumps of less than `10^(-8)`. -/
theorem log_lcb_improv_transf_boundaries (normcdf normpdf : ℝ → ℝ) :
    (∀ (s : Driver ℝ) (x : VectorXd ℝ) (v : ℝ),
      _lcb_improv ⟨Real.sqrt, Real.log, Real.exp, fun a b => a ^ b, Real.pi, normcdf,
        normpdf⟩ s x = .ok v →
      _log_lcb_improv_transf ⟨Real.sqrt, Real.log, Real.exp, fun a b => a ^ b, Real.pi,
        normcdf, normpdf⟩ s x = .ok (log_lcb_transf_value Real.log Real.exp v)) ∧
    ContinuousWithinAt (log_lcb_transf_value Real.log Real.exp) (Set.Iic 20) 20 ∧
    ContinuousWithinAt (log_lcb_transf_value Real.log Real.exp) (Set.Iic (-10)) (-10) ∧
    Filter.Tendsto (log_lcb_transf_value Real.log Real.exp) (nhdsWithin 20 (Set.Ioi 20))
      (nhds (Real.log 20)) ∧
    0 < log_lcb_transf_value Real.log Real.exp 20 - Real.log 20 ∧
    log_lcb_transf_value Real.log Real.exp 20 - Real.log 20 ≤ Real.exp (-20) / 20 ∧
    Filter.Tendsto (log_lcb_transf_value Real.log Real.exp) (nhdsWithin (-10) (Set.Ioi (-10)))
      (nhds (Real.log (Real.log (1 + Real.exp (-10))))) ∧
    log_lcb_transf_value Real.log Real.exp (-10) = -10 - 1 / 2 * Real.exp (-10) ∧
    0 < Real.log (Real.log (1 + Real.exp (-10)))
      - log_lcb_transf_value Real.log Real.exp (-10) ∧
    Real.log (Real.log (1 + Real.exp (-10))) - log_lcb_transf_value Real.log Real.exp (-10)
      ≤ 2 * Real.exp (-20) ∧
    ¬ ContinuousAt (log_lcb_transf_value Real.log Real.exp) 20 ∧
    ¬ ContinuousAt (log_lcb_transf_value Real.log Real.exp) (-10) ∧
    2 * Real.exp (-20) < 1 / 10 ^ 8 :=
  ⟨fun s x v h => log_lcb_improv_transf_eq_value _ s x v h, log_lcb_value_left_of_20,
    log_lcb_value_left_of_neg_10, log_lcb_value_right_of_20,
    sub_pos.mpr log_lcb_value_gap_at_20.1, log_lcb_value_gap_at_20.2,
    log_lcb_value_right_of_neg_10, log_lcb_value_at_neg_10, log_lcb_value_gap_at_neg_10.1,
    log_lcb_value_gap_at_neg_10.2, log_lcb_value_not_continuous_at_20,
    log_lcb_value_not_continuous_at_neg_10, exp_neg_twenty_small⟩

/-! ## The Greedy and the Extreme policy -/

theorem foldl_min_spec {K : Type} [LinearOrder K] :
    ∀ (l : List K) (a : K), l.foldl min a ∈ a :: l ∧ ∀ x ∈ a :: l, l.foldl min a ≤ x
  | [], a => ⟨List.mem_singleton.mpr rfl, fun x hx => by
      rw [List.mem_singleton.mp hx]
      exact le_refl _⟩
  | b :: l, a => by
    obtain ⟨h1, h2⟩ := foldl_min_spec l (min a b)
    simp only [List.foldl_cons]
    constructor
    · rcases List.mem_cons.mp h1 with h | h
      · rw [h]
        rcases min_choice a b with h' | h'
        · rw [h']
          exact List.mem_cons_self _ _
        · rw [h']
          exact List.mem_cons_of_mem _ (List.mem_cons_self _ _)
      · exact List.mem_cons_of_mem _ (List.mem_cons_of_mem _ h)
    · intro x hx
      have hm := h2 (min a b) (List.mem_cons_self _ _)
      rcases List.mem_cons.mp hx with rfl | hx
      · exact le_trans hm (min_le_left _ _)
      · rcases List.mem_cons.mp hx with rfl | hx
        · exact le_trans hm (min_le_right _ _)
        · exact h2 x (List.mem_cons_of_mem _ hx)

theorem minCoeff_spec {K : Type} [LinearOrder K] (l : List K) (hl : l ≠ []) :
    ∃ d, minCoeff l = .ok d ∧ d ∈ l ∧ ∀ x ∈ l, d ≤ x := by
  cases l with
  | nil => exact absurd rfl hl
  | cons a l => exact ⟨_, rfl, (foldl_min_spec l a).1, (foldl_min_spec l a).2⟩

theorem maxIdxScan_spec {K : Type} [LinearOrder K] :
    ∀ (l pre : List K) (b : K) (bi : Nat), pre[bi]? = some b → (∀ x ∈ pre, x ≤ b) →
      ∃ m, (pre ++ l)[maxIdxScan (b, bi) pre.length l]? = some m ∧ ∀ x ∈ pre ++ l, x ≤ m
  | [], pre, b, bi, hb, hmax => by
    refine ⟨b, ?_, ?_⟩
    · simpa [maxIdxScan] using hb
    · simpa using hmax
  | a :: l, pre, b, bi, hb, hmax => by
    have hlen : (pre ++ [a]).length = pre.length + 1 := by simp
    have happ : pre ++ a :: l = (pre ++ [a]) ++ l := by simp
    simp only [maxIdxScan]
    split
    · rename_i hab
      have := maxIdxScan_spec l (pre ++ [a]) a pre.length (by simp)
        (by
          intro x hx
          rcases List.mem_append.mp hx with h | h
          · exact le_trans (hmax x h) (le_of_lt hab)
          · rw [List.mem_singleton.mp h])
      rw [hlen] at this
      rw [happ]
      exact this
    · rename_i hab
      have hbi : bi < pre.length := by
        by_contra hn
        rw [List.getElem?_eq_none (not_lt.mp hn)] at hb
        cases hb
      have := maxIdxScan_spec l (pre ++ [a]) b bi
        (by rw [List.getElem?_append_left hbi]; exact hb)
        (by
          intro x hx
          rcases List.mem_append.mp hx with h | h
          · exact hmax x h
          · rw [List.mem_singleton.mp h]
            exact not_lt.mp hab)
      rw [hlen] at this
      rw [happ]
      exact this

theorem maxCoeffIdx_spec {K : Type} [LinearOrder K] (l : List K) (hl : l ≠ []) :
    ∃ j m, maxCoeffIdx l = .ok j ∧ l[j]? = some m ∧ ∀ x ∈ l, x ≤ m := by
  cases l with
  | nil => exact absurd rfl hl
  | cons a l =>
    obtain ⟨m, h1, h2⟩ := maxIdxScan_spec l [a] a 0 rfl (by simp)
    exact ⟨_, m, rfl, h1, h2⟩

theorem minIdxScan_spec {K : Type} [LinearOrder K] :
    ∀ (l pre : List K) (b : K) (bi : Nat), pre[bi]? = some b → (∀ x ∈ pre, b ≤ x) →
      ∃ m, (pre ++ l)[minIdxScan (b, bi) pre.length l]? = some m ∧ ∀ x ∈ pre ++ l, m ≤ x
  | [], pre, b, bi, hb, hmin => by
    refine ⟨b, ?_, ?_⟩
    · simpa [minIdxScan] using hb
    · simpa using hmin
  | a :: l, pre, b, bi, hb, hmin => by
    have hlen : (pre ++ [a]).length = pre.length + 1 := by simp
    have happ : pre ++ a :: l = (pre ++ [a]) ++ l := by simp
    simp only [minIdxScan]
    split
    · rename_i hab
      have := minIdxScan_spec l (pre ++ [a]) a pre.length (by simp)
        (by
          intro x hx
          rcases List.mem_append.mp hx with h | h
          · exact le_trans (le_of_lt hab) (hmin x h)
          · rw [List.mem_singleton.mp h])
      rw [hlen] at this
      rw [happ]
      exact this
    · rename_i hab
      have hbi : bi < pre.length := by
        by_contra hn
        rw [List.getElem?_eq_none (not_lt.mp hn)] at hb
        cases hb
      have := minIdxScan_spec l (pre ++ [a]) b bi
        (by rw [List.getElem?_append_left hbi]; exact hb)
        (by
          intro x hx
          rcases List.mem_append.mp hx with h | h
          · exact hmin x h
          · rw [List.mem_singleton.mp h]
            exact not_lt.mp hab)
      rw [hlen] at this
      rw [happ]
      exact this

theorem minCoeffIdx_spec {K : Type} [LinearOrder K] (l : List K) (hl : l ≠ []) :
    ∃ j m, minCoeffIdx l = .ok j ∧ l[j]? = some m ∧ ∀ x ∈ l, m ≤ x := by
  cases l with
  | nil => exact absurd rfl hl
  | cons a l =>
    obtain ⟨m, h1, h2⟩ := minIdxScan_spec l [a] a 0 rfl (by simp)
    exact ⟨_, m, rfl, h1, h2⟩

theorem mapM_ok {α β : Type} (f : α → Except Fatal β) (g : α → β) :
    ∀ l : List α, (∀ x ∈ l, f x = .ok (g x)) → l.mapM f = .ok (l.map g)
  | [], _ => rfl
  | a :: l, h => by
    rw [List.mapM_cons, h a (List.mem_cons_self _ _),
      mapM_ok f g l (fun x hx => h x (List.mem_cons_of_mem _ hx))]
    rfl

theorem foldl_max_lt (n : Nat) :
    ∀ (l : List Nat) (a : Nat), a < n → (∀ x ∈ l, x < n) → l.foldl max a < n
  | [], a, ha, _ => ha
  | b :: l, a, ha, h => by
    simp only [List.foldl_cons]
    apply foldl_max_lt n l (max a b)
    · exact max_lt ha (h b (List.mem_cons_self _ _))
    · exact fun x hx => h x (List.mem_cons_of_mem _ hx)

theorem slice_matrix_ok {K : Type} (m : MatrixXd K) (idxs : List Nat) (hne : idxs ≠ [])
    (hlt : ∀ i ∈ idxs, i < m.cols) :
    _slice_matrix m idxs = .ok ⟨m.rows, idxs.map (fun i => m.colList.getD i [])⟩ := by
  cases idxs with
  | nil => exact absurd rfl hne
  | cons a l =>
    have hmx : List.foldl max a l < m.cols :=
      foldl_max_lt m.cols l a (hlt a (List.mem_cons_self _ _))
        (fun x hx => hlt x (List.mem_cons_of_mem _ hx))
    have hm := mapM_ok (fun i => m.col i) (fun i => m.colList.getD i []) (a :: l)
      (fun i hi => (col_eq_getD m i (hlt i hi)).1)
    simp only [_slice_matrix, maxElement, MYASSERT, hmx, hm, bind, Except.bind, pure,
      Except.pure, if_true]

theorem foldl_min_isMinDist {K : Type} [LinearOrder K] [Zero K] [Add K] [Sub K] [Mul K]
    (sqrt : K → K) (r0 : VectorXd K) (rs : List (VectorXd K)) (p : VectorXd K) :
    IsMinDist sqrt (r0 :: rs) p
      (List.foldl min (norm sqrt (vsub r0 p)) (rs.map (fun r => norm sqrt (vsub r p)))) := by
  obtain ⟨h1, h2⟩ := foldl_min_spec (rs.map (fun r => norm sqrt (vsub r p)))
    (norm sqrt (vsub r0 p))
  constructor
  · rcases List.mem_cons.mp h1 with h | h
    · exact ⟨r0, List.mem_cons_self _ _, h.symm⟩
    · obtain ⟨r, hr, hre⟩ := List.mem_map.mp h
      exact ⟨r, List.mem_cons_of_mem _ hr, hre⟩
  · intro r hr
    apply h2
    rcases List.mem_cons.mp hr with rfl | hr
    · exact List.mem_cons_self _ _
    · exact List.mem_cons_of_mem _ (List.mem_map.mpr ⟨r, hr, rfl⟩)

theorem isMinDist_le {K : Type} [LinearOrder K] [Zero K] [Add K] [Sub K] [Mul K]
    (sqrt : K → K) (ref : List (VectorXd K)) (p : VectorXd K) (d e : K)
    (hd : IsMinDist sqrt ref p d) (he : IsMinDist sqrt ref p e) : e ≤ d := by
  obtain ⟨r, hr, hrd⟩ := hd.1
  rw [← hrd]
  exact he.2 r hr

theorem greedy_step_spec {K : Type} [LinearOrder K] [Zero K] [Add K] [Sub K] [Mul K]
    (sqrt : K → K) (s : Driver K) (dbx ps : MatrixXd K) (sel : List Nat)
    (hdbx : dbx.rows = s._dim) (htrain : 1 ≤ dbx.cols) (hps : ps.rows = s._dim)
    (hcols : 1 ≤ ps.cols) (hsel : ∀ i ∈ sel, i < ps.cols) :
    ∃ j, greedy_step sqrt s dbx ps sel = .ok (sel ++ [j]) ∧ j < ps.cols ∧
      IsFarthestFrom sqrt (dbx.colList ++ sel.map (fun i => ps.colList.getD i [])) ps.colList
        (ps.colList.getD j []) := by
  cases hd : dbx.colList with
  | nil =>
    unfold MatrixXd.cols at htrain
    rw [hd] at htrain
    simp at htrain
  | cons d0 ds =>
    have hcomma : commaInit2 s._dim (dbx.cols + sel.length) dbx
        ⟨s._dim, sel.map (fun i => ps.colList.getD i [])⟩
        = .ok ⟨s._dim, d0 :: (ds ++ sel.map (fun i => ps.colList.getD i []))⟩ := by
      simp [commaInit2, hdbx, MatrixXd.cols, hd]
    have hm := mapM_ok
      (fun pj => minCoeff ((d0 :: (ds ++ sel.map (fun i => ps.colList.getD i []))).map
        (fun r => norm sqrt (vsub r pj))))
      (fun pj => List.foldl min (norm sqrt (vsub d0 pj))
        ((ds ++ sel.map (fun i => ps.colList.getD i [])).map (fun r => norm sqrt (vsub r pj))))
      ps.colList (fun pj _ => rfl)
    have hne : ps.colList.map (fun pj => List.foldl min (norm sqrt (vsub d0 pj))
        ((ds ++ sel.map (fun i => ps.colList.getD i [])).map
          (fun r => norm sqrt (vsub r pj)))) ≠ [] := by
      intro h0
      have := congrArg List.length h0
      simp only [List.length_map, List.length_nil] at this
      unfold MatrixXd.cols at hcols
      omega
    obtain ⟨j, m, hj, hjm, hmax⟩ := maxCoeffIdx_spec _ hne
    have hjlt : j < ps.cols := by
      obtain ⟨hlt, -⟩ := List.getElem?_eq_some_iff.mp hjm
      simpa [MatrixXd.cols] using hlt
    refine ⟨j, ?_, hjlt, ?_⟩
    · cases sel with
      | nil =>
        simp only [List.map_nil, List.length_nil, List.append_nil] at hcomma hm hj
        simp only [greedy_step, List.isEmpty_nil, if_true, hcomma, hps, hm, hj, bind,
          Except.bind, pure, Except.pure, not_true_eq_false, if_false, List.nil_append,
          List.length_nil]
      | cons a l =>
        have hs := slice_matrix_ok ps (a :: l) (by simp) hsel
        rw [hps] at hs
        simp only [greedy_step, List.isEmpty_cons, hs, hcomma, hps, hm, hj, bind,
          Except.bind, pure, Except.pure, not_true_eq_false, if_false, Bool.false_eq_true]
    · obtain ⟨-, hmem⟩ := col_eq_getD ps j hjlt
      have hmj : m = List.foldl min (norm sqrt (vsub d0 (ps.colList.getD j [])))
          ((ds ++ sel.map (fun i => ps.colList.getD i [])).map
            (fun r => norm sqrt (vsub r (ps.colList.getD j [])))) := by
        have hjl : j < ps.colList.length := hjlt
        rw [List.getElem?_map, List.getElem?_eq_getElem hjl] at hjm
        simp only [Option.map_some'] at hjm
        injection hjm with hjm
        rw [← hjm, List.getD_eq_getElem?_getD, List.getElem?_eq_getElem hjl]
        rfl
      refine ⟨hmem, m, ?_, ?_⟩
      · rw [hmj, List.cons_append]
        exact foldl_min_isMinDist sqrt d0 _ _
      · intro q hq e he
        rw [List.cons_append] at he
        have h1 := isMinDist_le sqrt _ q _ e (foldl_min_isMinDist sqrt d0 _ q) he
        exact le_trans h1 (hmax _ (List.mem_map.mpr ⟨q, hq, rfl⟩))

theorem greedy_loop_spec {K : Type} [LinearOrder K] [Zero K] [Add K] [Sub K] [Mul K]
    (sqrt : K → K) (s : Driver K) (dbx ps : MatrixXd K)
    (hdbx : dbx.rows = s._dim) (htrain : 1 ≤ dbx.cols) (hps : ps.rows = s._dim)
    (hcols : 1 ≤ ps.cols) :
    ∀ (n : Nat) (sel : List Nat), (∀ i ∈ sel, i < ps.cols) →
      (∀ k i, sel[k]? = some i →
        IsFarthestFrom sqrt (dbx.colList ++ (sel.take k).map (fun i => ps.colList.getD i []))
          ps.colList (ps.colList.getD i [])) →
      ∃ sel', greedy_loop sqrt s dbx ps n sel = .ok sel' ∧ sel'.length = sel.length + n ∧
        (∀ i ∈ sel', i < ps.cols) ∧
        ∀ k i, sel'[k]? = some i →
          IsFarthestFrom sqrt (dbx.colList ++ (sel'.take k).map (fun i => ps.colList.getD i []))
            ps.colList (ps.colList.getD i [])
  | 0, sel, hsel, hinv => ⟨sel, rfl, rfl, hsel, hinv⟩
  | n + 1, sel, hsel, hinv => by
    obtain ⟨j, hj, hjlt, hfar⟩ := greedy_step_spec sqrt s dbx ps sel hdbx htrain hps hcols hsel
    have hsel1 : ∀ i ∈ sel ++ [j], i < ps.cols := by
      intro i hi
      rcases List.mem_append.mp hi with h | h
      · exact hsel i h
      · rw [List.mem_singleton.mp h]
        exact hjlt
    have hinv1 : ∀ k i, (sel ++ [j])[k]? = some i →
        IsFarthestFrom sqrt
          (dbx.colList ++ ((sel ++ [j]).take k).map (fun i => ps.colList.getD i []))
          ps.colList (ps.colList.getD i []) := by
      intro k i hk
      by_cases hlt : k < sel.length
      · rw [List.getElem?_append_left hlt] at hk
        rw [List.take_append_of_le_length (le_of_lt hlt)]
        exact hinv k i hk
      · by_cases heq : k = sel.length
        · subst heq
          rw [List.getElem?_append_right (le_refl _)] at hk
          simp only [Nat.sub_self, List.getElem?_cons_zero, Option.some.injEq] at hk
          subst hk
          rw [List.take_left']
          · exact hfar
          · rfl
        · have hge : (sel ++ [j]).length ≤ k := by
            simp only [List.length_append, List.length_singleton]
            omega
          rw [List.getElem?_eq_none hge] at hk
          cases hk
    obtain ⟨sel', h1, h2, h3, h4⟩ :=
      greedy_loop_spec sqrt s dbx ps hdbx htrain hps hcols n (sel ++ [j]) hsel1 hinv1
    refine ⟨sel', ?_, ?_, h3, h4⟩
    · simp only [greedy_loop, hj, bind, Except.bind]
      exact h1
    · rw [h2]
      simp only [List.length_append, List.length_singleton]
      omega

theorem select_candidate_greedy_spec {K : Type} [LinearOrder K] [Zero K] [Add K] [Sub K]
    [Mul K] (sqrt : K → K) (s : Driver K) (g : GP K) (sample : Nat → VectorXd K)
    (ps pf : MatrixXd K) (hg : s._gp = some g) (hdbx : g.train_in.rows = s._dim)
    (htrain : 1 ≤ g.train_in.cols) (hps : ps.rows = s._dim) (hcols : 1 ≤ ps.cols)
    (hbatch : 1 ≤ s._batch_size) :
    ∃ sel : List Nat, sel.length = min s._batch_size ps.cols ∧ (∀ i ∈ sel, i < ps.cols) ∧
      _select_candidate_greedy sqrt s sample ps pf
        = .ok ⟨s._dim, sel.map (fun i => ps.colList.getD i [])
            ++ (List.range (s._batch_size - min s._batch_size ps.cols)).map sample⟩ ∧
      ∀ k i, sel[k]? = some i →
        IsFarthestFrom sqrt
          (g.train_in.colList ++ (sel.take k).map (fun i => ps.colList.getD i []))
          ps.colList (ps.colList.getD i []) := by
  obtain ⟨sel, h1, h2, h3, h4⟩ := greedy_loop_spec sqrt s g.train_in ps hdbx htrain hps hcols
    (if ps.cols < s._batch_size then ps.cols else s._batch_size) [] (by simp) (by simp)
  have hn : (if ps.cols < s._batch_size then ps.cols else s._batch_size)
      = min s._batch_size ps.cols := by
    split <;> omega
  rw [hn] at h1 h2
  simp only [List.length_nil, Nat.zero_add] at h2
  have hne : sel ≠ [] := by
    intro h0
    rw [h0] at h2
    simp only [List.length_nil] at h2
    omega
  refine ⟨sel, h2, h3, ?_, h4⟩
  unfold _select_candidate_greedy
  simp only [hg, bind, Except.bind, pure, Except.pure]
  rw [hn, h1]
  simp only [slice_matrix_ok ps sel hne h3, commaInit2, _set_random, hps]
  simp only [MatrixXd.cols, List.length_map, List.length_range, h2]
  rw [if_pos ⟨trivial, trivial, by omega⟩]

theorem select_candidate_greedy_nothing_selected {K : Type} [LinearOrder K] [Zero K] [Add K]
    [Sub K] [Mul K] (sqrt : K → K) (s : Driver K) (sample : Nat → VectorXd K)
    (ps pf : MatrixXd K) (h : ps.cols = 0 ∨ s._batch_size = 0) :
    _select_candidate_greedy sqrt s sample ps pf = .error .undefined := by
  have hn : (if ps.cols < s._batch_size then ps.cols else s._batch_size) = 0 := by
    split <;> omega
  unfold _select_candidate_greedy
  cases hg : s._gp with
  | none => simp [bind, Except.bind]
  | some g =>
    simp only [bind, Except.bind, pure, Except.pure]
    rw [hn]
    simp [greedy_loop, _slice_matrix, maxElement, bind, Except.bind]

theorem select_candidate_greedy_empty_training {K : Type} [LinearOrder K] [Zero K] [Add K]
    [Sub K] [Mul K] (sqrt : K → K) (s : Driver K) (g : GP K) (sample : Nat → VectorXd K)
    (ps pf : MatrixXd K) (hg : s._gp = some g) (hdbx : g.train_in.rows = s._dim)
    (htrain : g.train_in.cols = 0) (hps : ps.rows = s._dim) (hcols : 1 ≤ ps.cols)
    (hbatch : 1 ≤ s._batch_size) :
    _select_candidate_greedy sqrt s sample ps pf = .error .assertion := by
  have hnil : g.train_in.colList = [] := List.length_eq_zero.mp htrain
  obtain ⟨n, hn⟩ : ∃ n, (if ps.cols < s._batch_size then ps.cols else s._batch_size) = n + 1 := by
    refine ⟨(if ps.cols < s._batch_size then ps.cols else s._batch_size) - 1, ?_⟩
    split <;> omega
  cases hp : ps.colList with
  | nil =>
    unfold MatrixXd.cols at hcols
    rw [hp] at hcols
    simp at hcols
  | cons p rest =>
    have hstep : greedy_step sqrt s g.train_in ps [] = .error .assertion := by
      have hcomma : commaInit2 s._dim (g.train_in.cols + 0) g.train_in ⟨s._dim, []⟩
          = .ok ⟨s._dim, []⟩ := by
        simp [commaInit2, hdbx, MatrixXd.cols, hnil]
      simp only [greedy_step, List.isEmpty_nil, if_true, List.length_nil, hcomma, hps, hp,
        List.mapM_cons, List.map_nil, minCoeff, bind, Except.bind, pure, Except.pure,
        not_true_eq_false, if_false]
    unfold _select_candidate_greedy
    simp only [hg, bind, Except.bind, pure, Except.pure]
    rw [hn]
    simp only [greedy_loop, hstep, bind, Except.bind]

/-- C12 fails on the code: with a non-empty training set of the driver's
dimension and a Pareto set `ps` of the driver's dimension,
`_select_candidate_greedy` does not return when `ps` has no column or the batch
size is 0: no index is selected and `_slice_matrix` dereferences
`max_element` of an empty vector.  When `ps` has a column and the batch size is
at least 1 it returns `batch_size` columns: first the Pareto columns at
`min(batch_size, ps.cols())` selected indices, the `k`-th of which attains the
greatest least Euclidean distance to the training inputs and the columns
selected before it, then the random samples. -/
theorem select_candidate_greedy_farthest {K : Type} [LinearOrder K] [Zero K] [Add K] [Sub K]
    [Mul K] (sqrt : K → K) (s : Driver K) (g : GP K) (sample : Nat → VectorXd K)
    (ps pf : MatrixXd K) (hg : s._gp = some g) (hdbx : g.train_in.rows = s._dim)
    (htrain : 1 ≤ g.train_in.cols) (hps : ps.rows = s._dim) :
    (ps.cols = 0 ∨ s._batch_size = 0 →
      _select_candidate_greedy sqrt s sample ps pf = .error .undefined) ∧
    (1 ≤ ps.cols → 1 ≤ s._batch_size →
      ∃ sel : List Nat, sel.length = min s._batch_size ps.cols ∧ (∀ i ∈ sel, i < ps.cols) ∧
        _select_candidate_greedy sqrt s sample ps pf
          = .ok ⟨s._dim, sel.map (fun i => ps.colList.getD i [])
              ++ (List.range (s._batch_size - min s._batch_size ps.cols)).map sample⟩ ∧
        ∀ k i, sel[k]? = some i →
          IsFarthestFrom sqrt
            (g.train_in.colList ++ (sel.take k).map (fun i => ps.colList.getD i []))
            ps.colList (ps.colList.getD i [])) :=
  ⟨select_candidate_greedy_nothing_selected sqrt s sample ps pf,
    select_candidate_greedy_spec sqrt s g sample ps pf hg hdbx htrain hps⟩

/-- C12, on the example driver (training inputs 0 and 10, batch size 2): for a
Pareto set without columns the call does not return; for the Pareto set
`(4, -7, 12)` it returns two Pareto columns. -/
theorem select_candidate_greedy_farthest_example :
    _select_candidate_greedy exampleNumerics.sqrt (exampleDriverGP ℚ) exampleEnv.select_sample
        ⟨1, []⟩ exampleEnv.pf = .error .undefined ∧
    ∃ sel : List Nat, sel.length = min (exampleDriverGP ℚ)._batch_size exampleEnv.ps.cols ∧
      (∀ i ∈ sel, i < exampleEnv.ps.cols) ∧
      _select_candidate_greedy exampleNumerics.sqrt (exampleDriverGP ℚ)
          exampleEnv.select_sample exampleEnv.ps exampleEnv.pf
        = .ok ⟨(exampleDriverGP ℚ)._dim, sel.map (fun i => exampleEnv.ps.colList.getD i [])
            ++ (List.range ((exampleDriverGP ℚ)._batch_size
              - min (exampleDriverGP ℚ)._batch_size exampleEnv.ps.cols)).map
                exampleEnv.select_sample⟩ ∧
      ∀ k i, sel[k]? = some i →
        IsFarthestFrom exampleNumerics.sqrt
          ((exampleGP ℚ).train_in.colList
            ++ (sel.take k).map (fun i => exampleEnv.ps.colList.getD i []))
          exampleEnv.ps.colList (exampleEnv.ps.colList.getD i []) :=
  ⟨(select_candidate_greedy_farthest exampleNumerics.sqrt (exampleDriverGP ℚ) (exampleGP ℚ)
      exampleEnv.select_sample ⟨1, []⟩ exampleEnv.pf rfl rfl (by decide) rfl).1 (Or.inl rfl),
    (select_candidate_greedy_farthest exampleNumerics.sqrt (exampleDriverGP ℚ) (exampleGP ℚ)
      exampleEnv.select_sample exampleEnv.ps exampleEnv.pf rfl rfl (by decide) rfl).2
      (by decide) (by decide)⟩

/-- C13 does not hold as stated: with an empty training set, batch size 2 and
the four Pareto points 5, 6, -1, 2 (dimension one) `_select_candidate_greedy`
does not return: in its first iteration the reference set is empty and
`minCoeff` of an empty vector fails.  And with the single training input 0 it
returns the points 6 and 2, at distance 4, where the points 6 and -1 are at
distance 7. -/
theorem select_candidate_greedy_not_farthest_pair :
    _select_candidate_greedy Real.sqrt
        { exampleDriver ℝ with _gp := some { exampleGP ℝ with train_in := ⟨1, []⟩ } }
        (fun _ => [0]) ⟨1, [[5], [6], [-1], [2]]⟩ ⟨1, []⟩ = .error .assertion ∧
    _select_candidate_greedy Real.sqrt
        { exampleDriver ℝ with _gp := some { exampleGP ℝ with train_in := ⟨1, [[0]]⟩ } }
        (fun _ => [0]) ⟨1, [[5], [6], [-1], [2]]⟩ ⟨1, []⟩ = .ok ⟨1, [[6], [2]]⟩ ∧
    norm Real.sqrt (vsub [6] [2]) = 4 ∧ norm Real.sqrt (vsub [6] [-1]) = 7 := by
  refine ⟨?_, ?_, ?_, ?_⟩
  · exact select_candidate_greedy_empty_training Real.sqrt _ _ _ _ _ rfl rfl rfl rfl
      (by decide) (by decide)
  · norm_num only [_select_candidate_greedy, exampleDriver, exampleGP, MatrixXd.cols,
      greedy_loop, greedy_step, commaInit2, minCoeff, maxCoeffIdx, maxIdxScan, _slice_matrix,
      maxElement, MYASSERT, MatrixXd.col, _set_random, vsub, List.zipWith_cons_cons,
      List.zipWith_nil_right, norm_real_single, bind, Except.bind, pure, Except.pure,
      List.length_cons, List.length_nil, List.mapM_cons, List.mapM_nil, List.map_cons,
      List.map_nil, List.foldl_cons, List.foldl_nil, List.isEmpty_nil, List.isEmpty_cons,
      abs_of_pos, abs_of_neg, List.cons_append, List.nil_append, List.getElem?_cons_succ,
      List.getElem?_cons_zero, List.range_zero, if_true, if_false, and_self, min_def, max_def,
      abs_zero, abs_neg, abs_one, le_refl, List.append_nil, Nat.abs_ofNat, Bool.false_eq_true]
  · norm_num [vsub, norm_real_single, abs_of_pos]
  · norm_num [vsub, norm_real_single, abs_of_pos]

/-- C13, amended: with batch size 2 and a Pareto set of four points of the
driver's dimension, `_select_candidate_greedy` does not return when the
training set is empty (`minCoeff` of an empty vector); when the training set is
not empty it returns two Pareto points `p1`, `p2`, where `p1` attains the
greatest least Euclidean distance to the training inputs and `p2` the greatest
least distance to the training inputs together with `p1`. -/
theorem select_candidate_greedy_two_of_four {K : Type} [LinearOrder K] [Zero K] [Add K]
    [Sub K] [Mul K] (sqrt : K → K) (s : Driver K) (g : GP K) (sample : Nat → VectorXd K)
    (ps pf : MatrixXd K) (hg : s._gp = some g) (hdbx : g.train_in.rows = s._dim)
    (hps : ps.rows = s._dim) (hcols : ps.cols = 4) (hbatch : s._batch_size = 2) :
    (g.train_in.cols = 0 →
      _select_candidate_greedy sqrt s sample ps pf = .error .assertion) ∧
    (1 ≤ g.train_in.cols →
      ∃ p1 p2, _select_candidate_greedy sqrt s sample ps pf = .ok ⟨s._dim, [p1, p2]⟩ ∧
        IsFarthestFrom sqrt g.train_in.colList ps.colList p1 ∧
        IsFarthestFrom sqrt (g.train_in.colList ++ [p1]) ps.colList p2) := by
  constructor
  · intro htrain
    exact select_candidate_greedy_empty_training sqrt s g sample ps pf hg hdbx htrain hps
      (by omega) (by omega)
  · intro htrain
    obtain ⟨sel, h1, h2, h3, h4⟩ := select_candidate_greedy_spec sqrt s g sample ps pf hg hdbx
      htrain hps (by omega) (by omega)
    rw [hcols, hbatch] at h1 h3
    simp only [Nat.min_def, show (2 : Nat) ≤ 4 from by decide, if_true] at h1 h3
    match sel, h1 with
    | [i1, i2], _ =>
      refine ⟨ps.colList.getD i1 [], ps.colList.getD i2 [], ?_, ?_, ?_⟩
      · rw [h3]
        rfl
      · have := h4 0 i1 rfl
        simpa using this
      · have := h4 1 i2 rfl
        simpa using this

/-- C13, amended, on the example driver with training inputs 0 and 10 and the
Pareto points 5, 6, -1, 2. -/
theorem select_candidate_greedy_two_of_four_example :
    ((exampleGP ℚ).train_in.cols = 0 →
      _select_candidate_greedy exampleNumerics.sqrt (exampleDriverGP ℚ) (fun _ => [0])
        ⟨1, [[5], [6], [-1], [2]]⟩ ⟨1, []⟩ = .error .assertion) ∧
    (1 ≤ (exampleGP ℚ).train_in.cols →
      ∃ p1 p2, _select_candidate_greedy exampleNumerics.sqrt (exampleDriverGP ℚ) (fun _ => [0])
          ⟨1, [[5], [6], [-1], [2]]⟩ ⟨1, []⟩ = .ok ⟨(exampleDriverGP ℚ)._dim, [p1, p2]⟩ ∧
        IsFarthestFrom exampleNumerics.sqrt (exampleGP ℚ).train_in.colList
          [[5], [6], [-1], [2]] p1 ∧
        IsFarthestFrom exampleNumerics.sqrt ((exampleGP ℚ).train_in.colList ++ [p1])
          [[5], [6], [-1], [2]] p2) :=
  select_candidate_greedy_two_of_four exampleNumerics.sqrt (exampleDriverGP ℚ) (exampleGP ℚ)
    (fun _ => [0]) ⟨1, [[5], [6], [-1], [2]]⟩ ⟨1, []⟩ rfl rfl rfl rfl rfl


theorem mapM_ok_exists {α β : Type} (f : α → Except Fatal β) :
    ∀ l : List α, (∀ x ∈ l, ∃ y, f x = .ok y) → ∃ r, l.mapM f = .ok r ∧ r.length = l.length
  | [], _ => ⟨[], rfl, rfl⟩
  | a :: l, h => by
    obtain ⟨y, hy⟩ := h a (List.mem_cons_self _ _)
    obtain ⟨r, hr, hl⟩ := mapM_ok_exists f l (fun x hx => h x (List.mem_cons_of_mem _ hx))
    refine ⟨y :: r, ?_, by simp [hl]⟩
    rw [List.mapM_cons, hy, hr]
    rfl

theorem row_ok {K : Type} (m : MatrixXd K) (i : Nat) (hwf : m.WF) (hi : i < m.rows) :
    ∃ row, m.row i = .ok row ∧ row.length = m.cols := by
  obtain ⟨r, hr, hl⟩ := mapM_ok_exists (fun c => coeff c i) m.colList (by
    intro c hc
    have hlen : i < c.length := by
      rw [hwf c hc]
      exact hi
    refine ⟨c.get ⟨i, hlen⟩, ?_⟩
    simp only [coeff, List.get?_eq_getElem?, List.getElem?_eq_getElem hlen, List.get_eq_getElem])
  exact ⟨r, by simp only [MatrixXd.row, hi, hr, if_true], hl⟩

theorem setInsert_mem (d x : Nat) : ∀ l : List Nat, x ∈ setInsert d l ↔ x = d ∨ x ∈ l
  | [] => by simp [setInsert]
  | b :: l => by
    unfold setInsert
    by_cases h1 : d < b
    · simp [h1]
    · by_cases h2 : d = b
      · subst h2
        simp
      · simp only [h1, h2, if_false, List.mem_cons, setInsert_mem d x l]
        tauto

theorem setInsert_sorted (d : Nat) :
    ∀ l : List Nat, l.Pairwise (· < ·) → (setInsert d l).Pairwise (· < ·)
  | [], _ => by simp [setInsert]
  | b :: l, h => by
    obtain ⟨hb, hl⟩ := List.pairwise_cons.mp h
    unfold setInsert
    by_cases h1 : d < b
    · simp only [h1, if_true]
      refine List.pairwise_cons.mpr ⟨?_, h⟩
      intro x hx
      rcases List.mem_cons.mp hx with rfl | hx
      · exact h1
      · exact lt_trans h1 (hb x hx)
    · by_cases h2 : d = b
      · subst h2
        simp only [lt_self_iff_false, if_false, if_true]
        exact h
      · simp only [h1, h2, if_false]
        refine List.pairwise_cons.mpr ⟨?_, setInsert_sorted d l hl⟩
        intro x hx
        rcases (setInsert_mem d x l).mp hx with rfl | hx
        · omega
        · exact hb x hx

theorem setInsert_length_le (d : Nat) : ∀ l : List Nat, (setInsert d l).length ≤ l.length + 1
  | [] => by simp [setInsert]
  | b :: l => by
    unfold setInsert
    by_cases h1 : d < b
    · simp [h1]
    · by_cases h2 : d = b
      · simp [h1, h2]
      · simp only [h1, h2, if_false, List.length_cons]
        have := setInsert_length_le d l
        omega

theorem pick_loop_ok (m : Nat) :
    ∀ (draws picked : List Nat), picked.Pairwise (· < ·) → picked.length ≤ m →
      m ≤ (picked.toFinset ∪ draws.toFinset).card →
      ∃ r, pick_loop m picked draws = .ok r ∧ r.length = m ∧ ∀ i ∈ r, i ∈ picked ∨ i ∈ draws
  | [], picked, hs, hle, hcard => by
    have hnd : picked.Nodup := hs.imp (fun h => Nat.ne_of_lt h)
    have hlen : m ≤ picked.length := by
      simpa [List.toFinset_card_of_nodup hnd] using hcard
    have hnot : ¬ picked.length < m := by omega
    exact ⟨picked, by simp [pick_loop, hnot], by omega, fun i hi => Or.inl hi⟩
  | d :: ds, picked, hs, hle, hcard => by
    by_cases hlt : picked.length < m
    · have hl := setInsert_length_le d picked
      have hset : (setInsert d picked).toFinset ∪ ds.toFinset
          = picked.toFinset ∪ (d :: ds).toFinset := by
        ext x
        simp only [Finset.mem_union, List.mem_toFinset, setInsert_mem, List.mem_cons]
        tauto
      obtain ⟨r, hr, hlen, hmem⟩ := pick_loop_ok m ds (setInsert d picked)
        (setInsert_sorted d picked hs) (by omega) (by rw [hset]; exact hcard)
      refine ⟨r, by simp only [pick_loop, hlt, if_true, hr], hlen, ?_⟩
      intro i hi
      rcases hmem i hi with h | h
      · rcases (setInsert_mem d i picked).mp h with rfl | h
        · exact Or.inr (List.mem_cons_self _ _)
        · exact Or.inl h
      · exact Or.inr (List.mem_cons_of_mem _ h)
    · exact ⟨picked, by simp [pick_loop, hlt], by omega, fun i hi => Or.inl hi⟩

theorem select_candidate_random_nothing_picked {K : Type} (s : Driver K) (draws : List Nat)
    (sample : Nat → VectorXd K) (ps pf : MatrixXd K) (h : ps.cols = 0 ∨ s._batch_size = 0) :
    _select_candidate_random s draws sample ps pf = .error .undefined := by
  have hpick : ∀ d : List Nat, pick_loop 0 [] d = .ok [] := by
    intro d
    cases d <;> simp [pick_loop]
  have hm : (if ps.cols > s._batch_size then s._batch_size else ps.cols) = 0 := by
    split <;> omega
  simp [_select_candidate_random, _pick_from_seq, hm, hpick, _slice_matrix, maxElement,
    MYASSERT, bind, Except.bind]

theorem select_candidate_random_ok {K : Type} (s : Driver K) (draws : List Nat)
    (sample : Nat → VectorXd K) (ps pf : MatrixXd K) (hdim : ps.rows = s._dim)
    (hne : 1 ≤ ps.cols) (hb : 1 ≤ s._batch_size) (hrange : ∀ d ∈ draws, d < ps.cols)
    (hdistinct : min s._batch_size ps.cols ≤ draws.dedup.length) :
    ∃ idxs : List Nat, idxs.length = min s._batch_size ps.cols ∧ (∀ i ∈ idxs, i < ps.cols) ∧
      _select_candidate_random s draws sample ps pf
        = .ok ⟨s._dim, idxs.map (fun i => ps.colList.getD i [])
            ++ (List.range (s._batch_size - min s._batch_size ps.cols)).map sample⟩ := by
  have hm : (if ps.cols > s._batch_size then s._batch_size else ps.cols)
      = min s._batch_size ps.cols := by
    split <;> omega
  obtain ⟨idxs, hpick, hlen, hmem⟩ := pick_loop_ok (min s._batch_size ps.cols) draws []
    List.Pairwise.nil (Nat.zero_le _) (by
      simpa [List.card_toFinset] using hdistinct)
  have hlt : ∀ i ∈ idxs, i < ps.cols := by
    intro i hi
    rcases hmem i hi with h | h
    · simp at h
    · exact hrange i h
  have hnil : idxs ≠ [] := by
    intro h0
    rw [h0] at hlen
    simp only [List.length_nil] at hlen
    omega
  have hle : min s._batch_size ps.cols ≤ ps.cols := Nat.min_le_right _ _
  have hnum : (if s._batch_size > idxs.length then s._batch_size - idxs.length else 0)
      = s._batch_size - min s._batch_size ps.cols := by
    rw [hlen]
    split <;> omega
  have hfit : (⟨ps.rows, idxs.map (fun i => ps.colList.getD i [])⟩ : MatrixXd K).rows = s._dim ∧
      (_set_random s sample (s._batch_size - min s._batch_size ps.cols)).rows = s._dim ∧
      (⟨ps.rows, idxs.map (fun i => ps.colList.getD i [])⟩ : MatrixXd K).cols
        + (_set_random s sample (s._batch_size - min s._batch_size ps.cols)).cols
          = s._batch_size := by
    refine ⟨hdim, rfl, ?_⟩
    simp only [MatrixXd.cols, _set_random, List.length_map, List.length_range, hlen]
    omega
  have hcomma : commaInit2 s._dim s._batch_size
      ⟨ps.rows, idxs.map (fun i => ps.colList.getD i [])⟩
      (_set_random s sample (s._batch_size - min s._batch_size ps.cols))
      = .ok ⟨s._dim, idxs.map (fun i => ps.colList.getD i [])
          ++ (List.range (s._batch_size - min s._batch_size ps.cols)).map sample⟩ := by
    unfold commaInit2
    rw [if_pos hfit]
    rfl
  refine ⟨idxs, hlen, hlt, ?_⟩
  simp only [_select_candidate_random, _pick_from_seq, MYASSERT, hm, hle, if_true, hpick,
    slice_matrix_ok ps idxs hnil hlt, hnum, hcomma, bind, Except.bind, pure, Except.pure]

theorem extreme_loop_spec {K : Type} [LinearOrder K] (ps pf : MatrixXd K) (hps : ps.WF)
    (hpf : pf.WF) (hcols : pf.cols = ps.cols) (hne : 1 ≤ ps.cols) :
    ∀ (is : List Nat) (cand : MatrixXd K), cand.rows = ps.rows →
      (∀ i ∈ is, i < pf.rows ∧ i < cand.cols) →
      ∃ r, extreme_loop ps pf cand is = .ok r ∧ r.rows = cand.rows ∧ r.cols = cand.cols ∧
        (∀ i, i ∉ is → r.colList[i]? = cand.colList[i]?) ∧
        ∀ i ∈ is, ∃ row j m, pf.row i = .ok row ∧ row[j]? = some m ∧ (∀ x ∈ row, m ≤ x) ∧
          j < ps.cols ∧ r.colList[i]? = ps.colList[j]?
  | [], cand, _, _ => ⟨cand, rfl, rfl, rfl, fun _ _ => rfl, fun i hi => by simp at hi⟩
  | i :: rest, cand, hrows, hidx => by
    obtain ⟨hi1, hi2⟩ := hidx i (List.mem_cons_self _ _)
    obtain ⟨row, hrow, hlen⟩ := row_ok pf i hpf hi1
    have hrne : row ≠ [] := by
      intro h0
      rw [h0] at hlen
      simp only [List.length_nil] at hlen
      omega
    obtain ⟨j, m, hj, hjm, hmin⟩ := minCoeffIdx_spec row hrne
    have hjlt : j < ps.cols := by
      obtain ⟨hlt, -⟩ := List.getElem?_eq_some_iff.mp hjm
      omega
    obtain ⟨hcol, hmem⟩ := col_eq_getD ps j hjlt
    have hclen : (ps.colList.getD j []).length = cand.rows := by
      rw [hps _ hmem, hrows]
    have hstep : extreme_step ps pf cand i
        = .ok ⟨cand.rows, cand.colList.set i (ps.colList.getD j [])⟩ := by
      simp only [extreme_step, hrow, hj, hcol, hi2, hclen, bind, Except.bind, pure,
        Except.pure, and_self, not_true_eq_false, if_false]
    obtain ⟨r, hr, hr1, hr2, hr3, hr4⟩ := extreme_loop_spec ps pf hps hpf hcols hne rest
      ⟨cand.rows, cand.colList.set i (ps.colList.getD j [])⟩ hrows
      (by
        intro k hk
        obtain ⟨a, b⟩ := hidx k (List.mem_cons_of_mem _ hk)
        exact ⟨a, by simpa [MatrixXd.cols] using b⟩)
    refine ⟨r, ?_, hr1, ?_, ?_, ?_⟩
    · simp only [extreme_loop, hstep, bind, Except.bind]
      exact hr
    · rw [hr2]
      simp [MatrixXd.cols]
    · intro k hk
      have hk1 : k ∉ rest := fun h => hk (List.mem_cons_of_mem _ h)
      have hk2 : i ≠ k := fun h => hk (h ▸ List.mem_cons_self _ _)
      rw [hr3 k hk1]
      simp only [List.getElem?_set_ne hk2]
    · intro k hk
      by_cases hkr : k ∈ rest
      · exact hr4 k hkr
      · have hki : k = i := by
          rcases List.mem_cons.mp hk with h | h
          · exact h
          · exact absurd h hkr
        subst hki
        refine ⟨row, j, m, hrow, hjm, hmin, hjlt, ?_⟩
        rw [hr3 k hkr]
        have hk2 : k < cand.colList.length := hi2
        have hj2 : j < ps.colList.length := hjlt
        simp only [List.getElem?_set_self hk2]
        rw [List.getD_eq_getElem?_getD, List.getElem?_eq_getElem hj2]
        rfl

theorem col_eq_of_getElem? {K : Type} (a b : MatrixXd K) (i j : Nat)
    (h : a.colList[i]? = b.colList[j]?) : a.col i = b.col j := by
  simp only [MatrixXd.col, h]

/-- C14 fails on the code: `_select_candidate_extreme` starts with a call of
the Random policy, and for a Pareto set without columns, or a batch size of 0,
that call reaches `_slice_matrix` with an empty index vector, where
`max_element` of an empty range is dereferenced: no matrix is returned.  For a
Pareto set `ps` of the driver's dimension with at least one column, a front
`pf` with as many columns and one row per pool entry, and a batch size of at
least 1, when the engine's draws are column indices of `ps` and hold
`min(batch_size, ps.cols())` distinct values, the Random policy returns a
matrix `c` and `_select_candidate_extreme` returns a matrix of `_dim` rows and
`batch_size` columns whose column `i`, for every
`i < min(pool_size, batch_size, ps.cols())`, is the Pareto point `ps.col(j)` at
an index `j` where row `i` of `pf` is least, and whose other columns are the
columns of `c`. -/
theorem select_candidate_extreme_columns {K : Type} [LinearOrder K] (s : Driver K)
    (draws : List Nat) (sample : Nat → VectorXd K) (ps pf : MatrixXd K) (hps : ps.WF)
    (hpf : pf.WF) (hcols : pf.cols = ps.cols) (hrows : pf.rows = s._acq_pool.length)
    (hdim : ps.rows = s._dim) :
    (ps.cols = 0 ∨ s._batch_size = 0 →
      _select_candidate_extreme s draws sample ps pf = .error .undefined) ∧
    (1 ≤ ps.cols → 1 ≤ s._batch_size → (∀ d ∈ draws, d < ps.cols) →
      min s._batch_size ps.cols ≤ draws.dedup.length →
      ∃ c r, _select_candidate_random s draws sample ps pf = .ok c ∧
        _select_candidate_extreme s draws sample ps pf = .ok r ∧
        r.rows = s._dim ∧ r.cols = s._batch_size ∧
        (∀ i, i < min s._acq_pool.length (min s._batch_size ps.cols) →
          ∃ row j m p, pf.row i = .ok row ∧ row[j]? = some m ∧ (∀ x ∈ row, m ≤ x) ∧
            ps.col j = .ok p ∧ r.col i = .ok p) ∧
        (∀ i, min s._acq_pool.length (min s._batch_size ps.cols) ≤ i →
          r.col i = c.col i)) := by
  constructor
  · intro h
    simp only [_select_candidate_extreme,
      select_candidate_random_nothing_picked s draws sample ps pf h, bind, Except.bind]
  · intro hne hb hrange hdistinct
    obtain ⟨idxs, -, -, hrand⟩ :=
      select_candidate_random_ok s draws sample ps pf hdim hne hb hrange hdistinct
    obtain ⟨c1, c2⟩ := select_candidate_random_cols s draws sample ps pf _ hrand
    obtain ⟨r, hr, hr1, hr2, hr3, hr4⟩ := extreme_loop_spec ps pf hps hpf hcols hne
      (List.range (min s._acq_pool.length (min s._batch_size ps.cols))) _
      (by rw [c2, hdim])
      (by
        intro i hi
        have := List.mem_range.mp hi
        constructor
        · rw [hrows]
          omega
        · rw [c1]
          omega)
    refine ⟨_, r, hrand, ?_, by rw [hr1, c2], by rw [hr2, c1], ?_, ?_⟩
    · simp only [_select_candidate_extreme, hrand, bind, Except.bind]
      exact hr
    · intro i hi
      obtain ⟨row, j, m, h1, h2, h3, h4, h5⟩ := hr4 i (List.mem_range.mpr hi)
      obtain ⟨hcol, -⟩ := col_eq_getD ps j h4
      exact ⟨row, j, m, _, h1, h2, h3, hcol, by rw [col_eq_of_getElem? r ps i j h5, hcol]⟩
    · intro i hi
      exact col_eq_of_getElem? r _ i i (hr3 i (by
        intro h
        have := List.mem_range.mp h
        omega))

/-- C14, on the example driver (pool of two acquisitions): for a Pareto set
without columns the call does not return.  With batch size 3, the Pareto set
`(4, -7, 12)`, the front with the rows `(1, 0, 2)` and `(2, 3, 1)` and the draws
0, 2, 1 the Random policy returns `(4, -7, 12)` and the Extreme policy returns
`(-7, 12, 12)`: the columns 0 and 1 are the Pareto points where the rows 0 and 1
of the front are least, the column 2 is the one of the Random policy. -/
theorem select_candidate_extreme_columns_example :
    _select_candidate_extreme (exampleDriver ℚ) exampleEnv.select_draws
        exampleEnv.select_sample ⟨1, []⟩ ⟨2, []⟩ = .error .undefined ∧
    _select_candidate_random { exampleDriver ℚ with _batch_size := 3 } exampleEnv.select_draws
        exampleEnv.select_sample exampleEnv.ps exampleEnv.pf = .ok ⟨1, [[4], [-7], [12]]⟩ ∧
    _select_candidate_extreme { exampleDriver ℚ with _batch_size := 3 } exampleEnv.select_draws
        exampleEnv.select_sample exampleEnv.ps exampleEnv.pf = .ok ⟨1, [[-7], [12], [12]]⟩ ∧
    ∃ c r, _select_candidate_random { exampleDriver ℚ with _batch_size := 3 }
          exampleEnv.select_draws exampleEnv.select_sample exampleEnv.ps exampleEnv.pf = .ok c ∧
        _select_candidate_extreme { exampleDriver ℚ with _batch_size := 3 }
          exampleEnv.select_draws exampleEnv.select_sample exampleEnv.ps exampleEnv.pf = .ok r ∧
        r.rows = 1 ∧ r.cols = 3 ∧
        (∀ i, i < min 2 (min 3 exampleEnv.ps.cols) →
          ∃ row j m p, exampleEnv.pf.row i = .ok row ∧ row[j]? = some m ∧ (∀ x ∈ row, m ≤ x) ∧
            exampleEnv.ps.col j = .ok p ∧ r.col i = .ok p) ∧
        (∀ i, min 2 (min 3 exampleEnv.ps.cols) ≤ i → r.col i = c.col i) :=
  ⟨(select_candidate_extreme_columns (exampleDriver ℚ) exampleEnv.select_draws
      exampleEnv.select_sample ⟨1, []⟩ ⟨2, []⟩
      (by intro c hc; simp at hc) (by intro c hc; simp at hc) rfl rfl rfl).1 (Or.inl rfl),
    by rfl, by rfl,
    (select_candidate_extreme_columns { exampleDriver ℚ with _batch_size := 3 }
      exampleEnv.select_draws exampleEnv.select_sample exampleEnv.ps exampleEnv.pf
      (by intro c hc; simp [exampleEnv] at hc; rcases hc with rfl | rfl | rfl <;> rfl)
      (by intro c hc; simp [exampleEnv] at hc; rcases hc with rfl | rfl | rfl <;> rfl)
      rfl rfl rfl).2 (by decide) (by decide) (by decide) (by decide)⟩

/-! ## A completed run of the optimisation loop -/

theorem acq_known_ok {K : Type} [LinearOrderedField K] (m : Numerics K)
    (s : Driver K) (name : String) (x : VectorXd K) (hspec : s._num_spec = 1)
    (hgp : ∃ g, s._gp = some g ∧ g.trained = true) (hy : s._best_y ≠ [])
    (hp : s._best_posterior_y ≠ [])
    (hname : name ∈ ["pi_transf", "log_lcb_improv_transf", "log_ei", "s2"]) :
    (∃ v, _acq m s name x = .ok v) ∧ (∃ v, _acq_grad m s name x = .ok v) := by
  obtain ⟨g, hg, htr⟩ := hgp
  obtain ⟨t, ht⟩ := get_tau_ok s hy hp
  have hns : ¬ s._num_spec > 1 := by omega
  have hgo : gpOf s = .ok g := by simp [gpOf, hg]
  have hat : assertTrained s = .ok g := by
    simp [assertTrained, hgo, htr, MYASSERT, bind, Except.bind, pure, Except.pure]
  have v1 : ∃ v, _pi_transf m s x = .ok v := by
    simp [_pi_transf, hat, ht, bind, Except.bind, pure, Except.pure]
  have v2 : ∃ v, _log_lcb_improv_transf m s x = .ok v := by
    simp only [_log_lcb_improv_transf, _lcb_improv, hgo, ht, bind, Except.bind, pure,
      Except.pure]
    split
    · exact ⟨_, rfl⟩
    · split <;> exact ⟨_, rfl⟩
  have v3 : ∃ v, _log_ei m s x = .ok v := by
    simp [_log_ei, hgo, ht, bind, Except.bind, pure, Except.pure]
  have v4 : ∃ v, _s2 s x = .ok v := by
    simp [_s2, hat, bind, Except.bind, pure, Except.pure]
  have g1 : ∃ v, _pi_transf_grad m s x = .ok v := by
    simp [_pi_transf_grad, hat, ht, bind, Except.bind, pure, Except.pure]
  have g2 : ∃ v, _lcb_improv_transf_grad m s x = .ok v := by
    simp [_lcb_improv_transf_grad, _lcb_improv_grad, hgo, ht, bind, Except.bind, pure,
      Except.pure]
  have g3 : ∃ v, _log_ei_grad m s x = .ok v := by
    simp only [_log_ei_grad, hgo, ht, bind, Except.bind, pure, Except.pure]
    split <;> exact ⟨_, rfl⟩
  have g4 : ∃ v, _s2_grad s x = .ok v := by
    simp [_s2_grad, hat, bind, Except.bind, pure, Except.pure]
  unfold _acq _acq_grad
  simp only [hns, if_false]
  simp only [List.mem_cons, List.mem_singleton, List.not_mem_nil, or_false] at hname
  rcases hname with n | n | n | n
  · simp [n, v1, g1]
  · have hne : ¬ ("log_lcb_improv_transf" : String) = "pi_transf" := by decide
    simp [n, hne, v2, g2]
  · have hne1 : ¬ ("log_ei" : String) = "pi_transf" := by decide
    have hne2 : ¬ ("log_ei" : String) = "log_lcb_improv_transf" := by decide
    simp [n, hne1, hne2, v3, g3]
  · have hne1 : ¬ ("s2" : String) = "pi_transf" := by decide
    have hne2 : ¬ ("s2" : String) = "log_lcb_improv_transf" := by decide
    have hne3 : ¬ ("s2" : String) = "log_ei" := by decide
    simp [n, hne1, hne2, hne3, v4, g4]

theorem acq_ensemble_ok {K : Type} [LinearOrderedField K] (m : Numerics K) (env : StepEnv K)
    (s : Driver K) (hspec : s._num_spec = 1)
    (hgp : ∃ g, s._gp = some g ∧ g.trained = true) (hy : s._best_y ≠ [])
    (hp : s._best_posterior_y ≠ []) :
    ∀ pool : List String,
      (∀ name ∈ pool, name ∈ ["pi_transf", "log_lcb_improv_transf", "log_ei", "s2"]) →
      acq_ensemble m env s pool = .ok ()
  | [], _ => rfl
  | name :: rest, h => by
    obtain ⟨⟨v, hv⟩, ⟨w, hw⟩⟩ := acq_known_ok m s name env.seed hspec hgp hy hp
      (h name (List.mem_cons_self _ _))
    simp only [acq_ensemble, hv, hw, bind, Except.bind]
    exact acq_ensemble_ok m env s hspec hgp hy hp rest
      (fun n hn => h n (List.mem_cons_of_mem _ hn))

theorem optimize_one_step_compose {K : Type} [LinearOrderedField K] (m : Numerics K)
    (env : StepEnv K) (s s1 s2 t0 s3 s4 : Driver K) (x0 : MatrixXd K)
    (h1 : _train_GP env s = .ok s1) (h2 : _set_best_posterior_mean env s1 = .ok s2)
    (hf : s2._have_feas = true) (h3 : choose_batch m env s2 = .ok (t0, x0))
    (h4 : adjust_and_evaluate m env t0 x0 = .ok s3) (h5 : add_batch env s3 = .ok s4) :
    optimize_one_step m env s = .ok s4 := by
  have hnone : ¬ s._gp.isNone = true := by
    cases hg : s._gp with
    | none => simp [_train_GP, gpOf, hg, bind, Except.bind] at h1
    | some g => simp
  unfold optimize_one_step
  simp only [hnone, if_false, h1, h2, hf, h3, h4, h5, bind, Except.bind, not_true_eq_false,
    Bool.false_eq_true]

theorem choose_batch_exploit {K : Type} [LinearOrderedField K] (m : Numerics K)
    (env : StepEnv K) (s : Driver K) (x0 : MatrixXd K) (hni : s._no_improve_counter = 0)
    (hacq : acq_ensemble m env (_set_kappa m s) s._acq_pool = .ok ())
    (hsel : _select_candidate m.sqrt (_set_kappa m s) env.select_draws env.select_sample
      env.ps env.pf = .ok x0) :
    choose_batch m env s = .ok (_set_kappa m s, x0) := by
  have hpool : (_set_kappa m s)._acq_pool = s._acq_pool := rfl
  unfold choose_batch
  simp only [hni, gt_iff_lt, lt_self_iff_false, false_and, if_false, hpool, hacq, hsel, bind,
    Except.bind, pure, Except.pure]

theorem adjust_and_evaluate_compose {K : Type} [LinearOrderedField K] (m : Numerics K)
    (env : StepEnv K) (t0 t : Driver K) (x0 x y : MatrixXd K)
    (hadj : _adjust_x m.sqrt t0 env.adjust_draws x0 = .ok x)
    (hrun : _run_func t0 x = .ok (t, y)) :
    adjust_and_evaluate m env t0 x0 = .ok { t with _eval_x := x, _eval_y := y } := by
  simp only [adjust_and_evaluate, hadj, hrun, bind, Except.bind, pure, Except.pure]

theorem train_GP_ok {K : Type} (env : StepEnv K) (s : Driver K) (g : GP K)
    (hg : s._gp = some g) (hni : s._no_improve_counter = 0) :
    _train_GP env s = .ok { s with _gp := some (env.train g) } := by
  simp [_train_GP, gpOf, hg, hni, bind, Except.bind, pure, Except.pure]

theorem set_best_posterior_mean_ok {K : Type} (env : StepEnv K) (s : Driver K) (g : GP K)
    (hg : s._gp = some g) (htr : g.trained = true) :
    _set_best_posterior_mean env s
      = .ok { s with _best_posterior_y := env.best_posterior_y } := by
  simp [_set_best_posterior_mean, hg, htr]

theorem add_batch_ok {K : Type} (env : StepEnv K) (s : Driver K) (g : GP K)
    (hg : s._gp = some g) :
    add_batch env s = .ok { s with _gp := some (env.add_data g s._eval_x s._eval_y) } := by
  simp only [add_batch, gpOf, hg, bind, Except.bind, pure, Except.pure]

theorem example_select (s : Driver ℚ) (hss : s._ss = .Random) (hb : s._batch_size = 2)
    (hdim : s._dim = 1) :
    _select_candidate exampleNumerics.sqrt s exampleEnv.select_draws exampleEnv.select_sample
      exampleEnv.ps exampleEnv.pf = .ok ⟨1, [[4], [12]]⟩ := by
  simp only [_select_candidate, hss, _select_candidate_random, hb, _set_random, hdim]
  rfl

theorem example_adjust_first (s : Driver ℚ) (g : GP ℚ) (hdim : s._dim = 1)
    (hg : s._gp = some g) (htrain : g.train_in = ⟨1, [[0], [10]]⟩) (heps : s._eps = 1 / 1000)
    (hub : s._scaled_ub = 25) (hlb : s._scaled_lb = -25) :
    _adjust_x exampleNumerics.sqrt s exampleEnv.adjust_draws ⟨1, [[4], [12]]⟩
      = .ok ⟨1, [[4], [12]]⟩ := by
  norm_num [_adjust_x, hdim, hg, htrain, heps, hub, hlb, exampleEnv, exampleNumerics,
    MatrixXd.cols, adjust_loop, commaInit2, adjust_col, _duplication_checking, vsub, norm,
    bind, Except.bind, pure, Except.pure]

theorem example_adjust_second (s : Driver ℚ) (g : GP ℚ) (hdim : s._dim = 1)
    (hg : s._gp = some g) (htrain : g.train_in = ⟨1, [[0], [10], [4], [12]]⟩)
    (heps : s._eps = 1 / 1000) (hub : s._scaled_ub = 25) (hlb : s._scaled_lb = -25) :
    _adjust_x exampleNumerics.sqrt s exampleEnv.adjust_draws ⟨1, [[4], [12]]⟩
      = .ok ⟨1, [[21], [-22]]⟩ := by
  norm_num [_adjust_x, hdim, hg, htrain, heps, hub, hlb, exampleEnv, exampleNumerics,
    MatrixXd.cols, adjust_loop, commaInit2, adjust_col, _duplication_checking, vsub, norm,
    bind, Except.bind, pure, Except.pure]

theorem example_run_first (s : Driver ℚ) (h1 : s._a = [1 / 25]) (h2 : s._b = [0])
    (h3 : s._num_spec = 1) (h4 : s._best_y = [5])
    (h5 : s._func = fun x => [(x.map (fun c => c * c)).sum]) :
    _run_func s ⟨1, [[4], [12]]⟩ = .ok
      ({ s with
          _have_feas := true
          _best_x := [4 / 25]
          _best_y := [16 / 625]
          _no_improve_counter := 0
          _eval_counter := s._eval_counter + 2 }, ⟨1, [[16 / 625], [144 / 625]]⟩) := by
  norm_num [_run_func, run_func_scan, run_func_visit, _better, _is_feas, coeff0, _rescale, vadd,
    vmul, h1, h2, h3, h4, h5, MatrixXd.cols, bind, Except.bind, pure, Except.pure]

theorem example_run_second (s : Driver ℚ) (h1 : s._a = [1 / 25]) (h2 : s._b = [0])
    (h3 : s._num_spec = 1) (h4 : s._best_y = [16 / 625])
    (h5 : s._func = fun x => [(x.map (fun c => c * c)).sum]) :
    _run_func s ⟨1, [[21], [-22]]⟩ = .ok
      ({ s with
          _have_feas := true
          _no_improve_counter := s._no_improve_counter + 1
          _eval_counter := s._eval_counter + 2 }, ⟨1, [[441 / 625], [484 / 625]]⟩) := by
  norm_num [_run_func, run_func_scan, run_func_visit, _better, _is_feas, coeff0, _rescale, vadd,
    vmul, h1, h2, h3, h4, h5, MatrixXd.cols, bind, Except.bind, pure, Except.pure]

theorem example_pool_known :
    ∀ name ∈ ["log_ei", "log_lcb_improv_transf"],
      name ∈ ["pi_transf", "log_lcb_improv_transf", "log_ei", "s2"] := by
  intro name h
  simp only [List.mem_cons, List.mem_singleton, List.not_mem_nil, or_false] at h ⊢
  rcases h with h | h
  · exact Or.inr (Or.inr (Or.inl h))
  · exact Or.inr (Or.inl h)

theorem example_step_first (s : Driver ℚ) (c : Nat)
    (h : ExampleRunState s [[0], [10]] [5] c) :
    ∃ s1, optimize_one_step exampleNumerics exampleEnv s = .ok s1 ∧
      ExampleRunState s1 [[0], [10], [4], [12]] [16 / 625] (c + 2) := by
  obtain ⟨⟨g, hg, htrain⟩, hf, hni, hspec, hdim, hb, hss, hpool, heps, hub, hlb, ha, hbb, hfun,
    hby, hc, hmax⟩ := h
  have h1 : _train_GP exampleEnv s = .ok { s with _gp := some (exampleEnv.train g) } :=
    train_GP_ok exampleEnv s g hg hni
  have h2 : _set_best_posterior_mean exampleEnv { s with _gp := some (exampleEnv.train g) }
      = .ok { s with
          _gp := some (exampleEnv.train g)
          _best_posterior_y := exampleEnv.best_posterior_y } :=
    set_best_posterior_mean_ok exampleEnv { s with _gp := some (exampleEnv.train g) }
      (exampleEnv.train g) rfl rfl
  have hacq : acq_ensemble exampleNumerics exampleEnv
      (_set_kappa exampleNumerics { s with
          _gp := some (exampleEnv.train g)
          _best_posterior_y := exampleEnv.best_posterior_y }) s._acq_pool = .ok () := by
    rw [hpool]
    exact acq_ensemble_ok exampleNumerics exampleEnv
      (_set_kappa exampleNumerics { s with
          _gp := some (exampleEnv.train g)
          _best_posterior_y := exampleEnv.best_posterior_y }) hspec
      ⟨exampleEnv.train g, rfl, rfl⟩
      (show s._best_y ≠ [] by rw [hby]; exact List.cons_ne_nil _ _)
      (show exampleEnv.best_posterior_y ≠ [] from List.cons_ne_nil _ _)
      _ example_pool_known
  have h3 : choose_batch exampleNumerics exampleEnv { s with
          _gp := some (exampleEnv.train g)
          _best_posterior_y := exampleEnv.best_posterior_y }
      = .ok (_set_kappa exampleNumerics { s with
          _gp := some (exampleEnv.train g)
          _best_posterior_y := exampleEnv.best_posterior_y }, ⟨1, [[4], [12]]⟩) :=
    choose_batch_exploit exampleNumerics exampleEnv _ _ hni hacq
      (example_select (_set_kappa exampleNumerics { s with
          _gp := some (exampleEnv.train g)
          _best_posterior_y := exampleEnv.best_posterior_y })
        hss hb hdim)
  have h4 : adjust_and_evaluate exampleNumerics exampleEnv
      (_set_kappa exampleNumerics { s with
          _gp := some (exampleEnv.train g)
          _best_posterior_y := exampleEnv.best_posterior_y }) ⟨1, [[4], [12]]⟩
      = .ok { s with
          _gp := some (exampleEnv.train g)
          _best_posterior_y := exampleEnv.best_posterior_y
          _kappa := (_set_kappa exampleNumerics { s with
            _gp := some (exampleEnv.train g)
            _best_posterior_y := exampleEnv.best_posterior_y })._kappa
          _have_feas := true
          _best_x := [4 / 25]
          _best_y := [16 / 625]
          _no_improve_counter := 0
          _eval_counter := s._eval_counter + 2
          _eval_x := ⟨1, [[4], [12]]⟩
          _eval_y := ⟨1, [[16 / 625], [144 / 625]]⟩ } :=
    adjust_and_evaluate_compose exampleNumerics exampleEnv _ _ _ _ _
      (example_adjust_first (_set_kappa exampleNumerics { s with
          _gp := some (exampleEnv.train g)
          _best_posterior_y := exampleEnv.best_posterior_y })
        (exampleEnv.train g) hdim rfl htrain heps hub hlb)
      (example_run_first (_set_kappa exampleNumerics { s with
          _gp := some (exampleEnv.train g)
          _best_posterior_y := exampleEnv.best_posterior_y })
        ha hbb hspec hby hfun)
  have h5 := add_batch_ok exampleEnv { s with
          _gp := some (exampleEnv.train g)
          _best_posterior_y := exampleEnv.best_posterior_y
          _kappa := (_set_kappa exampleNumerics { s with
            _gp := some (exampleEnv.train g)
            _best_posterior_y := exampleEnv.best_posterior_y })._kappa
          _have_feas := true
          _best_x := [4 / 25]
          _best_y := [16 / 625]
          _no_improve_counter := 0
          _eval_counter := s._eval_counter + 2
          _eval_x := ⟨1, [[4], [12]]⟩
          _eval_y := ⟨1, [[16 / 625], [144 / 625]]⟩ } (exampleEnv.train g) rfl
  have hstep := optimize_one_step_compose exampleNumerics exampleEnv s _ _ _ _ _ _ h1 h2 hf h3
    h4 h5
  refine ⟨_, hstep, ⟨_, rfl, ?_⟩, rfl, rfl, hspec, hdim, hb, hss, hpool, heps, hub, hlb, ha, hbb,
    hfun, rfl, ?_, hmax⟩
  · show (⟨g.train_in.rows, g.train_in.colList ++ [[4], [12]]⟩ : MatrixXd ℚ) = _
    rw [htrain]
    rfl
  · show s._eval_counter + 2 = c + 2
    rw [hc]

theorem example_step_second (s : Driver ℚ) (c : Nat)
    (h : ExampleRunState s [[0], [10], [4], [12]] [16 / 625] c) :
    ∃ s1, optimize_one_step exampleNumerics exampleEnv s = .ok s1 ∧
      s1._eval_counter = c + 2 ∧ s1._max_eval = 3 := by
  obtain ⟨⟨g, hg, htrain⟩, hf, hni, hspec, hdim, hb, hss, hpool, heps, hub, hlb, ha, hbb, hfun,
    hby, hc, hmax⟩ := h
  have h1 : _train_GP exampleEnv s = .ok { s with _gp := some (exampleEnv.train g) } :=
    train_GP_ok exampleEnv s g hg hni
  have h2 : _set_best_posterior_mean exampleEnv { s with _gp := some (exampleEnv.train g) }
      = .ok { s with
          _gp := some (exampleEnv.train g)
          _best_posterior_y := exampleEnv.best_posterior_y } :=
    set_best_posterior_mean_ok exampleEnv { s with _gp := some (exampleEnv.train g) }
      (exampleEnv.train g) rfl rfl
  have hacq : acq_ensemble exampleNumerics exampleEnv
      (_set_kappa exampleNumerics { s with
          _gp := some (exampleEnv.train g)
          _best_posterior_y := exampleEnv.best_posterior_y }) s._acq_pool = .ok () := by
    rw [hpool]
    exact acq_ensemble_ok exampleNumerics exampleEnv
      (_set_kappa exampleNumerics { s with
          _gp := some (exampleEnv.train g)
          _best_posterior_y := exampleEnv.best_posterior_y }) hspec
      ⟨exampleEnv.train g, rfl, rfl⟩
      (show s._best_y ≠ [] by rw [hby]; exact List.cons_ne_nil _ _)
      (show exampleEnv.best_posterior_y ≠ [] from List.cons_ne_nil _ _)
      _ example_pool_known
  have h3 : choose_batch exampleNumerics exampleEnv { s with
          _gp := some (exampleEnv.train g)
          _best_posterior_y := exampleEnv.best_posterior_y }
      = .ok (_set_kappa exampleNumerics { s with
          _gp := some (exampleEnv.train g)
          _best_posterior_y := exampleEnv.best_posterior_y }, ⟨1, [[4], [12]]⟩) :=
    choose_batch_exploit exampleNumerics exampleEnv _ _ hni hacq
      (example_select (_set_kappa exampleNumerics { s with
          _gp := some (exampleEnv.train g)
          _best_posterior_y := exampleEnv.best_posterior_y })
        hss hb hdim)
  have h4 : adjust_and_evaluate exampleNumerics exampleEnv
      (_set_kappa exampleNumerics { s with
          _gp := some (exampleEnv.train g)
          _best_posterior_y := exampleEnv.best_posterior_y }) ⟨1, [[4], [12]]⟩
      = .ok { s with
          _gp := some (exampleEnv.train g)
          _best_posterior_y := exampleEnv.best_posterior_y
          _kappa := (_set_kappa exampleNumerics { s with
            _gp := some (exampleEnv.train g)
            _best_posterior_y := exampleEnv.best_posterior_y })._kappa
          _have_feas := true
          _no_improve_counter := s._no_improve_counter + 1
          _eval_counter := s._eval_counter + 2
          _eval_x := ⟨1, [[21], [-22]]⟩
          _eval_y := ⟨1, [[441 / 625], [484 / 625]]⟩ } :=
    adjust_and_evaluate_compose exampleNumerics exampleEnv _ _ _ _ _
      (example_adjust_second (_set_kappa exampleNumerics { s with
          _gp := some (exampleEnv.train g)
          _best_posterior_y := exampleEnv.best_posterior_y })
        (exampleEnv.train g) hdim rfl htrain heps hub hlb)
      (example_run_second (_set_kappa exampleNumerics { s with
          _gp := some (exampleEnv.train g)
          _best_posterior_y := exampleEnv.best_posterior_y })
        ha hbb hspec hby hfun)
  have h5 := add_batch_ok exampleEnv { s with
          _gp := some (exampleEnv.train g)
          _best_posterior_y := exampleEnv.best_posterior_y
          _kappa := (_set_kappa exampleNumerics { s with
            _gp := some (exampleEnv.train g)
            _best_posterior_y := exampleEnv.best_posterior_y })._kappa
          _have_feas := true
          _no_improve_counter := s._no_improve_counter + 1
          _eval_counter := s._eval_counter + 2
          _eval_x := ⟨1, [[21], [-22]]⟩
          _eval_y := ⟨1, [[441 / 625], [484 / 625]]⟩ } (exampleEnv.train g) rfl
  have hstep := optimize_one_step_compose exampleNumerics exampleEnv s _ _ _ _ _ _ h1 h2 hf h3
    h4 h5
  refine ⟨_, hstep, ?_, hmax⟩
  show s._eval_counter + 2 = c + 2
  rw [hc]

theorem example_init_state : ExampleRunState (exampleDriverInit ℚ) [[0], [10]] [5] 0 :=
  ⟨⟨exampleGP ℚ, rfl, rfl⟩, rfl, rfl, rfl, rfl, rfl, rfl, rfl, rfl, rfl, rfl, rfl, rfl, rfl, rfl,
    rfl, rfl⟩

theorem example_created :
    create (exampleDriver ℚ) 1000 (exampleDriver ℚ)._func 1 [-1] [1] =
      .ok { exampleDriver ℚ with _best_x := [1000], _best_y := [1000] } := by
  have h1 : ((-25 : ℚ) < 25) := by norm_num
  have h2 : allLt ([-1] : List ℚ) [1] = true := by
    simp [allLt]
  have h3 : (vsub ([1] : List ℚ) [-1]).map (fun v => v / (25 - -25)) = [1 / 25] := by
    norm_num [vsub]
  have h4 : (vadd ([1] : List ℚ) [-1]).map (fun v => (1 / 2) * v) = [0] := by
    norm_num [vadd]
  unfold create
  simp only [h1, h2, h3, h4, not_true_eq_false, if_false, List.length_cons, List.length_nil,
    and_self, gt_iff_lt, lt_self_iff_false, Nat.lt_irrefl, zero_add]
  rfl

theorem example_initialize_db (s : Driver ℚ) (newGP : MatrixXd ℚ → MatrixXd ℚ → GP ℚ)
    (hg : s._gp = none) (hdim : s._dim = 1)
    (hspec : s._num_spec = 1) (hub : s._ub = [1]) (hlb : s._lb = [-1]) (ha : s._a = [1 / 25])
    (hb : s._b = [0]) :
    initialize_db newGP (fun _ => true) s ⟨1, [[0], [2 / 5]]⟩ ⟨1, [[5], [100]]⟩ =
      .ok { s with
        _best_x := [0]
        _best_y := [5]
        _have_feas := true
        _gp := some (newGP ⟨1, [[0], [10]]⟩ ⟨1, [[5], [100]]⟩)
        _no_improve_counter := 0 } := by
  norm_num [initialize_db, hg, hdim, hspec, hub, hlb, ha, hb, MYASSERT, MatrixXd.cols, allColsLe,
    allColsGe, allFinite, _unscale, vdiv, vsub, _find_best, _seq_idx, sortBy, sortInsert,
    better_cols, MatrixXd.col, _better, _is_feas, coeff0, bind, Except.bind, pure, Except.pure]

theorem optimize_loop_exit {K : Type} [LinearOrderedField K] (m : Numerics K)
    (envs : Nat → StepEnv K) (fuel k : Nat) (s : Driver K)
    (h : ¬ s._eval_counter < s._max_eval) :
    optimize_loop m envs fuel k s = some (.ok [s]) := by
  cases fuel <;> simp [optimize_loop, h]

theorem optimize_loop_next {K : Type} [LinearOrderedField K] (m : Numerics K)
    (envs : Nat → StepEnv K) (fuel k : Nat) (s s1 : Driver K) (tr : List (Driver K))
    (h : s._eval_counter < s._max_eval) (hstep : optimize_one_step m (envs k) s = .ok s1)
    (hrest : optimize_loop m envs fuel (k + 1) s1 = some (.ok tr)) :
    optimize_loop m envs (fuel + 1) k s = some (.ok (s :: tr)) := by
  simp [optimize_loop, h, hstep, hrest]

theorem example_initialised :
    initialize_db (fun _ _ => exampleGP ℚ) (fun _ => true)
        (set_max_eval { exampleDriver ℚ with _best_x := [1000], _best_y := [1000] } 3)
        ⟨1, [[0], [2 / 5]]⟩ ⟨1, [[5], [100]]⟩ = .ok (exampleDriverInit ℚ) :=
  example_initialize_db
    (set_max_eval { exampleDriver ℚ with _best_x := [1000], _best_y := [1000] } 3)
    (fun _ _ => exampleGP ℚ) rfl rfl rfl rfl rfl rfl rfl

theorem optimize_of_surrogate {K : Type} [LinearOrderedField K] (m : Numerics K)
    (newGP : MatrixXd K → MatrixXd K → GP K) (finite : K → Bool) (unit : Nat → VectorXd K)
    (envs : Nat → StepEnv K) (fuel : Nat) (s : Driver K) (h : s._gp.isNone = false) :
    optimize m newGP finite unit envs fuel s = optimize_loop m envs fuel 0 s := by
  simp [optimize, h]

theorem example_run (newGP : MatrixXd ℚ → MatrixXd ℚ → GP ℚ) (finite : ℚ → Bool)
    (unit : Nat → VectorXd ℚ) :
    ∃ s1 s2, optimize exampleNumerics newGP finite unit (fun _ => exampleEnv) 3
        (exampleDriverInit ℚ) = some (.ok [exampleDriverInit ℚ, s1, s2]) ∧
      s1._eval_counter = 2 ∧ s2._eval_counter = 4 := by
  obtain ⟨s1, h1, hs1⟩ := example_step_first (exampleDriverInit ℚ) 0 example_init_state
  obtain ⟨s2, h2, e2, m2⟩ := example_step_second s1 2 hs1
  have e1 : s1._eval_counter = 2 := hs1.2.2.2.2.2.2.2.2.2.2.2.2.2.2.2.1
  have m1 : s1._max_eval = 3 := hs1.2.2.2.2.2.2.2.2.2.2.2.2.2.2.2.2
  refine ⟨s1, s2, ?_, e1, e2⟩
  have c0 : (exampleDriverInit ℚ)._eval_counter < (exampleDriverInit ℚ)._max_eval := by
    show 0 < 3
    decide
  have l2 : optimize_loop exampleNumerics (fun _ => exampleEnv) 1 2 s2 = some (.ok [s2]) :=
    optimize_loop_exit exampleNumerics (fun _ => exampleEnv) 1 2 s2 (by omega)
  have l1 : optimize_loop exampleNumerics (fun _ => exampleEnv) 2 1 s1 = some (.ok [s1, s2]) :=
    optimize_loop_next exampleNumerics (fun _ => exampleEnv) 1 1 s1 s2 [s2] (by omega) h2 l2
  have l0 : optimize_loop exampleNumerics (fun _ => exampleEnv) 3 0 (exampleDriverInit ℚ) =
      some (.ok [exampleDriverInit ℚ, s1, s2]) :=
    optimize_loop_next exampleNumerics (fun _ => exampleEnv) 2 0 (exampleDriverInit ℚ) s1
      [s1, s2] c0 h1 l1
  exact (optimize_of_surrogate exampleNumerics newGP finite unit (fun _ => exampleEnv) 3
    (exampleDriverInit ℚ) rfl).trans l0

theorem example_init_reachable : Reachable (exampleDriverInit ℚ) := by
  have hwf : (⟨1, [[5], [100]]⟩ : MatrixXd ℚ).WF := by
    intro c hc
    simp at hc
    rcases hc with rfl | rfl <;> rfl
  exact Reachable.after_initialize_db _ _ _ _ _ _
    (Reachable.after_set_max_eval _ 3 (Reachable.constructed _ _ _ _ _ _ _ example_created))
    hwf example_initialised

/-- C6, on a completed run: the example driver, constructed, given the budget 3
and initialised from a database of two points, has a surrogate and a feasible
incumbent.  With batch size 2 the loop makes two calls of `optimize_one_step`,
which raise `_eval_counter` from 0 to 2 and from 2 to 4, and exits in the third
state: `3 <= 4 < 3 + 2`. -/
theorem optimize_terminates_example :
    create (exampleDriver ℚ) 1000 (exampleDriver ℚ)._func 1 [-1] [1] =
        .ok { exampleDriver ℚ with _best_x := [1000], _best_y := [1000] } ∧
      initialize_db (fun _ _ => exampleGP ℚ) (fun _ => true)
        (set_max_eval { exampleDriver ℚ with _best_x := [1000], _best_y := [1000] } 3)
        ⟨1, [[0], [2 / 5]]⟩ ⟨1, [[5], [100]]⟩ = .ok (exampleDriverInit ℚ) ∧
      Reachable (exampleDriverInit ℚ) ∧
      ∃ s1 s2, optimize exampleNumerics (fun _ _ => exampleGP ℚ) (fun _ => true) (fun _ => [])
          (fun _ => exampleEnv) 3 (exampleDriverInit ℚ) =
            some (.ok [exampleDriverInit ℚ, s1, s2]) ∧
        (exampleDriverInit ℚ)._eval_counter = 0 ∧ s1._eval_counter = 2 ∧
        s2._eval_counter = 4 ∧
        List.Chain' (StepLink exampleNumerics (fun _ => exampleEnv))
          [exampleDriverInit ℚ, s1, s2] ∧
        (exampleDriverInit ℚ)._max_eval ≤ s2._eval_counter ∧
        s2._eval_counter < (exampleDriverInit ℚ)._max_eval + (exampleDriverInit ℚ)._batch_size := by
  refine ⟨example_created, example_initialised, example_init_reachable, ?_⟩
  obtain ⟨s1, s2, hrun, e1, e2⟩ :=
    example_run (fun _ _ => exampleGP ℚ) (fun _ => true) (fun _ => [])
  refine ⟨s1, s2, hrun, rfl, e1, e2, ?_⟩
  obtain ⟨tr, last, -, q2, -, q4, q5⟩ :=
    optimize_terminates exampleNumerics (fun _ _ => exampleGP ℚ) (fun _ => true) (fun _ => [])
      (fun _ => exampleEnv) 3 (exampleDriverInit ℚ) rfl (by decide) (by decide)
  rcases q5 with ⟨r1, r2, r3⟩ | ⟨-, e, -, r3⟩
  · rw [hrun] at r1
    injection r1 with r1
    injection r1 with r1
    subst r1
    simp only [List.getLast?_cons_cons, List.getLast?_singleton, Option.some.injEq] at q2
    subst q2
    exact ⟨q4, r2, r3 (by simp)⟩
  · rw [hrun] at r3
    injection r3 with r3
    cases r3

end MACE
